import Mathlib

/-!
# shapeme: shape normalisation, mutation, fitness and acceptance

A shallow embedding of the evolution engine of `shapeme.c`.

* C `int`, `long` and `long long` values are Lean integers; every store into a
  `short` field goes through `toShort` and every store into an
  `unsigned char` field through `toUChar`, so the truncation performed by
  the assignment is explicit.  The divisor `width*height*442` of the score
  goes through `toInt`, which keeps an `int` product to 32 bits.  Other
  arithmetic on `int` is exact: it agrees with the program as long as no
  `int` expression overflows.
* `random()` reads the next element of an infinite stream of draws.
* A division by zero, an access outside the slot array and a loop that runs
  out of fuel are faults, reported through `Except Fault`.  Every loop bounded
  by fuel comes with a lemma showing that the fuel it is given suffices.
* The `float` values of `main` (scores and temperature) and the `float` and
  `double` values of the drawing functions are rationals; a conversion to an
  integer type drops the fraction.  This is exact wherever the values are
  whole numbers or small fractions, as on the 2 by 2 canvas; the opacity
  `alpha/100` is the rational itself, which stored as a `float` is off by
  less than one part in ten million.  The rounding of binary32 is not
  modelled: for some colours and opacities a blended byte, and for slopes
  that are not dyadic the pixel at the end of a span, can differ by one from
  the program; the temperature can reach 0 some generations apart.
-/

set_option linter.dupNamespace false

namespace Shapeme

/-! ## Data model -/

def TYPE_TRIANGLE : Int := 0

def TYPE_CIRCLE : Int := 1

def MINALPHA : Int := 10

def MAXALPHA : Int := 90

/-- Ways in which a run of the embedded code can fail to produce a value. -/
inductive Fault where
  | divByZero
  | outOfBounds
  | outOfFuel
deriving DecidableEq, Repr

deriving instance DecidableEq for Except

/-- Value kept by a store of an `int` into a `short` (two's complement wrap). -/
def toShort (v : Int) : Int := (v + 32768) % 65536 - 32768

/-- Value kept by a store of an `int` into an `unsigned char`. -/
def toUChar (v : Int) : Int := v % 256

/-- Value of an `int` computation whose exact result is `v`: the result is
kept to 32 bits, two's complement. -/
def toInt (v : Int) : Int := (v + 2147483648) % 4294967296 - 2147483648

/-- Range of a `short`. -/
def isShort (v : Int) : Prop := -32768 ≤ v ∧ v ≤ 32767

instance (v : Int) : Decidable (isShort v) := by
  unfold isShort
  infer_instance

/-- The configurable options `opt_use_triangles`, `opt_use_circles` and
`opt_mutation_rate` (globals of the source). -/
structure Options where
  opt_use_triangles : Int
  opt_use_circles : Int
  opt_mutation_rate : Int
deriving DecidableEq, Repr

/-- The `struct globalState`; the two `float` fields are rationals. -/
structure globalState where
  max_shapes : Int
  max_shapes_incremental : Int
  temperature : ℚ
  absbestdiff : ℚ
  generation : Int
deriving DecidableEq

/-- The `struct triangle`.  The six `short` fields are the members of the
union member `u.t`; the union member `u.c` shares their storage, `u.c.x1`
being `x1`, `u.c.y1` being `y1` and `u.c.radius` being `x2`. -/
structure triangle where
  type : Int
  r : Int
  g : Int
  b : Int
  alpha : Int
  x1 : Int
  y1 : Int
  x2 : Int
  y2 : Int
  x3 : Int
  y3 : Int
deriving DecidableEq, Repr

/-- The member `u.c.radius`, stored where `u.t.x2` is. -/
@[reducible] def triangle.radius (t : triangle) : Int := t.x2

/-- All six coordinate fields hold `short` values. -/
def triangle.shorts (t : triangle) : Prop :=
  isShort t.x1 ∧ isShort t.y1 ∧ isShort t.x2 ∧ isShort t.y2 ∧ isShort t.x3 ∧ isShort t.y3

instance (t : triangle) : Decidable t.shorts := by
  unfold triangle.shorts
  infer_instance

/-- The `struct triangles`: the slot array, its declared size and the number
of active slots. -/
structure triangles where
  triangles : List triangle
  count : Int
  inuse : Int
deriving DecidableEq, Repr

/-! ## Normalisation -/

/-- One execution of the body of the `do ... while(swap)` loop of
`normalizeTriangle`: the two compare-and-exchange statements, with the number
of exchanges made. -/
def sortPass (r : triangle) : triangle × Int :=
  let s1 : triangle × Int :=
    if r.y1 > r.y2 then
      ({ r with y1 := r.y2, y2 := r.y1, x1 := r.x2, x2 := r.x1 }, 1)
    else (r, 0)
  let r1 := s1.1
  if r1.y2 > r1.y3 then
    ({ r1 with y2 := r1.y3, y3 := r1.y2, x2 := r1.x3, x3 := r1.x2 }, s1.2 + 1)
  else s1

/-- The `do ... while(swap)` loop of `normalizeTriangle`, bounded by fuel. -/
def sortLoop : Nat → triangle → Except Fault triangle
  | 0, _ => .error .outOfFuel
  | fuel + 1, r =>
    let s := sortPass r
    if s.2 ≠ 0 then sortLoop fuel s.1 else .ok s.1

/-- The statement pair `if (v < 0) v = 0; if (v >= limit) v = limit-1;` on a
`short` field `v`. -/
def clampShort (v limit : Int) : Int :=
  let v1 := if v < 0 then 0 else v
  if v1 ≥ limit then toShort (limit - 1) else v1

/-- The twelve clamping statements that end `normalizeTriangle`. -/
def clampTriangle (r : triangle) (width height : Int) : triangle :=
  { r with
    x1 := clampShort r.x1 width, y1 := clampShort r.y1 height,
    x2 := clampShort r.x2 width, y2 := clampShort r.y2 height,
    x3 := clampShort r.x3 width, y3 := clampShort r.y3 height }

/-- The function `normalizeTriangle`.  Three passes of the sorting loop are
the most three values can need, so the loop is given fuel 3. -/
def normalizeTriangle (r : triangle) (width height : Int) : Except Fault triangle :=
  match sortLoop 3 r with
  | .ok s => .ok (clampTriangle s width height)
  | .error e => .error e

/-- The `while` loop of `normalizeCircle`, bounded by fuel: the radius is
decremented as long as the disc sticks out of the canvas. -/
def normalizeCircleLoop (x y width height : Int) : Nat → Int → Except Fault Int
  | fuel, radius =>
    if x - radius < 0 ∨ x + radius ≥ width ∨ y - radius < 0 ∨ y + radius ≥ height then
      match fuel with
      | 0 => .error .outOfFuel
      | f + 1 => normalizeCircleLoop x y width height f (radius - 1)
    else .ok radius

/-- The function `normalizeCircle`.  The loop stops as soon as the radius is
at most each of `x`, `width-1-x`, `y` and `height-1-y`, so its fuel is the
distance from the radius to the least of these four. -/
def normalizeCircle (r : triangle) (width height : Int) : Except Fault triangle :=
  let x := clampShort r.x1 width
  let y := clampShort r.y1 height
  let radius := r.radius
  let fuel := (radius - min (min x (width - 1 - x)) (min y (height - 1 - y))).toNat + 1
  match normalizeCircleLoop x y width height fuel radius with
  | .ok radius1 => .ok { r with x1 := x, y1 := y, x2 := toShort radius1 }
  | .error e => .error e

/-- The function `normalize`. -/
def normalize (r : triangle) (width height : Int) : Except Fault triangle :=
  if r.type = TYPE_TRIANGLE then normalizeTriangle r width height
  else normalizeCircle r width height

/-! ## Random draws and faults -/

/-- Computations that consume draws of `random()` from an infinite stream and
may fault: given the stream, either a fault or a value with the rest of the
stream. -/
def M (α : Type) : Type := (Nat → Nat) → Except Fault (α × (Nat → Nat))

instance : Monad M where
  pure a := fun g => .ok (a, g)
  bind m f := fun g =>
    match m g with
    | .ok (a, g1) => f a g1
    | .error e => .error e

/-- A fault, as a computation. -/
def fault {α : Type} (e : Fault) : M α := fun _ => .error e

/-- A computation that draws nothing, from a result that may be a fault. -/
def liftE {α : Type} (x : Except Fault α) : M α := fun g =>
  match x with
  | .ok a => .ok (a, g)
  | .error e => .error e

/-- The library function `random()`: the next draw, a non-negative integer. -/
def random : M Int := fun g => .ok ((g 0 : Int), fun i => g (i + 1))

/-- The C remainder `a % b`, a fault when `b` is zero. -/
def cmod (a b : Int) : M Int :=
  if b = 0 then fault .divByZero else pure (Int.tmod a b)

/-- The function `randbetween`. -/
def randbetween (min max : Int) : M Int := do
  let v ← random
  let m ← cmod v (max - min + 1)
  pure (min + m)

/-! ## Shape creation and mutation -/

/-- The function `selectShapeType`; `random()&1` is the parity of the draw. -/
def selectShapeType (opts : Options) : M Int := do
  let triangle : Int ←
    if opts.opt_use_circles ≠ 0 ∧ opts.opt_use_triangles ≠ 0 then do
      let v ← random
      pure (v % 2)
    else if opts.opt_use_circles ≠ 0 then pure 0
    else pure 1
  pure (if triangle ≠ 0 then TYPE_TRIANGLE else TYPE_CIRCLE)

/-- The function `setRandomColor`. -/
def setRandomColor (r : triangle) : M triangle := do
  let v1 ← random
  let cr ← cmod v1 256
  let v2 ← random
  let cg ← cmod v2 256
  let v3 ← random
  let cb ← cmod v3 256
  let a ← randbetween MINALPHA MAXALPHA
  pure { r with r := toUChar cr, g := toUChar cg, b := toUChar cb, alpha := toUChar a }

/-- The function `setRandomVertexes`. -/
def setRandomVertexes (r : triangle) (width height : Int) : M triangle := do
  if r.type = TYPE_TRIANGLE then
    let v1 ← random
    let x1 ← cmod v1 width
    let v2 ← random
    let y1 ← cmod v2 height
    let v3 ← random
    let x2 ← cmod v3 width
    let v4 ← random
    let y2 ← cmod v4 height
    let v5 ← random
    let x3 ← cmod v5 width
    let v6 ← random
    let y3 ← cmod v6 height
    pure { r with x1 := toShort x1, y1 := toShort y1, x2 := toShort x2,
                  y2 := toShort y2, x3 := toShort x3, y3 := toShort y3 }
  else
    let v1 ← random
    let x1 ← cmod v1 width
    let v2 ← random
    let y1 ← cmod v2 height
    let v3 ← random
    let radius ← cmod v3 width
    pure { r with x1 := toShort x1, y1 := toShort y1, x2 := toShort radius }

/-- The function `moveVertexes`. -/
def moveVertexes (t : triangle) (delta : Int) : M triangle := do
  if t.type = TYPE_TRIANGLE then
    let d1 ← randbetween (-delta) delta
    let d2 ← randbetween (-delta) delta
    let d3 ← randbetween (-delta) delta
    let d4 ← randbetween (-delta) delta
    let d5 ← randbetween (-delta) delta
    let d6 ← randbetween (-delta) delta
    pure { t with x1 := toShort (t.x1 + d1), y1 := toShort (t.y1 + d2),
                  x2 := toShort (t.x2 + d3), y2 := toShort (t.y2 + d4),
                  x3 := toShort (t.x3 + d5), y3 := toShort (t.y3 + d6) }
  else
    let d1 ← randbetween (-delta) delta
    let d2 ← randbetween (-delta) delta
    let d3 ← randbetween (-delta) delta
    pure { t with x1 := toShort (t.x1 + d1), y1 := toShort (t.y1 + d2),
                  x2 := toShort (t.radius + d3) }

/-- The function `randomtriangle`, on the slot content `r` it overwrites. -/
def randomtriangle (opts : Options) (r : triangle) (width height : Int) : M triangle := do
  let ty ← selectShapeType opts
  let r1 ← setRandomVertexes { r with type := ty } width height
  let r2 ← setRandomColor r1
  liftE (normalize r2 width height)

/-- The function `randomsmalltriangle`, on the slot content `r` it overwrites. -/
def randomsmalltriangle (opts : Options) (r : triangle) (width height delta : Int) :
    M triangle := do
  let vx ← random
  let x ← cmod vx width
  let vy ← random
  let y ← cmod vy height
  let ty ← selectShapeType opts
  let r0 : triangle := { r with type := ty }
  let r1 : triangle ←
    if r0.type = TYPE_TRIANGLE then do
      let d1 ← randbetween (-delta) delta
      let d2 ← randbetween (-delta) delta
      let d3 ← randbetween (-delta) delta
      let d4 ← randbetween (-delta) delta
      let d5 ← randbetween (-delta) delta
      let d6 ← randbetween (-delta) delta
      pure { r0 with x1 := toShort (x + d1), y1 := toShort (y + d2),
                     x2 := toShort (x + d3), y2 := toShort (y + d4),
                     x3 := toShort (x + d5), y3 := toShort (y + d6) }
    else do
      let radius ← randbetween 1 delta
      pure { r0 with x1 := toShort x, y1 := toShort y, x2 := toShort radius }
  let r2 ← setRandomColor r1
  liftE (normalize r2 width height)

/-- The clamping `if (c < 0) c = 0; else if (c > 255) c = 255;` of a colour
channel in `mutatetriangle`. -/
def clampChannel (c : Int) : Int :=
  if c < 0 then 0 else if c > 255 then 255 else c

/-- The function `mutatetriangle`. -/
def mutatetriangle (t : triangle) (width height : Int) : M triangle := do
  let v ← random
  let choice ← cmod v 6
  if choice = 0 then
    let t1 ← setRandomVertexes t width height
    liftE (normalize t1 width height)
  else if choice = 1 then
    let t1 ← moveVertexes t 20
    liftE (normalize t1 width height)
  else if choice = 2 then
    let t1 ← moveVertexes t 5
    liftE (normalize t1 width height)
  else if choice = 3 then
    let v1 ← random
    let cr ← cmod v1 256
    let v2 ← random
    let cg ← cmod v2 256
    let v3 ← random
    let cb ← cmod v3 256
    pure { t with r := toUChar cr, g := toUChar cg, b := toUChar cb }
  else if choice = 4 then
    let d1 ← randbetween (-5) 5
    let d2 ← randbetween (-5) 5
    let d3 ← randbetween (-5) 5
    pure { t with r := toUChar (clampChannel (t.r + d1)),
                  g := toUChar (clampChannel (t.g + d2)),
                  b := toUChar (clampChannel (t.b + d3)) }
  else if choice = 5 then
    let a ← randbetween MINALPHA MAXALPHA
    pure { t with alpha := toUChar a }
  else pure t

/-! ## Shape sets -/

/-- Read of the slot `rs->triangles[i]`; a fault outside the array. -/
def getSlot (ts : List triangle) (i : Int) : M triangle :=
  if 0 ≤ i then
    match ts[i.toNat]? with
    | some t => pure t
    | none => fault .outOfBounds
  else fault .outOfBounds

/-- The call `memmove(ts+dst, ts+src, sizeof(struct triangle)*n)`: the `n`
slots from index `src` are copied to the `n` slots from index `dst`; a fault
when either range leaves the array. -/
def memmoveSlots (ts : List triangle) (dst src n : Int) : M (List triangle) :=
  if 0 ≤ dst ∧ 0 ≤ src ∧ 0 ≤ n ∧ dst + n ≤ ts.length ∧ src + n ≤ ts.length then
    pure (ts.take dst.toNat ++ (ts.drop src.toNat).take n.toNat ++ ts.drop (dst + n).toNat)
  else fault .outOfBounds

/-- The block of `mutatetriangles` that adds a shape, entered once the draw
and the room test have passed: a new shape is made in the slot of index
`inuse`, which becomes active. -/
def addStep (opts : Options) (rs : triangles) (width height : Int) : M triangles := do
  let v ← random
  let r ← cmod v 5
  let slot ← getSlot rs.triangles rs.inuse
  let t : triangle ←
    if r = 0 then randomtriangle opts slot width height
    else if r = 1 then randomsmalltriangle opts slot width height 5
    else if r = 2 then randomsmalltriangle opts slot width height 10
    else if r = 3 then randomsmalltriangle opts slot width height 25
    else if r = 4 then randomsmalltriangle opts slot width height 2
    else pure slot
  pure { rs with triangles := rs.triangles.set rs.inuse.toNat t, inuse := rs.inuse + 1 }

/-- The block of `mutatetriangles` that removes a shape, entered once the
draw and the test `inuse > 1` have passed. -/
def removeStep (rs : triangles) : M triangles := do
  let v ← random
  let delidx ← cmod v rs.inuse
  let inuse := rs.inuse - 1
  let ts ← memmoveSlots rs.triangles delidx (delidx + 1) (inuse - delidx)
  pure { rs with triangles := ts, inuse := inuse }

/-- The block of `mutatetriangles` that swaps two shapes, with its draw. -/
def swapStep (rs : triangles) : M triangles := do
  let v ← random
  let c ← cmod v 20
  if c = 0 then
    let va ← random
    let a ← cmod va rs.inuse
    let vb ← random
    let b ← cmod vb rs.inuse
    if a ≠ b then
      let aux ← getSlot rs.triangles a
      let tb ← getSlot rs.triangles b
      pure { rs with triangles := (rs.triangles.set a.toNat tb).set b.toNat aux }
    else pure rs
  else pure rs

/-- The loop `for (j = 0; j < count; j++)` that ends `mutatetriangles`, by
recursion on the number of iterations left. -/
def mutateBatch (opts : Options) (width height : Int) : Nat → triangles → M triangles
  | 0, rs => pure rs
  | n + 1, rs => do
    let v ← random
    let idx ← cmod v rs.inuse
    let c ← random
    let c1000 ← cmod c 1000
    if c1000 < opts.opt_mutation_rate then
      let t ← getSlot rs.triangles idx
      let t1 ← mutatetriangle t width height
      mutateBatch opts width height n { rs with triangles := rs.triangles.set idx.toNat t1 }
    else mutateBatch opts width height n rs

/-- The function `mutatetriangles`; each `return` of the source ends the
computation in the branch where it stands. -/
def mutatetriangles (st : globalState) (opts : Options) (rs : triangles)
    (count width height : Int) : M triangles := do
  let v ← random
  let c ← cmod v 10
  if c = 0 ∧ rs.inuse ≠ rs.count ∧ rs.inuse < st.max_shapes_incremental then
    addStep opts rs width height
  else
    let v2 ← random
    let c2 ← cmod v2 20
    if c2 = 0 ∧ rs.inuse > 1 then
      removeStep rs
    else
      let rs1 ← swapStep rs
      mutateBatch opts width height count.toNat rs1

/-! ## Fitness -/

/-- The term added to `d` for the pixel at byte offset `j` in `computeDiff`.
The statement `d += sqrt(dr*dr+dg*dg+db*db)` adds in `double` and converts the
sum back to `long long`, which drops the fraction.  For bytes the argument is
at most 195075, so its root is a whole number or at least 1/884 away from
one, while `d` stays far below 2^53: the stored value is `d` plus the integer
square root. -/
def pixelDiff (a b : Int → Int) (j : Int) : Int :=
  let dr := a j - b j
  let dg := a (j + 1) - b (j + 1)
  let db := a (j + 2) - b (j + 2)
  (Nat.sqrt (dr * dr + dg * dg + db * db).toNat : Int)

/-- The loop `for (j = 0; j < n; j += 3)` of `computeDiff`, bounded by fuel. -/
def computeDiffLoop (a b : Int → Int) (n : Int) : Nat → Int → Int → Except Fault Int
  | fuel, j, d =>
    if j < n then
      match fuel with
      | 0 => .error .outOfFuel
      | f + 1 => computeDiffLoop a b n f (j + 3) (d + pixelDiff a b j)
    else .ok d

/-- The function `computeDiff`.  A buffer is the map from a byte offset to
the byte stored there.  The loop runs less than `width*height*3` times, which
is its fuel. -/
def computeDiff (a b : Int → Int) (width height : Int) : Except Fault Int :=
  computeDiffLoop a b (width * height * 3) (width * height * 3).toNat 0 0

/-- The expression `(float)diff/(width*height*442)*100` of `main`.  The
divisor `width*height*442` is a product of `int`s, kept to 32 bits after each
multiplication; the division and the multiplication by 100 are rational.
Where the divisor is 0 (a product that is a multiple of 2^32) the code
divides a `float` by zero; the rational quotient is 0 there. -/
def percdiff (diff width height : Int) : ℚ :=
  (diff : ℚ) / ((toInt (toInt (width * height) * 442) : Int) : ℚ) * 100

/-! ## Acceptance -/

/-- The variables of `main` that live across generations. -/
structure Optimizer where
  state : globalState
  best : triangles
  absbest : triangles
  bestdiff : ℚ
deriving DecidableEq

/-- The call `memcpy(dst, src, sizeof(struct triangle)*n)` on slot arrays. -/
def memcpySlots (dst src : List triangle) (n : Int) : List triangle :=
  src.take n.toNat ++ dst.drop n.toNat

/-- The acceptance test of a generation: the condition of the `if` that
follows the computation of `percdiff` in `main`; `rnd` is the value of
`(float)rand()/RAND_MAX`. -/
def acceptCondition (st : globalState) (percdiff bestdiff rnd : ℚ) : Bool :=
  decide (percdiff < bestdiff) ||
    (decide (st.temperature > 0) &&
     decide (rnd < st.temperature) &&
     decide (percdiff - st.absbestdiff < 2 * st.temperature))

/-- The end of a generation of `main`, from the acceptance test to the update
of `bestdiff`, for the candidate `cand` of score `percdiff`. -/
def acceptStep (o : Optimizer) (cand : triangles) (percdiff rnd : ℚ) : Optimizer :=
  if acceptCondition o.state percdiff o.bestdiff rnd then
    let best : triangles :=
      { o.best with inuse := cand.inuse,
                    triangles := memcpySlots o.best.triangles cand.triangles o.best.count }
    let o1 : Optimizer := { o with best := best }
    let o2 : Optimizer :=
      if percdiff < o1.bestdiff then
        { o1 with
          absbest := { o1.absbest with
            inuse := best.inuse,
            triangles := memcpySlots o1.absbest.triangles best.triangles best.count },
          state := { o1.state with absbestdiff := percdiff } }
      else o1
    { o2 with bestdiff := percdiff }
  else o

/-- Successive generations, each given by its candidate, the score of the
candidate and the draw of the acceptance test. -/
def acceptSteps (o : Optimizer) : List (triangles × ℚ × ℚ) → Optimizer
  | [] => o
  | (cand, percdiff, rnd) :: rest => acceptSteps (acceptStep o cand percdiff rnd) rest

/-! ## Mutation sequences, generation start and checkpoints -/

/-- A sequence of `n` calls of `mutatetriangle` on one shape, each call on
the result of the one before. -/
def mutateMany (width height : Int) : Nat → triangle → M triangle
  | 0, t => pure t
  | n + 1, t => do
    let t1 ← mutatetriangle t width height
    mutateMany width height n t1

/-- The start of the body of the `while(1)` loop of `main`, up to the copy
of the best solution: the generation counter, the temperature and the
number of shapes allowed.  `scratch` is the set `triangles` of `main`, as
the previous generation left it; the constant `0.00001` is 1/100000, and
the temperature is decremented exactly, not rounded to `float`. -/
def beginGeneration (st : globalState) (scratch : triangles) : globalState :=
  let st1 : globalState := { st with generation := st.generation + 1 }
  let st2 : globalState :=
    if st1.temperature > 0 ∧ Int.tmod st1.generation 10 = 0 then
      let t := st1.temperature - 1 / 100000
      { st1 with temperature := if t < 0 then 0 else t }
    else st1
  if Int.tmod st2.generation 1000 = 0 then
    if st2.max_shapes_incremental < scratch.count ∧
        scratch.inuse > st2.max_shapes_incremental - 1 then
      { st2 with max_shapes_incremental := st2.max_shapes_incremental + 1 }
    else st2
  else st2

/-- Follows the spec's words, not the source: "apply the per-generation edit
policy to the candidate, then `mutate_batch`", the edit policy being at most
one of grow, shrink and swap, tested in that order with the draws of
`mutatetriangles`.  To be compared with `mutatetriangles`. -/
def editThenBatch (st : globalState) (opts : Options) (rs : triangles)
    (count width height : Int) : M triangles := do
  let v ← random
  let c ← cmod v 10
  let rs1 : triangles ←
    if c = 0 ∧ rs.inuse ≠ rs.count ∧ rs.inuse < st.max_shapes_incremental then
      addStep opts rs width height
    else do
      let v2 ← random
      let c2 ← cmod v2 20
      if c2 = 0 ∧ rs.inuse > 1 then removeStep rs else swapStep rs
  mutateBatch opts width height count.toNat rs1

/-- Content of a file written by `saveBinary`: the bytes of `state`, the
bytes of the `struct triangles` (its `count` and `inuse`; the pointer it
also holds is replaced on load) and the shape records that follow. -/
structure Checkpoint where
  state : globalState
  count : Int
  inuse : Int
  shapes : List triangle
deriving DecidableEq

/-- The function `saveBinary`, as the content of the file it writes: the
global state, the set's header and its first `inuse` shapes. -/
def saveBinary (st : globalState) (rs : triangles) : Checkpoint :=
  { state := st, count := rs.count, inuse := rs.inuse,
    shapes := rs.triangles.take rs.inuse.toNat }

/-- Outcome of `loadBinary`: no file (nothing changes), the state and set
it installed, or the fatal `exit(1)`. -/
inductive LoadResult where
  | unchanged (st : globalState) (rs : triangles)
  | loaded (st : globalState) (rs : triangles)
  | fatal
deriving DecidableEq

/-- The function `loadBinary`.  `st` is the global state and `rs` the set
passed in, as they stand before the call; `fresh` is the content of the
array obtained from `malloc`.  The `fread` of the shape records asks for one
item of `sizeof(struct triangle)*inuse` bytes: it yields 1 only when that
size is positive and the file holds that many bytes. -/
def loadBinary (file : Option Checkpoint) (st : globalState) (rs : triangles)
    (fresh : List triangle) : LoadResult :=
  match file with
  | none => .unchanged st rs
  | some f =>
    let st1 : globalState := f.state
    if f.inuse > st1.max_shapes then .fatal
    else if f.inuse ≤ 0 ∨ (f.shapes.length : Int) < f.inuse then .fatal
    else
      .loaded { st1 with max_shapes_incremental := f.inuse }
        { triangles := memcpySlots fresh f.shapes f.inuse,
          count := st1.max_shapes, inuse := f.inuse }

/-! ## Rasterizer

The `float` and `double` values of the drawing functions are rationals; a
conversion to an integer type drops the fraction. -/

/-- Conversion of a `float` or `double` to an integer type: the fraction is
dropped (rounding toward zero). -/
def truncQ (q : ℚ) : Int := Int.tdiv q.num q.den

/-- The value stored by `p[k] = ac+(invalpha*p[k])` in `drawHline`, for the
byte value `p` read.  The product and the sum are exact rationals, not
rounded to `float`: the truncated byte can differ by one from the program
where the exact value is within rounding distance of a whole number. -/
def blend (ac : Int) (invalpha : ℚ) (p : Int) : Int :=
  toUChar (truncQ ((ac : ℚ) + invalpha * (p : ℚ)))

/-- The body of the loop of `drawHline`: the three bytes at offsets `off`,
`off+1` and `off+2` of the framebuffer are blended. -/
def blendPixel (fb : Int → Int) (off ar ag ab : Int) (invalpha : ℚ) : Int → Int :=
  fun i =>
    if i = off then blend ar invalpha (fb off)
    else if i = off + 1 then blend ag invalpha (fb (off + 1))
    else if i = off + 2 then blend ab invalpha (fb (off + 2))
    else fb i

/-- The loop `for (x = x1; x <= x2; x++)` of `drawHline`, by recursion on the
number of iterations left; `off` is the offset of the pointer `p`. -/
def drawHlineLoop (ar ag ab : Int) (invalpha : ℚ) : Nat → Int → (Int → Int) → (Int → Int)
  | 0, _, fb => fb
  | n + 1, off, fb =>
    drawHlineLoop ar ag ab invalpha n (off + 3) (blendPixel fb off ar ag ab invalpha)

/-- The function `drawHline`.  The framebuffer is the map from a byte offset,
relative to `fb`, to the byte stored there.  The products `alpha*r`,
`alpha*g`, `alpha*b` and `1-alpha` are exact rationals, not rounded to
`float`. -/
def drawHline (fb : Int → Int) (width height x1 x2 y r g b : Int) (alpha : ℚ) : Int → Int :=
  let ar := truncQ (alpha * (r : ℚ))
  let ag := truncQ (alpha * (g : ℚ))
  let ab := truncQ (alpha * (b : ℚ))
  let invalpha := 1 - alpha
  if y < 0 ∨ y ≥ height then fb
  else
    let lo := if x1 > x2 then x2 else x1
    let hi := if x1 > x2 then x1 else x2
    drawHlineLoop ar ag ab invalpha (hi - lo + 1).toNat (y * width * 3 + lo * 3) fb

/-- The value of `round(sqrt(k))` for an integer `k ≥ 0`: the root is a whole
number or irrational, never halfway between two integers. -/
def roundSqrt (k : Int) : Int := ((Nat.sqrt (4 * k.toNat) + 1) / 2 : Nat)

/-- The loop `for (y=yc-r; y<=yc+r; y++)` of `drawCircle`, by recursion on
the number of iterations left. -/
def drawCircleLoop (width height xc yc r cr cg cb : Int) (alpha : ℚ) :
    Nat → Int → (Int → Int) → (Int → Int)
  | 0, _, fb => fb
  | n + 1, y, fb =>
    let k := r * r - (y - yc) * (y - yc)
    let x1 := xc + roundSqrt k
    let x2 := xc - roundSqrt k
    drawCircleLoop width height xc yc r cr cg cb alpha n (y + 1)
      (drawHline fb width height x1 x2 y cr cg cb alpha)

/-- The function `drawCircle`. -/
def drawCircle (fb : Int → Int) (width height : Int) (c : triangle) : Int → Int :=
  drawCircleLoop width height c.x1 c.y1 c.radius c.r c.g c.b ((c.alpha : ℚ) / 100)
    (2 * c.radius + 1).toNat (c.y1 - c.radius) fb

/-- The anonymous `struct { float x, y; }` of `drawTriangle`. -/
structure Point where
  x : ℚ
  y : ℚ
deriving DecidableEq

/-- One of the four `for` loops of `drawTriangle`: while `S.y <= ylimit`, a
span is drawn from `S.x` to `E.x` on row `S.y`, then `S` and `E` move down
one row, `S.x` by `dS` and `E.x` by `dE`.  Bounded by fuel. -/
def scanLoop (width height cr cg cb : Int) (alpha dS dE ylimit : ℚ) :
    Nat → Point → Point → (Int → Int) → Except Fault (Point × Point × (Int → Int))
  | fuel, S, E, fb =>
    if S.y ≤ ylimit then
      match fuel with
      | 0 => .error .outOfFuel
      | f + 1 =>
        scanLoop width height cr cg cb alpha dS dE ylimit f
          ⟨S.x + dS, S.y + 1⟩ ⟨E.x + dE, E.y + 1⟩
          (drawHline fb width height (truncQ S.x) (truncQ E.x) (truncQ S.y) cr cg cb alpha)
    else .ok (S, E, fb)

/-- Fuel for `scanLoop`: `S.y` grows by one per iteration, so the loop runs
at most `floor(ylimit - S.y) + 1` times. -/
def scanFuel (S : Point) (ylimit : ℚ) : Nat := (Int.floor (ylimit - S.y) + 1).toNat

/-- The function `drawTriangle`.  The slopes and the positions along the
edges are exact rationals, not rounded to `float`: they are the program's
values where the slopes are dyadic, as on a 2 by 2 canvas. -/
def drawTriangle (fb : Int → Int) (width height : Int) (r : triangle) :
    Except Fault (Int → Int) :=
  let A : Point := ⟨r.x1, r.y1⟩
  let B : Point := ⟨r.x2, r.y2⟩
  let C : Point := ⟨r.x3, r.y3⟩
  let dx1 : ℚ := if B.y - A.y > 0 then (B.x - A.x) / (B.y - A.y) else B.x - A.x
  let dx2 : ℚ := if C.y - A.y > 0 then (C.x - A.x) / (C.y - A.y) else 0
  let dx3 : ℚ := if C.y - B.y > 0 then (C.x - B.x) / (C.y - B.y) else 0
  let alpha : ℚ := (r.alpha : ℚ) / 100
  if dx1 > dx2 then
    match scanLoop width height r.r r.g r.b alpha dx2 dx1 B.y (scanFuel A B.y) A A fb with
    | .error e => .error e
    | .ok (S, _, fb1) =>
      let E : Point := ⟨B.x, B.y + 1⟩
      match scanLoop width height r.r r.g r.b alpha dx2 dx3 C.y (scanFuel S C.y) S E fb1 with
      | .error e => .error e
      | .ok (_, _, fb2) => .ok fb2
  else
    match scanLoop width height r.r r.g r.b alpha dx1 dx2 B.y (scanFuel A B.y) A A fb with
    | .error e => .error e
    | .ok (_, E, fb1) =>
      let S : Point := ⟨B.x, B.y + 1⟩
      match scanLoop width height r.r r.g r.b alpha dx3 dx2 C.y (scanFuel S C.y) S E fb1 with
      | .error e => .error e
      | .ok (_, _, fb2) => .ok fb2

/-- The loop of `drawtriangles`, by recursion on the number of iterations
left; `j` is the index of the shape to draw. -/
def drawtrianglesLoop (width height : Int) (ts : List triangle) :
    Nat → Nat → (Int → Int) → Except Fault (Int → Int)
  | 0, _, fb => .ok fb
  | n + 1, j, fb =>
    match ts[j]? with
    | none => .error .outOfBounds
    | some t =>
      if t.type = TYPE_TRIANGLE then
        match drawTriangle fb width height t with
        | .error e => .error e
        | .ok fb1 => drawtrianglesLoop width height ts n (j + 1) fb1
      else drawtrianglesLoop width height ts n (j + 1) (drawCircle fb width height t)

/-- The function `drawtriangles`. -/
def drawtriangles (fb : Int → Int) (width height : Int) (r : triangles) :
    Except Fault (Int → Int) :=
  drawtrianglesLoop width height r.triangles r.inuse.toNat 0 fb

/-- The first `n` bytes of a framebuffer. -/
def firstBytes (fb : Int → Int) (n : Nat) : List Int :=
  (List.range n).map (fun i => fb (i : Int))

/-- The result `x` is a value, and the value satisfies `P`. -/
def okAnd {α : Type} (x : Except Fault α) (P : α → Prop) : Prop :=
  match x with
  | .ok a => P a
  | .error _ => False

instance {α : Type} (x : Except Fault α) (P : α → Prop) [DecidablePred P] :
    Decidable (okAnd x P) := by
  unfold okAnd
  cases x with
  | ok a => exact inferInstanceAs (Decidable (P a))
  | error e => exact inferInstanceAs (Decidable False)

/-- The 2 by 2 target image whose four pixels are (255,0,0). -/
def redTarget : Int → Int := fun i => if i % 3 = 0 then 255 else 0

/-! ## Spans drawn and the generation loop -/

/-- The arguments `x1`, `x2` and `y` of one call of `drawHline`. -/
structure Span where
  x1 : Int
  x2 : Int
  y : Int
deriving DecidableEq, Repr

/-- Successive calls of `drawHline`, one per span of the list, with one
colour and opacity. -/
def drawSpans (width height cr cg cb : Int) (alpha : ℚ) :
    List Span → (Int → Int) → (Int → Int)
  | [], fb => fb
  | s :: rest, fb =>
    drawSpans width height cr cg cb alpha rest
      (drawHline fb width height s.x1 s.x2 s.y cr cg cb alpha)

/-- The spans the loop of `drawCircle` passes to `drawHline`, in order: the
same recursion as `drawCircleLoop`, keeping the arguments of each call. -/
def circleSpans (xc yc r : Int) : Nat → Int → List Span
  | 0, _ => []
  | n + 1, y =>
    let k := r * r - (y - yc) * (y - yc)
    ⟨xc + roundSqrt k, xc - roundSqrt k, y⟩ :: circleSpans xc yc r n (y + 1)

/-- The spans a `for` loop of `drawTriangle` passes to `drawHline`, in order:
the same recursion as `scanLoop`, keeping the arguments of each call. -/
def scanSpans (dS dE ylimit : ℚ) :
    Nat → Point → Point → Except Fault (Point × Point × List Span)
  | fuel, S, E =>
    if S.y ≤ ylimit then
      match fuel with
      | 0 => .error .outOfFuel
      | f + 1 =>
        match scanSpans dS dE ylimit f ⟨S.x + dS, S.y + 1⟩ ⟨E.x + dE, E.y + 1⟩ with
        | .error e => .error e
        | .ok (S1, E1, l) => .ok (S1, E1, ⟨truncQ S.x, truncQ E.x, truncQ S.y⟩ :: l)
    else .ok (S, E, [])

/-- The spans `drawTriangle` passes to `drawHline`, in order: the same steps
as `drawTriangle`, keeping the arguments of each call. -/
def triangleSpans (r : triangle) : Except Fault (List Span) :=
  let A : Point := ⟨r.x1, r.y1⟩
  let B : Point := ⟨r.x2, r.y2⟩
  let C : Point := ⟨r.x3, r.y3⟩
  let dx1 : ℚ := if B.y - A.y > 0 then (B.x - A.x) / (B.y - A.y) else B.x - A.x
  let dx2 : ℚ := if C.y - A.y > 0 then (C.x - A.x) / (C.y - A.y) else 0
  let dx3 : ℚ := if C.y - B.y > 0 then (C.x - B.x) / (C.y - B.y) else 0
  if dx1 > dx2 then
    match scanSpans dx2 dx1 B.y (scanFuel A B.y) A A with
    | .error e => .error e
    | .ok (S, _, l1) =>
      let E : Point := ⟨B.x, B.y + 1⟩
      match scanSpans dx2 dx3 C.y (scanFuel S C.y) S E with
      | .error e => .error e
      | .ok (_, _, l2) => .ok (l1 ++ l2)
  else
    match scanSpans dx1 dx2 B.y (scanFuel A B.y) A A with
    | .error e => .error e
    | .ok (_, E, l1) =>
      let S : Point := ⟨B.x, B.y + 1⟩
      match scanSpans dx3 dx2 C.y (scanFuel S C.y) S E with
      | .error e => .error e
      | .ok (_, _, l2) => .ok (l1 ++ l2)

/-- The call of `drawHline` for the span `s` writes the pixel of index `p`,
counted row by row from the start of the framebuffer (bytes `3p`, `3p+1` and
`3p+2`): the row passes the test of `drawHline` and `p` lies between the two
ends of the span. -/
def spanWrites (width height : Int) (s : Span) (p : Int) : Prop :=
  0 ≤ s.y ∧ s.y < height ∧
    s.y * width + min s.x1 s.x2 ≤ p ∧ p ≤ s.y * width + max s.x1 s.x2

instance (width height : Int) (s : Span) (p : Int) : Decidable (spanWrites width height s p) := by
  unfold spanWrites
  infer_instance

/-- Some span of the list writes the pixel of index `p`. -/
def covered (width height : Int) (l : List Span) (p : Int) : Prop :=
  ∃ s ∈ l, spanWrites width height s p

instance (width height : Int) (l : List Span) (p : Int) : Decidable (covered width height l p) := by
  unfold covered
  infer_instance

/-- One turn of the `while(1)` loop of `main`, display and periodic saves
left out: start of the generation, copy of the best solution into the
scratch set, mutation, rendering on the cleared framebuffer, score and
acceptance.  `image` is the target, `fb` the framebuffer memory and `rnd` the
value of `(float)rand()/RAND_MAX`. -/
def generation (opts : Options) (image : Int → Int) (width height : Int)
    (o : Optimizer) (scratch : triangles) (fb : Int → Int) (rnd : ℚ) :
    M (Optimizer × triangles × (Int → Int)) := do
  let st1 := beginGeneration o.state scratch
  let scratch1 : triangles :=
    { scratch with
      triangles := memcpySlots scratch.triangles o.best.triangles o.best.count,
      inuse := o.best.inuse }
  let scratch2 ← mutatetriangles st1 opts scratch1 10 width height
  let cleared : Int → Int := fun i => if 0 ≤ i ∧ i < width * height * 3 then 0 else fb i
  let fb1 ← liftE (drawtriangles cleared width height scratch2)
  let diff ← liftE (computeDiff image fb1 width height)
  pure (acceptStep { o with state := st1 } scratch2 (percdiff diff width height) rnd,
    scratch2, fb1)

/-- The first `n` turns of the loop of `main`; `rnds` gives the value of
`(float)rand()/RAND_MAX` of each turn. -/
def generations (opts : Options) (image : Int → Int) (width height : Int) :
    Nat → (Nat → ℚ) → Optimizer → triangles → (Int → Int) →
      M (Optimizer × triangles × (Int → Int))
  | 0, _, o, scratch, fb => pure (o, scratch, fb)
  | n + 1, rnds, o, scratch, fb => do
    let r ← generation opts image width height o scratch fb (rnds 0)
    generations opts image width height n (fun i => rnds (i + 1)) r.1 r.2.1 r.2.2


/-- The sets of `main` as `mkRandomtriangles` allocates them and the loop
keeps them: a canvas of width and height at least 1, a best set with
`1 ≤ inuse ≤ count` and as many slots as its `count`, and a scratch set of the
same `count` with as many slots. -/
def loopReady (width height : Int) (o : Optimizer) (scratch : triangles) : Prop :=
  1 ≤ width ∧ 1 ≤ height ∧ 1 ≤ o.best.inuse ∧ o.best.inuse ≤ o.best.count ∧
    o.best.count = scratch.count ∧ (o.best.triangles.length : Int) = o.best.count ∧
    (scratch.triangles.length : Int) = scratch.count

instance (width height : Int) (o : Optimizer) (scratch : triangles) :
    Decidable (loopReady width height o scratch) := by
  unfold loopReady
  infer_instance
/-! ## Predicates used in the statements -/

/-- The computation `m`, run on the draws `g`, returns a value and a rest of
the stream that satisfy `P`. -/
def Returns {α : Type} (m : M α) (g : Nat → Nat) (P : α → (Nat → Nat) → Prop) : Prop :=
  ∃ a g1, m g = .ok (a, g1) ∧ P a g1

/-- Whatever the computation `m`, run on the draws `g`, returns satisfies `P`. -/
def Ensures {α : Type} (m : M α) (g : Nat → Nat) (P : α → (Nat → Nat) → Prop) : Prop :=
  ∀ a g1, m g = .ok (a, g1) → P a g1

/-! ## Normalisation: theorems -/

theorem toShort_of_isShort {v : Int} (h : isShort v) : toShort v = v := by
  unfold isShort at h
  unfold toShort
  omega

theorem isShort_toShort (v : Int) : isShort (toShort v) := by
  unfold isShort toShort
  omega

theorem clampShort_range {v limit : Int} (hv : isShort v) (hl : 1 ≤ limit) :
    0 ≤ clampShort v limit ∧ clampShort v limit < limit := by
  unfold isShort at hv
  unfold clampShort toShort
  simp only []
  split_ifs <;> omega

theorem clampShort_mono {u v limit : Int} (hu : isShort u) (hv : isShort v)
    (huv : u ≤ v) : clampShort u limit ≤ clampShort v limit := by
  unfold isShort at hu hv
  unfold clampShort toShort
  simp only []
  split_ifs <;> omega

theorem sortPass_spec (r : triangle) :
    (sortPass r).1.type = r.type ∧ (sortPass r).1.r = r.r ∧ (sortPass r).1.g = r.g ∧
    (sortPass r).1.b = r.b ∧ (sortPass r).1.alpha = r.alpha ∧
    ((r.y1 ≤ r.y2 ∧ r.y2 ≤ r.y3 ∧ (sortPass r).2 = 0 ∧ (sortPass r).1 = r) ∨
     (r.y1 ≤ r.y2 ∧ r.y2 > r.y3 ∧ (sortPass r).2 ≠ 0 ∧
        (sortPass r).1.x1 = r.x1 ∧ (sortPass r).1.y1 = r.y1 ∧
        (sortPass r).1.x2 = r.x3 ∧ (sortPass r).1.y2 = r.y3 ∧
        (sortPass r).1.x3 = r.x2 ∧ (sortPass r).1.y3 = r.y2) ∨
     (r.y1 > r.y2 ∧ r.y1 ≤ r.y3 ∧ (sortPass r).2 ≠ 0 ∧
        (sortPass r).1.x1 = r.x2 ∧ (sortPass r).1.y1 = r.y2 ∧
        (sortPass r).1.x2 = r.x1 ∧ (sortPass r).1.y2 = r.y1 ∧
        (sortPass r).1.x3 = r.x3 ∧ (sortPass r).1.y3 = r.y3) ∨
     (r.y1 > r.y2 ∧ r.y1 > r.y3 ∧ (sortPass r).2 ≠ 0 ∧
        (sortPass r).1.x1 = r.x2 ∧ (sortPass r).1.y1 = r.y2 ∧
        (sortPass r).1.x2 = r.x3 ∧ (sortPass r).1.y2 = r.y3 ∧
        (sortPass r).1.x3 = r.x1 ∧ (sortPass r).1.y3 = r.y1)) := by
  obtain ⟨ty, cr, cg, cb, al, x1, y1, x2, y2, x3, y3⟩ := r
  simp only [sortPass]
  by_cases h12 : y1 > y2
  · by_cases h13 : y1 > y3
    · simp [h12, h13]
    · simp [h12, h13]
      omega
  · by_cases h23 : y2 > y3
    · simp [h12, h23]
      omega
    · simp [h12, h23]
      omega

theorem sortPass_shorts (r : triangle) (hr : r.shorts) : (sortPass r).1.shorts := by
  obtain ⟨-, -, -, -, -, h⟩ := sortPass_spec r
  unfold triangle.shorts at *
  rcases h with ⟨-, -, -, h⟩ | ⟨-, -, -, h⟩ | ⟨-, -, -, h⟩ | ⟨-, -, -, h⟩
  · rw [h]
    exact hr
  all_goals
    obtain ⟨e1, e2, e3, e4, e5, e6⟩ := h
    rw [e1, e2, e3, e4, e5, e6]
    tauto

theorem sortLoop_keeps : ∀ (fuel : Nat) (r s : triangle), sortLoop fuel r = .ok s →
    s.y1 ≤ s.y2 ∧ s.y2 ≤ s.y3 ∧
    s.type = r.type ∧ s.r = r.r ∧ s.g = r.g ∧ s.b = r.b ∧ s.alpha = r.alpha ∧
    (r.shorts → s.shorts) := by
  intro fuel
  induction fuel with
  | zero =>
    intro r s h
    simp [sortLoop] at h
  | succ n ih =>
    intro r s h
    obtain ⟨t1, t2, t3, t4, t5, hc⟩ := sortPass_spec r
    simp only [sortLoop] at h
    by_cases c : (sortPass r).2 ≠ 0
    · rw [if_pos c] at h
      obtain ⟨a1, a2, a3, a4, a5, a6, a7, a8⟩ := ih _ _ h
      refine ⟨a1, a2, ?_, ?_, ?_, ?_, ?_, ?_⟩
      · rw [a3, t1]
      · rw [a4, t2]
      · rw [a5, t3]
      · rw [a6, t4]
      · rw [a7, t5]
      · exact fun hr => a8 (sortPass_shorts r hr)
    · rw [if_neg c] at h
      rcases hc with ⟨o1, o2, -, e⟩ | ⟨-, -, k, -⟩ | ⟨-, -, k, -⟩ | ⟨-, -, k, -⟩
      · rw [e] at h
        cases h
        exact ⟨o1, o2, rfl, rfl, rfl, rfl, rfl, fun hr => hr⟩
      all_goals exact absurd k c

theorem sortLoop_three_ok (r : triangle) : ∃ s, sortLoop 3 r = .ok s := by
  obtain ⟨-, -, -, -, -, h1⟩ := sortPass_spec r
  obtain ⟨-, -, -, -, -, h2⟩ := sortPass_spec (sortPass r).1
  obtain ⟨-, -, -, -, -, h3⟩ := sortPass_spec (sortPass (sortPass r).1).1
  simp only [sortLoop]
  by_cases c1 : (sortPass r).2 ≠ 0
  · rw [if_pos c1]
    by_cases c2 : (sortPass (sortPass r).1).2 ≠ 0
    · rw [if_pos c2]
      by_cases c3 : (sortPass (sortPass (sortPass r).1).1).2 ≠ 0
      · exfalso
        rcases h1 with h1 | h1 | h1 | h1 <;> rcases h2 with h2 | h2 | h2 | h2 <;>
          rcases h3 with h3 | h3 | h3 | h3 <;> omega
      · rw [if_neg c3]
        exact ⟨_, rfl⟩
    · rw [if_neg c2]
      exact ⟨_, rfl⟩
  · rw [if_neg c1]
    exact ⟨_, rfl⟩

/-- C1: for a canvas of width and height at least 1 and a triangle whose six
vertex coordinates are signed 16-bit values, `normalizeTriangle` returns a
triangle whose x coordinates lie in `[0,width)`, whose y coordinates lie in
`[0,height)` and whose y coordinates are in non-decreasing storage order. -/
theorem normalizeTriangle_valid (r : triangle) (width height : Int)
    (hw : 1 ≤ width) (hh : 1 ≤ height) (hr : r.shorts) :
    ∃ s, normalizeTriangle r width height = .ok s ∧
      (0 ≤ s.x1 ∧ s.x1 < width) ∧ (0 ≤ s.x2 ∧ s.x2 < width) ∧ (0 ≤ s.x3 ∧ s.x3 < width) ∧
      (0 ≤ s.y1 ∧ s.y1 < height) ∧ (0 ≤ s.y2 ∧ s.y2 < height) ∧ (0 ≤ s.y3 ∧ s.y3 < height) ∧
      s.y1 ≤ s.y2 ∧ s.y2 ≤ s.y3 := by
  obtain ⟨s, hs⟩ := sortLoop_three_ok r
  obtain ⟨o1, o2, -, -, -, -, -, hsh⟩ := sortLoop_keeps 3 r s hs
  obtain ⟨s1, s2, s3, s4, s5, s6⟩ := hsh hr
  refine ⟨clampTriangle s width height, ?_, ?_⟩
  · simp only [normalizeTriangle, hs]
  · simp only [clampTriangle]
    exact ⟨clampShort_range s1 hw, clampShort_range s3 hw, clampShort_range s5 hw,
      clampShort_range s2 hh, clampShort_range s4 hh, clampShort_range s6 hh,
      clampShort_mono s2 s4 o1, clampShort_mono s4 s6 o2⟩

/-- Witness of C1 on a 4 by 3 canvas, for a triangle with vertices out of
order and out of the canvas. -/
theorem normalizeTriangle_valid_witness :
    ∃ s, normalizeTriangle ⟨0, 1, 2, 3, 50, 9, 7, -4, 5, 2, -1⟩ 4 3 = .ok s ∧
      (0 ≤ s.x1 ∧ s.x1 < 4) ∧ (0 ≤ s.x2 ∧ s.x2 < 4) ∧ (0 ≤ s.x3 ∧ s.x3 < 4) ∧
      (0 ≤ s.y1 ∧ s.y1 < 3) ∧ (0 ≤ s.y2 ∧ s.y2 < 3) ∧ (0 ≤ s.y3 ∧ s.y3 < 3) ∧
      s.y1 ≤ s.y2 ∧ s.y2 ≤ s.y3 :=
  normalizeTriangle_valid ⟨0, 1, 2, 3, 50, 9, 7, -4, 5, 2, -1⟩ 4 3 (by decide) (by decide)
    (by decide)

theorem normalizeCircleLoop_eq (x y width height : Int) :
    ∀ (fuel : Nat) (radius : Int),
      (radius - min (min x (width - 1 - x)) (min y (height - 1 - y))).toNat ≤ fuel →
      normalizeCircleLoop x y width height fuel radius
        = .ok (min radius (min (min x (width - 1 - x)) (min y (height - 1 - y)))) := by
  intro fuel
  induction fuel with
  | zero =>
    intro radius hf
    unfold normalizeCircleLoop
    rw [if_neg (by omega)]
    congr 1
    omega
  | succ n ih =>
    intro radius hf
    unfold normalizeCircleLoop
    by_cases c : x - radius < 0 ∨ x + radius ≥ width ∨ y - radius < 0 ∨ y + radius ≥ height
    · rw [if_pos c]
      simp only []
      rw [ih (radius - 1) (by omega)]
      congr 1
      omega
    · rw [if_neg c]
      congr 1
      omega

theorem normalizeCircle_eq (r : triangle) (width height : Int) :
    normalizeCircle r width height = .ok
      { r with x1 := clampShort r.x1 width, y1 := clampShort r.y1 height,
               x2 := toShort (min r.x2
                  (min (min (clampShort r.x1 width) (width - 1 - clampShort r.x1 width))
                    (min (clampShort r.y1 height) (height - 1 - clampShort r.y1 height)))) } := by
  simp only [normalizeCircle, triangle.radius]
  rw [normalizeCircleLoop_eq _ _ _ _ _ _ (by omega)]

/-- C2: for a canvas of width and height at least 1 and a circle whose centre
and radius are signed 16-bit values, `normalizeCircle` returns a circle whose
centre is the clamped centre and lies in the canvas, whose disc is contained
in the canvas, and whose radius is the largest integer not exceeding the
radius it was given for which the disc at that centre is contained. -/
theorem normalizeCircle_valid (c : triangle) (width height : Int)
    (hw : 1 ≤ width) (hh : 1 ≤ height)
    (hx : isShort c.x1) (hy : isShort c.y1) (hr : isShort c.radius) :
    ∃ s, normalizeCircle c width height = .ok s ∧
      s.x1 = clampShort c.x1 width ∧ s.y1 = clampShort c.y1 height ∧
      (0 ≤ s.x1 ∧ s.x1 < width) ∧ (0 ≤ s.y1 ∧ s.y1 < height) ∧
      (s.x1 - s.radius ≥ 0 ∧ s.x1 + s.radius ≤ width - 1 ∧
       s.y1 - s.radius ≥ 0 ∧ s.y1 + s.radius ≤ height - 1) ∧
      s.radius ≤ c.radius ∧
      (∀ k : Int, k ≤ c.radius →
        (s.x1 - k ≥ 0 ∧ s.x1 + k ≤ width - 1 ∧ s.y1 - k ≥ 0 ∧ s.y1 + k ≤ height - 1) →
        k ≤ s.radius) := by
  have bx := clampShort_range hx hw
  have bye := clampShort_range hy hh
  have hx2 : isShort c.x2 := hr
  unfold isShort at hx hy hx2
  have hts : toShort (min c.x2 (min (min (clampShort c.x1 width) (width - 1 - clampShort c.x1 width))
      (min (clampShort c.y1 height) (height - 1 - clampShort c.y1 height))))
      = min c.x2 (min (min (clampShort c.x1 width) (width - 1 - clampShort c.x1 width))
      (min (clampShort c.y1 height) (height - 1 - clampShort c.y1 height))) := by
    apply toShort_of_isShort
    unfold isShort
    have : clampShort c.x1 width ≤ 32767 := by
      unfold clampShort toShort
      simp only []
      split_ifs <;> omega
    omega
  have hrun : normalizeCircle c width height = .ok
      { c with x1 := clampShort c.x1 width, y1 := clampShort c.y1 height,
               x2 := min c.x2 (min (min (clampShort c.x1 width) (width - 1 - clampShort c.x1 width))
                  (min (clampShort c.y1 height) (height - 1 - clampShort c.y1 height))) } := by
    simp only [normalizeCircle, triangle.radius]
    rw [normalizeCircleLoop_eq _ _ _ _ _ _ (by omega)]
    simp only [hts]
  refine ⟨_, hrun, ?_⟩
  · refine ⟨rfl, rfl, bx, bye, ?_, ?_, ?_⟩
    · simp only [triangle.radius]
      omega
    · simp only [triangle.radius]
      omega
    · intro k hk hc
      simp only [triangle.radius] at hk hc ⊢
      omega

/-- Witness of C2 on an 8 by 8 canvas: a circle of radius 10 centred at
(5,5), which normalisation shrinks to radius 2. -/
theorem normalizeCircle_valid_witness :
    ∃ s, normalizeCircle ⟨1, 0, 0, 0, 50, 5, 5, 10, 0, 0, 0⟩ 8 8 = .ok s ∧
      s.x1 = clampShort 5 8 ∧ s.y1 = clampShort 5 8 ∧
      (0 ≤ s.x1 ∧ s.x1 < 8) ∧ (0 ≤ s.y1 ∧ s.y1 < 8) ∧
      (s.x1 - s.radius ≥ 0 ∧ s.x1 + s.radius ≤ 8 - 1 ∧
       s.y1 - s.radius ≥ 0 ∧ s.y1 + s.radius ≤ 8 - 1) ∧
      s.radius ≤ 10 ∧
      (∀ k : Int, k ≤ 10 →
        (s.x1 - k ≥ 0 ∧ s.x1 + k ≤ 8 - 1 ∧ s.y1 - k ≥ 0 ∧ s.y1 + k ≤ 8 - 1) →
        k ≤ s.radius) :=
  normalizeCircle_valid ⟨1, 0, 0, 0, 50, 5, 5, 10, 0, 0, 0⟩ 8 8 (by decide) (by decide)
    (by decide) (by decide) (by decide)

/-! ## Fitness: theorems -/

theorem pixelDiff_self (a : Int → Int) (j : Int) : pixelDiff a a j = 0 := by
  simp [pixelDiff]

theorem pixelDiff_comm (a b : Int → Int) (j : Int) : pixelDiff a b j = pixelDiff b a j := by
  unfold pixelDiff
  simp only []
  congr 3
  ring

theorem pixelDiff_nonneg (a b : Int → Int) (j : Int) : 0 ≤ pixelDiff a b j := by
  unfold pixelDiff
  exact Int.natCast_nonneg _

theorem computeDiffLoop_self (a : Int → Int) (n : Int) :
    ∀ (fuel : Nat) (j d : Int), (n - j).toNat ≤ 3 * fuel →
      computeDiffLoop a a n fuel j d = .ok d := by
  intro fuel
  induction fuel with
  | zero =>
    intro j d hf
    unfold computeDiffLoop
    rw [if_neg (by omega)]
  | succ f ih =>
    intro j d hf
    unfold computeDiffLoop
    by_cases c : j < n
    · rw [if_pos c]
      simp only [pixelDiff_self, add_zero]
      exact ih (j + 3) d (by omega)
    · rw [if_neg c]

theorem computeDiffLoop_comm (a b : Int → Int) (n : Int) :
    ∀ (fuel : Nat) (j d : Int),
      computeDiffLoop a b n fuel j d = computeDiffLoop b a n fuel j d := by
  intro fuel
  induction fuel with
  | zero =>
    intro j d
    unfold computeDiffLoop
    rfl
  | succ f ih =>
    intro j d
    unfold computeDiffLoop
    by_cases c : j < n
    · rw [if_pos c, if_pos c]
      simp only []
      rw [pixelDiff_comm a b j]
      exact ih (j + 3) _
    · rw [if_neg c, if_neg c]

/-- C3: for a canvas of width and height at least 1 and every buffer `X`,
`computeDiff(X, X, width, height)` returns 0, and the percentage score of
that difference is 0. -/
theorem computeDiff_self (X : Int → Int) (width height : Int)
    (hw : 1 ≤ width) (hh : 1 ≤ height) :
    computeDiff X X width height = .ok 0 ∧
      (width * height * 442 ≠ 0 ∧ percdiff 0 width height = 0) := by
  refine ⟨?_, ?_, ?_⟩
  · unfold computeDiff
    exact computeDiffLoop_self X _ _ 0 0 (by omega)
  · have : 0 < width * height := Int.mul_pos (by omega) (by omega)
    omega
  · simp [percdiff]

/-- Witness of C3 on a 2 by 2 canvas whose bytes are all 200. -/
theorem computeDiff_self_witness :
    computeDiff (fun _ => 200) (fun _ => 200) 2 2 = .ok 0 ∧
      ((2 : Int) * 2 * 442 ≠ 0 ∧ percdiff 0 2 2 = 0) :=
  computeDiff_self (fun _ => 200) 2 2 (by decide) (by decide)

/-- C4: for every width and height and every two buffers `A` and `B`,
`computeDiff(A, B, width, height)` and `computeDiff(B, A, width, height)`
are the same. -/
theorem computeDiff_comm (A B : Int → Int) (width height : Int) :
    computeDiff A B width height = computeDiff B A width height := by
  unfold computeDiff
  exact computeDiffLoop_comm A B _ _ 0 0

theorem returns_pure {α : Type} (a : α) (g : Nat → Nat) (P : α → (Nat → Nat) → Prop) :
    Returns (pure a : M α) g P ↔ P a g := by
  constructor
  · rintro ⟨b, g1, h, hp⟩
    cases h
    exact hp
  · intro h
    exact ⟨a, g, rfl, h⟩

theorem returns_bind {α β : Type} (m : M α) (f : α → M β) (g : Nat → Nat)
    (P : β → (Nat → Nat) → Prop) :
    Returns (m >>= f) g P ↔ Returns m g (fun a g1 => Returns (f a) g1 P) := by
  constructor
  · rintro ⟨b, g2, h, hp⟩
    change (match m g with
      | .ok (a, g1) => f a g1
      | .error e => .error e) = _ at h
    cases hm : m g with
    | error e => rw [hm] at h; cases h
    | ok p =>
      obtain ⟨a, g1⟩ := p
      rw [hm] at h
      exact ⟨a, g1, hm, b, g2, h, hp⟩
  · rintro ⟨a, g1, hm, b, g2, h, hp⟩
    refine ⟨b, g2, ?_, hp⟩
    change (match m g with
      | .ok (a, g1) => f a g1
      | .error e => .error e) = _
    rw [hm]
    exact h

theorem returns_random (g : Nat → Nat) (P : Int → (Nat → Nat) → Prop) :
    Returns random g P ↔ P (g 0 : Int) (fun i => g (i + 1)) := by
  constructor
  · rintro ⟨b, g1, h, hp⟩
    cases h
    exact hp
  · intro h
    exact ⟨_, _, rfl, h⟩

theorem returns_fault {α : Type} (e : Fault) (g : Nat → Nat) (P : α → (Nat → Nat) → Prop) :
    Returns (fault e : M α) g P ↔ False := by
  constructor
  · rintro ⟨b, g1, h, -⟩
    cases h
  · exact False.elim

theorem returns_cmod (a b : Int) (g : Nat → Nat) (P : Int → (Nat → Nat) → Prop) :
    Returns (cmod a b) g P ↔ b ≠ 0 ∧ P (Int.tmod a b) g := by
  unfold cmod
  by_cases hb : b = 0
  · rw [if_pos hb, returns_fault]
    simp [hb]
  · rw [if_neg hb, returns_pure]
    simp [hb]

theorem returns_liftE {α : Type} (x : Except Fault α) (g : Nat → Nat)
    (P : α → (Nat → Nat) → Prop) :
    Returns (liftE x) g P ↔ ∃ a, x = .ok a ∧ P a g := by
  cases x with
  | error e =>
    constructor
    · rintro ⟨b, g1, h, -⟩
      cases h
    · rintro ⟨a, h, -⟩
      cases h
  | ok v =>
    constructor
    · rintro ⟨b, g1, h, hp⟩
      cases h
      exact ⟨v, rfl, hp⟩
    · rintro ⟨a, h, hp⟩
      cases h
      exact ⟨_, g, rfl, hp⟩

theorem returns_mono {α : Type} {m : M α} {g : Nat → Nat} {P Q : α → (Nat → Nat) → Prop}
    (h : Returns m g P) (hpq : ∀ a g1, P a g1 → Q a g1) : Returns m g Q := by
  obtain ⟨a, g1, hm, hp⟩ := h
  exact ⟨a, g1, hm, hpq a g1 hp⟩

theorem ensures_pure {α : Type} (a : α) (g : Nat → Nat) (P : α → (Nat → Nat) → Prop) :
    Ensures (pure a : M α) g P ↔ P a g := by
  constructor
  · intro h
    exact h a g rfl
  · intro h b g1 hb
    cases hb
    exact h

theorem ensures_bind {α β : Type} (m : M α) (f : α → M β) (g : Nat → Nat)
    (P : β → (Nat → Nat) → Prop) :
    Ensures (m >>= f) g P ↔ Ensures m g (fun a g1 => Ensures (f a) g1 P) := by
  constructor
  · intro h a g1 hm b g2 hf
    apply h b g2
    change (match m g with
      | .ok (a, g1) => f a g1
      | .error e => .error e) = _
    rw [hm]
    exact hf
  · intro h b g2 hb
    change (match m g with
      | .ok (a, g1) => f a g1
      | .error e => .error e) = _ at hb
    cases hm : m g with
    | error e => rw [hm] at hb; cases hb
    | ok p =>
      obtain ⟨a, g1⟩ := p
      rw [hm] at hb
      exact h a g1 hm b g2 hb

theorem ensures_random (g : Nat → Nat) (P : Int → (Nat → Nat) → Prop) :
    Ensures random g P ↔ P (g 0 : Int) (fun i => g (i + 1)) := by
  constructor
  · intro h
    exact h _ _ rfl
  · intro h b g1 hb
    cases hb
    exact h

theorem ensures_fault {α : Type} (e : Fault) (g : Nat → Nat) (P : α → (Nat → Nat) → Prop) :
    Ensures (fault e : M α) g P ↔ True := by
  constructor
  · intro _
    trivial
  · intro _ b g1 hb
    cases hb

theorem ensures_cmod (a b : Int) (g : Nat → Nat) (P : Int → (Nat → Nat) → Prop) :
    Ensures (cmod a b) g P ↔ (b ≠ 0 → P (Int.tmod a b) g) := by
  unfold cmod
  by_cases hb : b = 0
  · rw [if_pos hb, ensures_fault]
    simp [hb]
  · rw [if_neg hb, ensures_pure]
    simp [hb]

theorem ensures_liftE {α : Type} (x : Except Fault α) (g : Nat → Nat)
    (P : α → (Nat → Nat) → Prop) :
    Ensures (liftE x) g P ↔ ∀ a, x = .ok a → P a g := by
  cases x with
  | error e =>
    constructor
    · intro _ a h
      cases h
    · intro _ b g1 hb
      cases hb
  | ok v =>
    constructor
    · intro h a ha
      cases ha
      exact h v g rfl
    · intro h b g1 hb
      cases hb
      exact h _ rfl

theorem ensures_mono {α : Type} {m : M α} {g : Nat → Nat} {P Q : α → (Nat → Nat) → Prop}
    (h : Ensures m g P) (hpq : ∀ a g1, P a g1 → Q a g1) : Ensures m g Q :=
  fun a g1 hm => hpq a g1 (h a g1 hm)

theorem returns_and_ensures {α : Type} {m : M α} {g : Nat → Nat}
    {P Q : α → (Nat → Nat) → Prop}
    (h : Returns m g P) (hq : Ensures m g Q) : Returns m g (fun a g1 => P a g1 ∧ Q a g1) := by
  obtain ⟨a, g1, hm, hp⟩ := h
  exact ⟨a, g1, hm, hp, hq a g1 hm⟩

/-! ## Shape creation: theorems -/

theorem normalize_ok (r : triangle) (width height : Int) :
    ∃ s, normalize r width height = .ok s := by
  unfold normalize
  split_ifs
  · obtain ⟨s, hs⟩ := sortLoop_three_ok r
    exact ⟨clampTriangle s width height, by simp only [normalizeTriangle, hs]⟩
  · exact ⟨_, normalizeCircle_eq r width height⟩

theorem normalize_type (r s : triangle) (width height : Int)
    (h : normalize r width height = .ok s) : s.type = r.type := by
  unfold normalize at h
  split_ifs at h
  · unfold normalizeTriangle at h
    cases hs : sortLoop 3 r with
    | error e => rw [hs] at h; cases h
    | ok t =>
      rw [hs] at h
      cases h
      exact (sortLoop_keeps 3 r t hs).2.2.1
  · unfold normalizeCircle at h
    simp only [] at h
    split at h
    · cases h
      rfl
    · cases h

theorem randbetween_returns (min max : Int) (g : Nat → Nat) (h : max - min + 1 ≠ 0) :
    Returns (randbetween min max) g (fun _ _ => True) := by
  simp only [randbetween, returns_bind, returns_random, returns_cmod, returns_pure]
  exact ⟨h, trivial⟩

theorem setRandomColor_returns (r : triangle) (g : Nat → Nat) :
    Returns (setRandomColor r) g (fun t _ => t.type = r.type) := by
  simp [setRandomColor, randbetween, returns_bind, returns_random, returns_cmod, returns_pure,
    MINALPHA, MAXALPHA]

theorem setRandomVertexes_returns (r : triangle) (width height : Int) (g : Nat → Nat)
    (hw : width ≠ 0) (hh : height ≠ 0) :
    Returns (setRandomVertexes r width height) g (fun t _ => t.type = r.type) := by
  unfold setRandomVertexes
  split_ifs <;>
    simp [returns_bind, returns_random, returns_cmod, returns_pure, hw, hh]

theorem setRandomColor_type (r : triangle) (g : Nat → Nat) :
    Ensures (setRandomColor r) g (fun t _ => t.type = r.type) :=
  fun a g1 h => by
    obtain ⟨b, g2, hb, hp⟩ := setRandomColor_returns r g
    rw [hb] at h
    cases h
    exact hp

theorem setRandomVertexes_type (r : triangle) (width height : Int) (g : Nat → Nat) :
    Ensures (setRandomVertexes r width height) g (fun t _ => t.type = r.type) := by
  unfold setRandomVertexes
  split_ifs <;>
    simp [ensures_bind, ensures_random, ensures_cmod, ensures_pure]

theorem selectShapeType_returns (opts : Options) (g : Nat → Nat) :
    Returns (selectShapeType opts) g (fun _ _ => True) := by
  unfold selectShapeType
  split_ifs <;> simp [returns_bind, returns_random, returns_pure]

theorem selectShapeType_circles_only (opts : Options) (g : Nat → Nat)
    (ht : opts.opt_use_triangles = 0) (hc : opts.opt_use_circles ≠ 0) :
    selectShapeType opts g = .ok (TYPE_CIRCLE, g) := by
  unfold selectShapeType
  rw [if_neg (by simp [ht]), if_pos hc]
  rfl

theorem randomtriangle_returns (opts : Options) (r : triangle) (width height : Int)
    (g : Nat → Nat) (hw : width ≠ 0) (hh : height ≠ 0) :
    Returns (randomtriangle opts r width height) g (fun _ _ => True) := by
  simp only [randomtriangle, returns_bind, returns_liftE]
  apply returns_mono (selectShapeType_returns opts g)
  intro ty g1 _
  apply returns_mono (setRandomVertexes_returns _ width height g1 hw hh)
  intro r1 g2 _
  apply returns_mono (setRandomColor_returns r1 g2)
  intro r2 g3 _
  obtain ⟨s, hs⟩ := normalize_ok r2 width height
  exact ⟨s, hs, trivial⟩

theorem randomtriangle_type (opts : Options) (r : triangle) (width height : Int)
    (g : Nat → Nat) (ty : Int)
    (hsel : Ensures (selectShapeType opts) g (fun a _ => a = ty)) :
    Ensures (randomtriangle opts r width height) g (fun t _ => t.type = ty) := by
  simp only [randomtriangle, ensures_bind, ensures_liftE]
  refine ensures_mono hsel ?_
  intro a g1 ha
  refine ensures_mono (setRandomVertexes_type _ width height g1) ?_
  intro r1 g2 h1
  refine ensures_mono (setRandomColor_type r1 g2) ?_
  intro r2 g3 h2 s hs
  rw [normalize_type r2 s width height hs, h2, h1, ha]

theorem colorThenNormalize_returns (r : triangle) (width height : Int) (g : Nat → Nat) :
    Returns (setRandomColor r >>= fun r2 => liftE (normalize r2 width height)) g
      (fun _ _ => True) := by
  rw [returns_bind]
  apply returns_mono (setRandomColor_returns r g)
  intro r2 g3 _
  rw [returns_liftE]
  obtain ⟨s, hs⟩ := normalize_ok r2 width height
  exact ⟨s, hs, trivial⟩

theorem colorThenNormalize_type (r : triangle) (width height : Int) (g : Nat → Nat) :
    Ensures (setRandomColor r >>= fun r2 => liftE (normalize r2 width height)) g
      (fun t _ => t.type = r.type) := by
  rw [ensures_bind]
  refine ensures_mono (setRandomColor_type r g) ?_
  intro r2 g3 h2
  rw [ensures_liftE]
  intro s hs
  rw [normalize_type r2 s width height hs, h2]

theorem randomsmalltriangle_returns (opts : Options) (r : triangle)
    (width height delta : Int) (g : Nat → Nat)
    (hw : width ≠ 0) (hh : height ≠ 0) (hd : delta ≠ 0) :
    Returns (randomsmalltriangle opts r width height delta) g (fun _ _ => True) := by
  unfold randomsmalltriangle
  simp only [returns_bind, returns_random, returns_cmod]
  refine ⟨hw, hh, ?_⟩
  apply returns_mono (selectShapeType_returns opts _)
  intro ty g1 _
  have hodd : delta - -delta + 1 ≠ 0 := by omega
  have hone : delta - 1 + 1 ≠ 0 := by omega
  split_ifs
  · simp only [randbetween, returns_bind, returns_random, returns_cmod, returns_pure]
    refine ⟨hodd, hodd, hodd, hodd, hodd, hodd, ?_⟩
    exact (returns_bind _ _ _ _).1 (colorThenNormalize_returns _ width height _)
  · simp only [randbetween, returns_bind, returns_random, returns_cmod, returns_pure]
    refine ⟨hone, ?_⟩
    exact (returns_bind _ _ _ _).1 (colorThenNormalize_returns _ width height _)

theorem randomsmalltriangle_type (opts : Options) (r : triangle)
    (width height delta : Int) (g : Nat → Nat) (ty : Int)
    (hsel : ∀ g1, Ensures (selectShapeType opts) g1 (fun a _ => a = ty)) :
    Ensures (randomsmalltriangle opts r width height delta) g (fun t _ => t.type = ty) := by
  unfold randomsmalltriangle
  simp only [ensures_bind, ensures_random, ensures_cmod]
  intro _ _
  refine ensures_mono (hsel _) ?_
  intro a g1 ha
  split_ifs
  · simp only [randbetween, ensures_bind, ensures_random, ensures_cmod, ensures_pure]
    intro _ _ _ _ _ _
    refine ensures_mono ((ensures_bind _ _ _ _).1 (colorThenNormalize_type _ width height _)) ?_
    intro r2 g3 h2
    refine ensures_mono h2 ?_
    intro s g4 hs
    rw [hs, ha]
  · simp only [randbetween, ensures_bind, ensures_random, ensures_cmod, ensures_pure]
    intro _
    refine ensures_mono ((ensures_bind _ _ _ _).1 (colorThenNormalize_type _ width height _)) ?_
    intro r2 g3 h2
    refine ensures_mono h2 ?_
    intro s g4 hs
    rw [hs, ha]

/-- C9: with triangles disabled and circles enabled, `selectShapeType`
returns `TYPE_CIRCLE` on every stream of draws without consuming any, every
shape `randomtriangle` or `randomsmalltriangle` returns has type
`TYPE_CIRCLE`, and both do return a shape on a canvas of width and height at
least 1 (for `randomsmalltriangle`, with `delta` at least 1). -/
theorem circles_only (opts : Options)
    (ht : opts.opt_use_triangles = 0) (hc : opts.opt_use_circles ≠ 0) :
    (∀ g, selectShapeType opts g = .ok (TYPE_CIRCLE, g)) ∧
    (∀ r width height g t g1,
      randomtriangle opts r width height g = .ok (t, g1) → t.type = TYPE_CIRCLE) ∧
    (∀ r width height delta g t g1,
      randomsmalltriangle opts r width height delta g = .ok (t, g1) → t.type = TYPE_CIRCLE) ∧
    (∀ r width height g, 1 ≤ width → 1 ≤ height →
      ∃ t g1, randomtriangle opts r width height g = .ok (t, g1) ∧ t.type = TYPE_CIRCLE) ∧
    (∀ r width height delta g, 1 ≤ width → 1 ≤ height → 1 ≤ delta →
      ∃ t g1, randomsmalltriangle opts r width height delta g = .ok (t, g1) ∧
        t.type = TYPE_CIRCLE) := by
  have hsel : ∀ g, Ensures (selectShapeType opts) g (fun a _ => a = TYPE_CIRCLE) := by
    intro g a g1 h
    rw [selectShapeType_circles_only opts g ht hc] at h
    cases h
    rfl
  refine ⟨fun g => selectShapeType_circles_only opts g ht hc, ?_, ?_, ?_, ?_⟩
  · intro r width height g t g1 h
    exact randomtriangle_type opts r width height g _ (hsel g) t g1 h
  · intro r width height delta g t g1 h
    exact randomsmalltriangle_type opts r width height delta g _ hsel t g1 h
  · intro r width height g hw hh
    obtain ⟨t, g1, h, -⟩ := randomtriangle_returns opts r width height g (by omega) (by omega)
    exact ⟨t, g1, h, randomtriangle_type opts r width height g _ (hsel g) t g1 h⟩
  · intro r width height delta g hw hh hd
    obtain ⟨t, g1, h, -⟩ :=
      randomsmalltriangle_returns opts r width height delta g (by omega) (by omega) (by omega)
    exact ⟨t, g1, h, randomsmalltriangle_type opts r width height delta g _ hsel t g1 h⟩

/-- Witness of C9: triangles disabled, circles enabled, on a 4 by 4 canvas. -/
theorem circles_only_witness :
    (∀ g, selectShapeType ⟨0, 1, 200⟩ g = .ok (TYPE_CIRCLE, g)) ∧
    (∃ t g1, randomtriangle ⟨0, 1, 200⟩ ⟨0, 1, 2, 3, 50, 0, 0, 1, 1, 2, 2⟩ 4 4
        (fun i => 5 * i + 2) = .ok (t, g1) ∧ t.type = TYPE_CIRCLE) ∧
    (∃ t g1, randomsmalltriangle ⟨0, 1, 200⟩ ⟨0, 1, 2, 3, 50, 0, 0, 1, 1, 2, 2⟩ 4 4 5
        (fun i => 5 * i + 2) = .ok (t, g1) ∧ t.type = TYPE_CIRCLE) :=
  have h := circles_only ⟨0, 1, 200⟩ rfl (by decide)
  ⟨h.1,
   h.2.2.2.1 ⟨0, 1, 2, 3, 50, 0, 0, 1, 1, 2, 2⟩ 4 4 (fun i => 5 * i + 2) (by decide) (by decide),
   h.2.2.2.2 ⟨0, 1, 2, 3, 50, 0, 0, 1, 1, 2, 2⟩ 4 4 5 (fun i => 5 * i + 2)
     (by decide) (by decide) (by decide)⟩

/-! ## Shape sets: theorems -/

theorem ensures_of_forall {α : Type} {m : M α} {g : Nat → Nat} {P : α → (Nat → Nat) → Prop}
    (h : ∀ a g1, P a g1) : Ensures m g P :=
  fun a g1 _ => h a g1

theorem tmod_draw_range (v : Nat) (b : Int) (hb : 0 < b) :
    0 ≤ Int.tmod (v : Int) b ∧ Int.tmod (v : Int) b < b :=
  ⟨Int.tmod_nonneg b (Int.natCast_nonneg v), Int.tmod_lt_of_pos _ hb⟩

theorem getSlot_returns (ts : List triangle) (i : Int) (g : Nat → Nat)
    (h0 : 0 ≤ i) (h1 : i < ts.length) :
    Returns (getSlot ts i) g (fun _ g1 => g1 = g) := by
  unfold getSlot
  rw [if_pos h0]
  have hlt : i.toNat < ts.length := by omega
  rw [List.getElem?_eq_getElem hlt]
  exact (returns_pure _ _ _).2 rfl

theorem getSlot_ensures (ts : List triangle) (i : Int) (g : Nat → Nat) :
    Ensures (getSlot ts i) g (fun _ g1 => g1 = g) := by
  unfold getSlot
  split_ifs
  · split
    · exact (ensures_pure _ _ _).2 rfl
    · exact (ensures_fault _ _ _).2 trivial
  · exact (ensures_fault _ _ _).2 trivial

theorem addStep_ensures (opts : Options) (rs : triangles) (width height : Int) (g : Nat → Nat) :
    Ensures (addStep opts rs width height) g (fun rs1 _ =>
      rs1.inuse = rs.inuse + 1 ∧ rs1.count = rs.count ∧
      rs1.triangles.length = rs.triangles.length) := by
  unfold addStep
  simp only [ensures_bind, ensures_random, ensures_cmod]
  intro _
  apply ensures_of_forall
  intro slot g1
  split_ifs <;> rw [ensures_bind] <;> apply ensures_of_forall <;> intro t g2 <;>
    simp [ensures_pure]

theorem addStep_returns (opts : Options) (rs : triangles) (width height : Int) (g : Nat → Nat)
    (hw : width ≠ 0) (hh : height ≠ 0)
    (h0 : 0 ≤ rs.inuse) (h1 : rs.inuse < rs.triangles.length) :
    Returns (addStep opts rs width height) g (fun _ _ => True) := by
  unfold addStep
  simp only [returns_bind, returns_random, returns_cmod]
  refine ⟨by decide, ?_⟩
  apply returns_mono (getSlot_returns rs.triangles rs.inuse _ h0 h1)
  intro slot g1 _
  split_ifs <;> rw [returns_bind]
  · apply returns_mono (randomtriangle_returns opts slot width height g1 hw hh)
    intro t g2 _
    exact (returns_pure _ _ _).2 trivial
  · apply returns_mono (randomsmalltriangle_returns opts slot width height 5 g1 hw hh (by decide))
    intro t g2 _
    exact (returns_pure _ _ _).2 trivial
  · apply returns_mono (randomsmalltriangle_returns opts slot width height 10 g1 hw hh (by decide))
    intro t g2 _
    exact (returns_pure _ _ _).2 trivial
  · apply returns_mono (randomsmalltriangle_returns opts slot width height 25 g1 hw hh (by decide))
    intro t g2 _
    exact (returns_pure _ _ _).2 trivial
  · apply returns_mono (randomsmalltriangle_returns opts slot width height 2 g1 hw hh (by decide))
    intro t g2 _
    exact (returns_pure _ _ _).2 trivial
  · rw [returns_pure]
    exact (returns_pure _ _ _).2 trivial

theorem memmoveSlots_ensures (ts : List triangle) (dst src n : Int) (g : Nat → Nat) :
    Ensures (memmoveSlots ts dst src n) g (fun ts1 _ => ts1.length = ts.length) := by
  unfold memmoveSlots
  split_ifs with h
  · rw [ensures_pure]
    simp only [List.length_append, List.length_take, List.length_drop]
    omega
  · exact (ensures_fault _ _ _).2 trivial

theorem memmoveSlots_returns (ts : List triangle) (dst src n : Int) (g : Nat → Nat)
    (h : 0 ≤ dst ∧ 0 ≤ src ∧ 0 ≤ n ∧ dst + n ≤ ts.length ∧ src + n ≤ ts.length) :
    Returns (memmoveSlots ts dst src n) g (fun _ _ => True) := by
  unfold memmoveSlots
  rw [if_pos h]
  exact (returns_pure _ _ _).2 trivial

theorem removeStep_ensures (rs : triangles) (g : Nat → Nat) :
    Ensures (removeStep rs) g (fun rs1 _ =>
      rs1.inuse = rs.inuse - 1 ∧ rs1.count = rs.count ∧
      rs1.triangles.length = rs.triangles.length) := by
  unfold removeStep
  simp only [ensures_bind, ensures_random, ensures_cmod]
  intro _
  refine ensures_mono (memmoveSlots_ensures _ _ _ _ _) ?_
  intro ts g1 hlen
  simp [ensures_pure, hlen]

theorem removeStep_returns (rs : triangles) (g : Nat → Nat)
    (h0 : 1 < rs.inuse) (h1 : rs.inuse ≤ rs.triangles.length) :
    Returns (removeStep rs) g (fun _ _ => True) := by
  unfold removeStep
  simp only [returns_bind, returns_random, returns_cmod]
  refine ⟨by omega, ?_⟩
  obtain ⟨r0, r1⟩ := tmod_draw_range (g 0) rs.inuse (by omega)
  apply returns_mono (memmoveSlots_returns _ _ _ _ _ (by omega))
  intro ts g1 _
  exact (returns_pure _ _ _).2 trivial

theorem swapStep_ensures (rs : triangles) (g : Nat → Nat) :
    Ensures (swapStep rs) g (fun rs1 _ =>
      rs1.inuse = rs.inuse ∧ rs1.count = rs.count ∧
      rs1.triangles.length = rs.triangles.length) := by
  unfold swapStep
  simp only [ensures_bind, ensures_random, ensures_cmod]
  intro _
  split_ifs
  · simp only [ensures_bind, ensures_random, ensures_cmod]
    intro _ _
    split_ifs
    · rw [ensures_bind]
      apply ensures_of_forall
      intro aux g1
      rw [ensures_bind]
      apply ensures_of_forall
      intro tb g2
      simp [ensures_pure]
    · simp [ensures_pure]
  · simp [ensures_pure]

theorem swapStep_returns (rs : triangles) (g : Nat → Nat)
    (h0 : 1 ≤ rs.inuse) (h1 : rs.inuse ≤ rs.triangles.length) :
    Returns (swapStep rs) g (fun _ _ => True) := by
  unfold swapStep
  simp only [returns_bind, returns_random, returns_cmod]
  refine ⟨by decide, ?_⟩
  split_ifs
  · simp only [returns_bind, returns_random, returns_cmod]
    refine ⟨by omega, by omega, ?_⟩
    split_ifs
    · obtain ⟨a0, a1⟩ := tmod_draw_range (g (0 + 1)) rs.inuse (by omega)
      obtain ⟨b0, b1⟩ := tmod_draw_range (g (0 + 1 + 1)) rs.inuse (by omega)
      rw [returns_bind]
      apply returns_mono (getSlot_returns rs.triangles _ _ a0 (by omega))
      intro aux g1 _
      rw [returns_bind]
      apply returns_mono (getSlot_returns rs.triangles _ _ b0 (by omega))
      intro tb g2 _
      exact (returns_pure _ _ _).2 trivial
    · exact (returns_pure _ _ _).2 trivial
  · exact (returns_pure _ _ _).2 trivial

theorem moveVertexes_returns (t : triangle) (delta : Int) (g : Nat → Nat) :
    Returns (moveVertexes t delta) g (fun _ _ => True) := by
  have hodd : ¬ delta + delta + 1 = 0 := by omega
  unfold moveVertexes
  split_ifs <;>
    simp [randbetween, returns_bind, returns_random, returns_cmod, returns_pure, hodd]

theorem thenNormalize_returns (m : M triangle) (width height : Int) (g : Nat → Nat)
    (hm : Returns m g (fun _ _ => True)) :
    Returns (m >>= fun t1 => liftE (normalize t1 width height)) g (fun _ _ => True) := by
  rw [returns_bind]
  apply returns_mono hm
  intro t1 g1 _
  rw [returns_liftE]
  obtain ⟨s, hs⟩ := normalize_ok t1 width height
  exact ⟨s, hs, trivial⟩

theorem mutatetriangle_returns (t : triangle) (width height : Int) (g : Nat → Nat)
    (hw : width ≠ 0) (hh : height ≠ 0) :
    Returns (mutatetriangle t width height) g (fun _ _ => True) := by
  unfold mutatetriangle
  simp only [returns_bind, returns_random, returns_cmod]
  refine ⟨by decide, ?_⟩
  split_ifs
  · exact thenNormalize_returns _ width height _
      (returns_mono (setRandomVertexes_returns t width height _ hw hh) (fun _ _ _ => trivial))
  · exact thenNormalize_returns _ width height _ (moveVertexes_returns t 20 _)
  · exact thenNormalize_returns _ width height _ (moveVertexes_returns t 5 _)
  · simp [returns_bind, returns_random, returns_cmod, returns_pure]
  · simp [randbetween, returns_bind, returns_random, returns_cmod, returns_pure]
  · simp [randbetween, returns_bind, returns_random, returns_cmod, returns_pure,
      MINALPHA, MAXALPHA]
  · exact (returns_pure _ _ _).2 trivial

theorem mutateBatch_ensures (opts : Options) (width height : Int) :
    ∀ (n : Nat) (rs : triangles) (g : Nat → Nat),
      Ensures (mutateBatch opts width height n rs) g (fun rs1 _ =>
        rs1.inuse = rs.inuse ∧ rs1.count = rs.count ∧
        rs1.triangles.length = rs.triangles.length) := by
  intro n
  induction n with
  | zero =>
    intro rs g
    unfold mutateBatch
    simp [ensures_pure]
  | succ k ih =>
    intro rs g
    unfold mutateBatch
    simp only [ensures_bind, ensures_random, ensures_cmod]
    intro _ _
    split_ifs
    · rw [ensures_bind]
      apply ensures_of_forall
      intro t g1
      rw [ensures_bind]
      apply ensures_of_forall
      intro t1 g2
      refine ensures_mono (ih _ g2) ?_
      intro rs1 g3 h
      simpa using h
    · exact ih rs _

theorem mutateBatch_returns (opts : Options) (width height : Int)
    (hw : width ≠ 0) (hh : height ≠ 0) :
    ∀ (n : Nat) (rs : triangles) (g : Nat → Nat),
      1 ≤ rs.inuse → rs.inuse ≤ rs.triangles.length →
      Returns (mutateBatch opts width height n rs) g (fun _ _ => True) := by
  intro n
  induction n with
  | zero =>
    intro rs g _ _
    unfold mutateBatch
    exact (returns_pure _ _ _).2 trivial
  | succ k ih =>
    intro rs g h0 h1
    unfold mutateBatch
    simp only [returns_bind, returns_random, returns_cmod]
    refine ⟨by omega, by decide, ?_⟩
    obtain ⟨i0, i1⟩ := tmod_draw_range (g 0) rs.inuse (by omega)
    split_ifs
    · rw [returns_bind]
      apply returns_mono (getSlot_returns rs.triangles _ _ i0 (by omega))
      intro t g1 _
      rw [returns_bind]
      apply returns_mono (mutatetriangle_returns t width height g1 hw hh)
      intro t1 g2 _
      exact ih _ g2 h0 (by simpa using h1)
    · exact ih rs _ h0 h1

/-- C8: with mutation rate 0, for every number of trials, every shape set
with `inuse` at least 1 and every stream of draws, the mutate-batch loop of
`mutatetriangles` returns the shape set it was given, every slot and field
unchanged. -/
theorem mutateBatch_rate_zero (opts : Options) (width height : Int)
    (hrate : opts.opt_mutation_rate = 0) :
    ∀ (n : Nat) (rs : triangles) (g : Nat → Nat), 1 ≤ rs.inuse →
      ∃ g1, mutateBatch opts width height n rs g = .ok (rs, g1) := by
  intro n
  induction n with
  | zero =>
    intro rs g _
    exact ⟨g, rfl⟩
  | succ k ih =>
    intro rs g h0
    have key : Returns (mutateBatch opts width height (k + 1) rs) g (fun rs1 _ => rs1 = rs) := by
      unfold mutateBatch
      simp only [returns_bind, returns_random, returns_cmod]
      refine ⟨by omega, by decide, ?_⟩
      have hnn := (tmod_draw_range (g (0 + 1)) 1000 (by decide)).1
      rw [if_neg (by omega)]
      obtain ⟨g1, hg1⟩ := ih rs (fun i => g (i + 1 + 1)) h0
      exact ⟨rs, g1, hg1, rfl⟩
    obtain ⟨rs1, g1, h, e⟩ := key
    exact ⟨g1, by rw [h, e]⟩

/-- Witness of C8: ten trials on a set of two slots with one active shape. -/
theorem mutateBatch_rate_zero_witness :
    ∃ g1, mutateBatch ⟨1, 0, 0⟩ 4 4 10
      ⟨[⟨0, 1, 2, 3, 50, 0, 0, 1, 1, 2, 2⟩, ⟨1, 9, 9, 9, 20, 1, 1, 1, 0, 0, 0⟩], 2, 1⟩
      (fun i => 7 * i) =
      .ok (⟨[⟨0, 1, 2, 3, 50, 0, 0, 1, 1, 2, 2⟩, ⟨1, 9, 9, 9, 20, 1, 1, 1, 0, 0, 0⟩], 2, 1⟩, g1) :=
  mutateBatch_rate_zero ⟨1, 0, 0⟩ 4 4 rfl 10
    ⟨[⟨0, 1, 2, 3, 50, 0, 0, 1, 1, 2, 2⟩, ⟨1, 9, 9, 9, 20, 1, 1, 1, 0, 0, 0⟩], 2, 1⟩
    (fun i => 7 * i) (by decide)

/-- C7: for every shape set with `1 ≤ inuse ≤ count`, every active budget and
every stream of draws, whatever `mutatetriangles` returns has
`1 ≤ inuse ≤ count`, the same `count`, and an `inuse` that differs from the
given one by at most one; and on a canvas of width and height at least 1,
for a set whose array has `count` slots, `mutatetriangles` does return. -/
theorem mutatetriangles_inuse (st : globalState) (opts : Options) (rs : triangles)
    (count width height : Int) (g : Nat → Nat)
    (h0 : 1 ≤ rs.inuse) (h1 : rs.inuse ≤ rs.count) :
    (∀ rs1 g1, mutatetriangles st opts rs count width height g = .ok (rs1, g1) →
      1 ≤ rs1.inuse ∧ rs1.inuse ≤ rs1.count ∧ rs1.count = rs.count ∧
      rs.inuse - 1 ≤ rs1.inuse ∧ rs1.inuse ≤ rs.inuse + 1) ∧
    (1 ≤ width → 1 ≤ height → (rs.triangles.length : Int) = rs.count →
      ∃ rs1 g1, mutatetriangles st opts rs count width height g = .ok (rs1, g1)) := by
  constructor
  · have key : Ensures (mutatetriangles st opts rs count width height) g (fun rs1 _ =>
        1 ≤ rs1.inuse ∧ rs1.inuse ≤ rs1.count ∧ rs1.count = rs.count ∧
        rs.inuse - 1 ≤ rs1.inuse ∧ rs1.inuse ≤ rs.inuse + 1) := by
      unfold mutatetriangles
      simp only [ensures_bind, ensures_random, ensures_cmod]
      intro _
      split_ifs with hadd
      · refine ensures_mono (addStep_ensures opts rs width height _) ?_
        intro rs1 g1 h
        omega
      · simp only [ensures_bind, ensures_random, ensures_cmod]
        intro _
        split_ifs with hrem
        · refine ensures_mono (removeStep_ensures rs _) ?_
          intro rs1 g1 h
          omega
        · rw [ensures_bind]
          refine ensures_mono (swapStep_ensures rs _) ?_
          intro rs1 g1 h
          refine ensures_mono (mutateBatch_ensures opts width height _ rs1 g1) ?_
          intro rs2 g2 h2
          omega
    exact key
  · intro hw hh hlen
    have key : Returns (mutatetriangles st opts rs count width height) g (fun _ _ => True) := by
      unfold mutatetriangles
      simp only [returns_bind, returns_random, returns_cmod]
      refine ⟨by decide, ?_⟩
      split_ifs with hadd
      · exact addStep_returns opts rs width height _ (by omega) (by omega) (by omega) (by omega)
      · simp only [returns_bind, returns_random, returns_cmod]
        refine ⟨by decide, ?_⟩
        split_ifs with hrem
        · exact removeStep_returns rs _ (by omega) (by omega)
        · rw [returns_bind]
          apply returns_mono (returns_and_ensures
            (swapStep_returns rs _ h0 (by omega)) (swapStep_ensures rs _))
          intro rs1 g1 h
          exact mutateBatch_returns opts width height (by omega) (by omega) _ rs1 g1
            (by omega) (by omega)
    obtain ⟨rs1, g1, h, -⟩ := key
    exact ⟨rs1, g1, h⟩

/-- Witness of C7: a set of three slots with two active shapes, on an 8 by 8
canvas. -/
theorem mutatetriangles_inuse_witness :
    ∃ rs1 g1,
      mutatetriangles ⟨3, 3, 1/10, 100, 0⟩ ⟨1, 1, 200⟩
        ⟨[⟨0, 1, 2, 3, 50, 0, 0, 1, 1, 2, 2⟩, ⟨1, 9, 9, 9, 20, 1, 1, 1, 0, 0, 0⟩,
          ⟨0, 5, 5, 5, 20, 3, 3, 1, 0, 0, 0⟩], 3, 2⟩ 10 8 8 (fun i => 7 * i + 3)
        = .ok (rs1, g1) ∧
      1 ≤ rs1.inuse ∧ rs1.inuse ≤ rs1.count ∧ rs1.count = 3 ∧
      2 - 1 ≤ rs1.inuse ∧ rs1.inuse ≤ 2 + 1 :=
  have h := mutatetriangles_inuse ⟨3, 3, 1/10, 100, 0⟩ ⟨1, 1, 200⟩
    ⟨[⟨0, 1, 2, 3, 50, 0, 0, 1, 1, 2, 2⟩, ⟨1, 9, 9, 9, 20, 1, 1, 1, 0, 0, 0⟩,
      ⟨0, 5, 5, 5, 20, 3, 3, 1, 0, 0, 0⟩], 3, 2⟩ 10 8 8 (fun i => 7 * i + 3)
    (by decide) (by decide)
  match h.2 (by decide) (by decide) (by decide) with
  | ⟨rs1, g1, e⟩ => ⟨rs1, g1, e, h.1 rs1 g1 e⟩

/-! ## Acceptance: theorems -/

/-- C6: with temperature 0, for every candidate score, current-best score,
best-known score and draw, the acceptance test of a generation accepts the
candidate if and only if `percdiff < bestdiff`. -/
theorem acceptCondition_zero_temperature (st : globalState) (percdiff bestdiff rnd : ℚ)
    (ht : st.temperature = 0) :
    acceptCondition st percdiff bestdiff rnd = true ↔ percdiff < bestdiff := by
  unfold acceptCondition
  rw [ht]
  simp

/-- Witness of C6: at temperature 0 a candidate of score 40 against a current
best of 50. -/
theorem acceptCondition_zero_temperature_witness :
    acceptCondition ⟨64, 1, 0, 30, 7⟩ 40 50 0 = true ↔ (40 : ℚ) < 50 :=
  acceptCondition_zero_temperature ⟨64, 1, 0, 30, 7⟩ 40 50 0 rfl

/-- C10, the code at a failing input: from the initial state of `main`
(`absbestdiff = bestdiff = 100`, temperature 1/10) a first candidate of score
50 becomes the absolute best with `absbestdiff = 50`; a second candidate of
score 50.125 is accepted uphill on draw 0, which raises `bestdiff` to 50.125
and leaves `absbestdiff` at 50; a third candidate of score 50.0625 is below
`bestdiff`, so it overwrites the absolute-best set and `absbestdiff` becomes
50.0625, above the 50 it was. -/
theorem absbestdiff_increases :
    (acceptSteps
        ⟨⟨1, 1, 1/10, 100, 0⟩, ⟨[⟨0, 0, 0, 0, 10, 0, 0, 0, 0, 0, 0⟩], 1, 1⟩,
          ⟨[⟨0, 0, 0, 0, 10, 0, 0, 0, 0, 0, 0⟩], 1, 1⟩, 100⟩
        [(⟨[⟨0, 1, 1, 1, 50, 0, 0, 0, 0, 0, 0⟩], 1, 1⟩, 50, 1/2)]).state.absbestdiff = 50 ∧
    (acceptSteps
        ⟨⟨1, 1, 1/10, 100, 0⟩, ⟨[⟨0, 0, 0, 0, 10, 0, 0, 0, 0, 0, 0⟩], 1, 1⟩,
          ⟨[⟨0, 0, 0, 0, 10, 0, 0, 0, 0, 0, 0⟩], 1, 1⟩, 100⟩
        [(⟨[⟨0, 1, 1, 1, 50, 0, 0, 0, 0, 0, 0⟩], 1, 1⟩, 50, 1/2),
         (⟨[⟨0, 2, 2, 2, 50, 0, 0, 0, 0, 0, 0⟩], 1, 1⟩, 401/8, 0),
         (⟨[⟨0, 3, 3, 3, 50, 0, 0, 0, 0, 0, 0⟩], 1, 1⟩, 801/16, 1/2)]) =
      ⟨⟨1, 1, 1/10, 801/16, 0⟩, ⟨[⟨0, 3, 3, 3, 50, 0, 0, 0, 0, 0, 0⟩], 1, 1⟩,
        ⟨[⟨0, 3, 3, 3, 50, 0, 0, 0, 0, 0, 0⟩], 1, 1⟩, 801/16⟩ ∧
    (50 : ℚ) < 801/16 := by
  refine ⟨?_, ?_, by norm_num⟩
  · norm_num [acceptSteps, acceptStep, acceptCondition, memcpySlots]
  · norm_num [acceptSteps, acceptStep, acceptCondition, memcpySlots]

/-! ## Opacity: theorems -/

theorem normalize_alpha (r s : triangle) (width height : Int)
    (h : normalize r width height = .ok s) : s.alpha = r.alpha := by
  unfold normalize at h
  split_ifs at h
  · unfold normalizeTriangle at h
    cases hs : sortLoop 3 r with
    | error e => rw [hs] at h; cases h
    | ok t =>
      rw [hs] at h
      cases h
      exact (sortLoop_keeps 3 r t hs).2.2.2.2.2.2.1
  · rw [normalizeCircle_eq] at h
    cases h
    rfl

theorem alpha_draw_range (v : Nat) :
    10 ≤ toUChar (MINALPHA + Int.tmod (v : Int) (MAXALPHA - MINALPHA + 1)) ∧
    toUChar (MINALPHA + Int.tmod (v : Int) (MAXALPHA - MINALPHA + 1)) ≤ 90 := by
  obtain ⟨h0, h1⟩ := tmod_draw_range v (MAXALPHA - MINALPHA + 1) (by decide)
  unfold MINALPHA MAXALPHA toUChar at *
  omega

theorem setRandomColor_alpha (r : triangle) (g : Nat → Nat) :
    Ensures (setRandomColor r) g (fun t _ => 10 ≤ t.alpha ∧ t.alpha ≤ 90) := by
  simp only [setRandomColor, randbetween, ensures_bind, ensures_random, ensures_cmod,
    ensures_pure]
  intro _ _ _ _
  exact alpha_draw_range _

theorem colorThenNormalize_alpha (r : triangle) (width height : Int) (g : Nat → Nat) :
    Ensures (setRandomColor r >>= fun r2 => liftE (normalize r2 width height)) g
      (fun t _ => 10 ≤ t.alpha ∧ t.alpha ≤ 90) := by
  rw [ensures_bind]
  refine ensures_mono (setRandomColor_alpha r g) ?_
  intro r2 g3 h2
  rw [ensures_liftE]
  intro s hs
  rw [normalize_alpha r2 s width height hs]
  exact h2

theorem randomtriangle_alpha (opts : Options) (r : triangle) (width height : Int)
    (g : Nat → Nat) :
    Ensures (randomtriangle opts r width height) g (fun t _ => 10 ≤ t.alpha ∧ t.alpha ≤ 90) := by
  simp only [randomtriangle, ensures_bind]
  apply ensures_of_forall
  intro ty g1
  apply ensures_of_forall
  intro r1 g2
  exact (ensures_bind _ _ _ _).1 (colorThenNormalize_alpha r1 width height g2)

theorem randomsmalltriangle_alpha (opts : Options) (r : triangle)
    (width height delta : Int) (g : Nat → Nat) :
    Ensures (randomsmalltriangle opts r width height delta) g
      (fun t _ => 10 ≤ t.alpha ∧ t.alpha ≤ 90) := by
  unfold randomsmalltriangle
  simp only [ensures_bind, ensures_random, ensures_cmod]
  intro _ _
  apply ensures_of_forall
  intro ty g1
  split_ifs
  · simp only [randbetween, ensures_bind, ensures_random, ensures_cmod, ensures_pure]
    intro _ _ _ _ _ _
    exact (ensures_bind _ _ _ _).1 (colorThenNormalize_alpha _ width height _)
  · simp only [randbetween, ensures_bind, ensures_random, ensures_cmod, ensures_pure]
    intro _
    exact (ensures_bind _ _ _ _).1 (colorThenNormalize_alpha _ width height _)

theorem setRandomVertexes_alpha (r : triangle) (width height : Int) (g : Nat → Nat) :
    Ensures (setRandomVertexes r width height) g (fun t _ => t.alpha = r.alpha) := by
  unfold setRandomVertexes
  split_ifs <;>
    simp [ensures_bind, ensures_random, ensures_cmod, ensures_pure]

theorem moveVertexes_alpha (t : triangle) (delta : Int) (g : Nat → Nat) :
    Ensures (moveVertexes t delta) g (fun t1 _ => t1.alpha = t.alpha) := by
  unfold moveVertexes
  split_ifs <;>
    simp [randbetween, ensures_bind, ensures_random, ensures_cmod, ensures_pure]

theorem thenNormalize_alpha (m : M triangle) (a : Int) (width height : Int) (g : Nat → Nat)
    (hm : Ensures m g (fun t _ => t.alpha = a)) :
    Ensures (m >>= fun t1 => liftE (normalize t1 width height)) g
      (fun t _ => t.alpha = a) := by
  rw [ensures_bind]
  refine ensures_mono hm ?_
  intro t1 g1 h1
  rw [ensures_liftE]
  intro s hs
  rw [normalize_alpha t1 s width height hs, h1]

theorem mutatetriangle_alpha (t : triangle) (width height : Int) (g : Nat → Nat)
    (ht : 10 ≤ t.alpha ∧ t.alpha ≤ 90) :
    Ensures (mutatetriangle t width height) g (fun t1 _ => 10 ≤ t1.alpha ∧ t1.alpha ≤ 90) := by
  unfold mutatetriangle
  simp only [ensures_bind, ensures_random, ensures_cmod]
  intro _
  split_ifs
  · refine ensures_mono (thenNormalize_alpha _ t.alpha width height _
      (setRandomVertexes_alpha t width height _)) ?_
    intro t1 g1 h
    rw [h]
    exact ht
  · refine ensures_mono (thenNormalize_alpha _ t.alpha width height _
      (moveVertexes_alpha t 20 _)) ?_
    intro t1 g1 h
    rw [h]
    exact ht
  · refine ensures_mono (thenNormalize_alpha _ t.alpha width height _
      (moveVertexes_alpha t 5 _)) ?_
    intro t1 g1 h
    rw [h]
    exact ht
  · simp only [ensures_bind, ensures_random, ensures_cmod, ensures_pure]
    intro _ _ _
    exact ht
  · simp only [randbetween, ensures_bind, ensures_random, ensures_cmod, ensures_pure]
    intro _ _ _
    exact ht
  · simp only [randbetween, ensures_bind, ensures_random, ensures_cmod, ensures_pure]
    intro _
    exact alpha_draw_range _
  · rw [ensures_pure]
    exact ht

theorem mutateMany_alpha (width height : Int) :
    ∀ (n : Nat) (t : triangle) (g : Nat → Nat), 10 ≤ t.alpha ∧ t.alpha ≤ 90 →
      Ensures (mutateMany width height n t) g (fun t1 _ => 10 ≤ t1.alpha ∧ t1.alpha ≤ 90) := by
  intro n
  induction n with
  | zero =>
    intro t g ht
    unfold mutateMany
    rw [ensures_pure]
    exact ht
  | succ k ih =>
    intro t g ht
    unfold mutateMany
    rw [ensures_bind]
    refine ensures_mono (mutatetriangle_alpha t width height g ht) ?_
    intro t1 g1 h1
    exact ih t1 g1 h1

theorem mutateMany_returns (width height : Int) (hw : width ≠ 0) (hh : height ≠ 0) :
    ∀ (n : Nat) (t : triangle) (g : Nat → Nat),
      Returns (mutateMany width height n t) g (fun _ _ => True) := by
  intro n
  induction n with
  | zero =>
    intro t g
    exact (returns_pure _ _ _).2 trivial
  | succ k ih =>
    intro t g
    unfold mutateMany
    rw [returns_bind]
    apply returns_mono (mutatetriangle_returns t width height g hw hh)
    intro t1 g1 _
    exact ih t1 g1

/-- C11: every shape returned by `randomtriangle` or `randomsmalltriangle` has
alpha in `[10,90]`; a call of `mutatetriangle`, and so any sequence of calls,
on a shape with alpha in `[10,90]` returns a shape with alpha in `[10,90]`;
and on a canvas of width and height at least 1 a shape made by
`randomtriangle` and mutated `n` times does come out, with alpha in
`[10,90]`. -/
theorem alpha_in_range (opts : Options) (width height : Int) :
    (∀ r g t g1, randomtriangle opts r width height g = .ok (t, g1) →
      10 ≤ t.alpha ∧ t.alpha ≤ 90) ∧
    (∀ r delta g t g1, randomsmalltriangle opts r width height delta g = .ok (t, g1) →
      10 ≤ t.alpha ∧ t.alpha ≤ 90) ∧
    (∀ t g t1 g1, 10 ≤ t.alpha ∧ t.alpha ≤ 90 →
      mutatetriangle t width height g = .ok (t1, g1) → 10 ≤ t1.alpha ∧ t1.alpha ≤ 90) ∧
    (∀ n t g t1 g1, 10 ≤ t.alpha ∧ t.alpha ≤ 90 →
      mutateMany width height n t g = .ok (t1, g1) → 10 ≤ t1.alpha ∧ t1.alpha ≤ 90) ∧
    (1 ≤ width → 1 ≤ height → ∀ r n g,
      ∃ t g1 t1 g2, randomtriangle opts r width height g = .ok (t, g1) ∧
        mutateMany width height n t g1 = .ok (t1, g2) ∧ 10 ≤ t1.alpha ∧ t1.alpha ≤ 90) := by
  refine ⟨?_, ?_, ?_, ?_, ?_⟩
  · intro r g t g1 h
    exact randomtriangle_alpha opts r width height g t g1 h
  · intro r delta g t g1 h
    exact randomsmalltriangle_alpha opts r width height delta g t g1 h
  · intro t g t1 g1 ht h
    exact mutatetriangle_alpha t width height g ht t1 g1 h
  · intro n t g t1 g1 ht h
    exact mutateMany_alpha width height n t g ht t1 g1 h
  · intro hw hh r n g
    obtain ⟨t, g1, h, -⟩ := randomtriangle_returns opts r width height g (by omega) (by omega)
    have ht := randomtriangle_alpha opts r width height g t g1 h
    obtain ⟨t1, g2, h1, -⟩ := mutateMany_returns width height (by omega) (by omega) n t g1
    exact ⟨t, g1, t1, g2, h, h1, mutateMany_alpha width height n t g1 ht t1 g2 h1⟩

/-- Witness of C11: a shape made on an 8 by 8 canvas and mutated five times. -/
theorem alpha_in_range_witness :
    ∃ t g1 t1 g2,
      randomtriangle ⟨1, 1, 200⟩ ⟨0, 1, 2, 3, 50, 0, 0, 1, 1, 2, 2⟩ 8 8 (fun i => 11 * i + 4)
        = .ok (t, g1) ∧
      mutateMany 8 8 5 t g1 = .ok (t1, g2) ∧ 10 ≤ t1.alpha ∧ t1.alpha ≤ 90 :=
  (alpha_in_range ⟨1, 1, 200⟩ 8 8).2.2.2.2 (by decide) (by decide)
    ⟨0, 1, 2, 3, 50, 0, 0, 1, 1, 2, 2⟩ 5 (fun i => 11 * i + 4)

/-! ## Removal and swap: theorems -/

theorem closeGap_lt {α : Type} (ts : List α) (d n i : Nat) (hi : i < d)
    (hd : d + 1 + n ≤ ts.length) :
    (ts.take d ++ (ts.drop (d + 1)).take n ++ ts.drop (d + n))[i]? = ts[i]? := by
  have h1 : i < (ts.take d).length := by
    rw [List.length_take]; omega
  rw [List.append_assoc, List.getElem?_append_left h1, List.getElem?_take]
  simp [hi]

theorem closeGap_ge {α : Type} (ts : List α) (d n i : Nat) (h0 : d ≤ i) (hi : i < d + n)
    (hd : d + 1 + n ≤ ts.length) :
    (ts.take d ++ (ts.drop (d + 1)).take n ++ ts.drop (d + n))[i]? = ts[i + 1]? := by
  have hl : (ts.take d).length = d := by
    rw [List.length_take]; omega
  have h2 : i - d < ((ts.drop (d + 1)).take n).length := by
    rw [List.length_take, List.length_drop]; omega
  rw [List.append_assoc, List.getElem?_append_right (by omega), hl,
    List.getElem?_append_left h2, List.getElem?_take]
  rw [if_pos (by omega), List.getElem?_drop]
  congr 1
  omega

theorem closeGap_take {α : Type} (ts : List α) (d n : Nat) (hd : d + 1 + n ≤ ts.length) :
    (ts.take d ++ (ts.drop (d + 1)).take n ++ ts.drop (d + n)).take (d + n)
      = (ts.take (d + n + 1)).eraseIdx d := by
  apply List.ext_getElem?
  intro i
  by_cases hi : i < d + n
  · rw [List.getElem?_take]
    rw [if_pos hi]
    rw [List.getElem?_eraseIdx]
    by_cases h0 : i < d
    · rw [closeGap_lt ts d n i h0 hd, if_pos h0, List.getElem?_take, if_pos (by omega)]
    · rw [closeGap_ge ts d n i (by omega) hi hd, if_neg h0, List.getElem?_take,
        if_pos (by omega)]
  · rw [List.getElem?_eq_none (by rw [List.length_take]; omega)]
    rw [List.getElem?_eq_none]
    rw [List.length_eraseIdx, List.length_take]
    split_ifs <;> omega

theorem removeStep_result (rs : triangles) (g : Nat → Nat)
    (h0 : 1 < rs.inuse) (h1 : rs.inuse ≤ rs.triangles.length) :
    Returns (removeStep rs) g (fun rs1 _ => rs1 =
      { rs with
          triangles :=
            rs.triangles.take (Int.tmod (g 0) rs.inuse).toNat ++
              (rs.triangles.drop ((Int.tmod (g 0) rs.inuse).toNat + 1)).take
                (rs.inuse - 1 - Int.tmod (g 0) rs.inuse).toNat ++
              rs.triangles.drop ((Int.tmod (g 0) rs.inuse).toNat +
                (rs.inuse - 1 - Int.tmod (g 0) rs.inuse).toNat),
          inuse := rs.inuse - 1 }) := by
  obtain ⟨r0, r1⟩ := tmod_draw_range (g 0) rs.inuse (by omega)
  have hne : rs.inuse ≠ 0 := by omega
  have e1 : (Int.tmod (g 0) rs.inuse + 1).toNat = (Int.tmod (g 0) rs.inuse).toNat + 1 := by
    omega
  have e2 : (Int.tmod (g 0) rs.inuse + (rs.inuse - 1 - Int.tmod (g 0) rs.inuse)).toNat
      = (Int.tmod (g 0) rs.inuse).toNat + (rs.inuse - 1 - Int.tmod (g 0) rs.inuse).toNat := by
    omega
  have hb : 0 ≤ Int.tmod (g 0) rs.inuse ∧ 0 ≤ Int.tmod (g 0) rs.inuse + 1 ∧
      0 ≤ rs.inuse - 1 - Int.tmod (g 0) rs.inuse ∧
      Int.tmod (g 0) rs.inuse + (rs.inuse - 1 - Int.tmod (g 0) rs.inuse)
        ≤ rs.triangles.length ∧
      Int.tmod (g 0) rs.inuse + 1 + (rs.inuse - 1 - Int.tmod (g 0) rs.inuse)
        ≤ rs.triangles.length := by
    omega
  unfold removeStep
  simp only [returns_bind, returns_random, returns_cmod]
  refine ⟨hne, ?_⟩
  unfold memmoveSlots
  rw [if_pos hb, returns_pure, returns_pure, e1, e2]

/-- C14: when the remove block of `mutatetriangles` runs on a set with
`inuse > 1` whose array holds at least `inuse` slots, it returns a set whose
active sequence is the given one with the element at the drawn index
`d = random() % inuse` deleted: `0 ≤ d < inuse`, `inuse` is one less, `count`
is kept, every slot of index below `d` is unchanged, every slot of index `i`
with `d ≤ i < inuse - 1` holds the shape that was at `i + 1`, and the new
active prefix is the old one with index `d` erased. -/
theorem removeStep_deletes (rs : triangles) (g : Nat → Nat)
    (h0 : 1 < rs.inuse) (h1 : rs.inuse ≤ rs.triangles.length) :
    ∃ rs1 g1, removeStep rs g = .ok (rs1, g1) ∧
      (0 ≤ Int.tmod (g 0) rs.inuse ∧ Int.tmod (g 0) rs.inuse < rs.inuse) ∧
      rs1.inuse = rs.inuse - 1 ∧ rs1.count = rs.count ∧
      (∀ i : Nat, (i : Int) < Int.tmod (g 0) rs.inuse →
        rs1.triangles[i]? = rs.triangles[i]?) ∧
      (∀ i : Nat, Int.tmod (g 0) rs.inuse ≤ i → (i : Int) < rs.inuse - 1 →
        rs1.triangles[i]? = rs.triangles[i + 1]?) ∧
      rs1.triangles.take (rs.inuse - 1).toNat
        = (rs.triangles.take rs.inuse.toNat).eraseIdx (Int.tmod (g 0) rs.inuse).toNat := by
  obtain ⟨r0, r1⟩ := tmod_draw_range (g 0) rs.inuse (by omega)
  obtain ⟨rs1, g1, hrun, hrs⟩ := removeStep_result rs g h0 h1
  have hd : (Int.tmod (g 0) rs.inuse).toNat + 1 + (rs.inuse - 1 - Int.tmod (g 0) rs.inuse).toNat
      ≤ rs.triangles.length := by omega
  refine ⟨rs1, g1, hrun, ⟨r0, r1⟩, ?_, ?_, ?_, ?_, ?_⟩
  · rw [hrs]
  · rw [hrs]
  · intro i hi
    rw [hrs]
    exact closeGap_lt rs.triangles _ _ i (by omega) hd
  · intro i hi1 hi2
    rw [hrs]
    exact closeGap_ge rs.triangles _ _ i (by omega) (by omega) hd
  · rw [hrs]
    have e3 : (rs.inuse - 1).toNat = (Int.tmod (g 0) rs.inuse).toNat +
        (rs.inuse - 1 - Int.tmod (g 0) rs.inuse).toNat := by omega
    have e4 : rs.inuse.toNat = (Int.tmod (g 0) rs.inuse).toNat +
        (rs.inuse - 1 - Int.tmod (g 0) rs.inuse).toNat + 1 := by omega
    rw [e3, e4]
    exact closeGap_take rs.triangles _ _ hd

/-- Witness of C14: three active shapes of four slots, drawn index 1. -/
theorem removeStep_deletes_witness :
    ∃ rs1 g1,
      removeStep ⟨[⟨0, 1, 1, 1, 50, 0, 0, 1, 1, 2, 2⟩, ⟨1, 2, 2, 2, 20, 1, 1, 1, 0, 0, 0⟩,
          ⟨0, 3, 3, 3, 30, 3, 3, 1, 3, 0, 3⟩, ⟨0, 4, 4, 4, 40, 0, 0, 0, 0, 0, 0⟩], 4, 3⟩
        (fun i => i + 4) = .ok (rs1, g1) ∧
      rs1.inuse = 2 ∧
      rs1.triangles.take 2 =
        [⟨0, 1, 1, 1, 50, 0, 0, 1, 1, 2, 2⟩, ⟨0, 3, 3, 3, 30, 3, 3, 1, 3, 0, 3⟩] :=
  match removeStep_deletes
      ⟨[⟨0, 1, 1, 1, 50, 0, 0, 1, 1, 2, 2⟩, ⟨1, 2, 2, 2, 20, 1, 1, 1, 0, 0, 0⟩,
        ⟨0, 3, 3, 3, 30, 3, 3, 1, 3, 0, 3⟩, ⟨0, 4, 4, 4, 40, 0, 0, 0, 0, 0, 0⟩], 4, 3⟩
      (fun i => i + 4) (by decide) (by decide) with
  | ⟨rs1, g1, e, _, hin, _, _, _, htake⟩ => ⟨rs1, g1, e, hin, htake⟩

theorem bind_apply {α β : Type} (m : M α) (f : α → M β) (g : Nat → Nat) :
    (m >>= f) g = match m g with
      | .ok (a, g1) => f a g1
      | .error e => .error e := rfl

theorem pure_apply {α : Type} (a : α) (g : Nat → Nat) : (pure a : M α) g = .ok (a, g) := rfl

/-- C15, the claim refuted on the code: on a set with `inuse = 0`, when the
draw of the swap block is a multiple of 20 the block evaluates
`random() % 0`, a division by zero, instead of completing as a no-op. -/
theorem swapStep_empty_faults :
    swapStep ⟨[⟨0, 1, 1, 1, 50, 0, 0, 1, 1, 2, 2⟩], 1, 0⟩ (fun _ => 40) = .error .divByZero := by
  rfl

/-- C15 as amended: on a set with `inuse = 1` the swap block completes and
returns the set unchanged for every stream of draws (both drawn indices are
0, so nothing is exchanged); on a set with `inuse = 0` it completes and
returns the set unchanged when its first draw is not a multiple of 20, and
divides by zero when it is. -/
theorem swapStep_small (rs : triangles) (g : Nat → Nat) :
    (rs.inuse = 1 → ∃ g1, swapStep rs g = .ok (rs, g1)) ∧
    (rs.inuse = 0 → Int.tmod (g 0) 20 ≠ 0 → ∃ g1, swapStep rs g = .ok (rs, g1)) ∧
    (rs.inuse = 0 → Int.tmod (g 0) 20 = 0 → swapStep rs g = .error .divByZero) := by
  refine ⟨?_, ?_, ?_⟩
  · intro h1
    have key : Returns (swapStep rs) g (fun rs1 _ => rs1 = rs) := by
      unfold swapStep
      simp only [returns_bind, returns_random, returns_cmod]
      refine ⟨by decide, ?_⟩
      split_ifs
      · simp only [returns_bind, returns_random, returns_cmod]
        refine ⟨by omega, by omega, ?_⟩
        have ha := tmod_draw_range (g (0 + 1)) rs.inuse (by omega)
        have hb := tmod_draw_range (g (0 + 1 + 1)) rs.inuse (by omega)
        rw [if_neg (by omega), returns_pure]
      · rw [returns_pure]
    obtain ⟨rs1, g1, h, e⟩ := key
    exact ⟨g1, by rw [h, e]⟩
  · intro h0 hz
    have key : Returns (swapStep rs) g (fun rs1 _ => rs1 = rs) := by
      unfold swapStep
      simp only [returns_bind, returns_random, returns_cmod]
      refine ⟨by decide, ?_⟩
      rw [if_neg hz, returns_pure]
    obtain ⟨rs1, g1, h, e⟩ := key
    exact ⟨g1, by rw [h, e]⟩
  · intro h0 hz
    unfold swapStep
    simp only [bind_apply, random, cmod, fault, pure_apply, hz, h0]
    rfl

/-- Witness of C15 as amended: one active shape, a draw that fires the swap. -/
theorem swapStep_small_witness :
    ∃ g1, swapStep ⟨[⟨0, 1, 1, 1, 50, 0, 0, 1, 1, 2, 2⟩, ⟨1, 2, 2, 2, 20, 1, 1, 1, 0, 0, 0⟩], 2, 1⟩
        (fun i => 20 + i) =
      .ok (⟨[⟨0, 1, 1, 1, 50, 0, 0, 1, 1, 2, 2⟩, ⟨1, 2, 2, 2, 20, 1, 1, 1, 0, 0, 0⟩], 2, 1⟩, g1) :=
  (swapStep_small
    ⟨[⟨0, 1, 1, 1, 50, 0, 0, 1, 1, 2, 2⟩, ⟨1, 2, 2, 2, 20, 1, 1, 1, 0, 0, 0⟩], 2, 1⟩
    (fun i => 20 + i)).1 rfl

/-! ## Edit policy and mutate batch: theorems -/

theorem addStep_keeps_active (opts : Options) (rs : triangles) (width height : Int)
    (g : Nat → Nat) :
    Ensures (addStep opts rs width height) g (fun rs1 _ =>
      ∀ i : Nat, (i : Int) < rs.inuse → rs1.triangles[i]? = rs.triangles[i]?) := by
  unfold addStep
  simp only [ensures_bind, ensures_random, ensures_cmod]
  intro _
  apply ensures_of_forall
  intro slot g1
  have hset : ∀ (t : triangle) (i : Nat), (i : Int) < rs.inuse →
      (rs.triangles.set rs.inuse.toNat t)[i]? = rs.triangles[i]? := by
    intro t i hi
    rw [List.getElem?_set_ne (by omega)]
  split_ifs <;> rw [ensures_bind] <;> apply ensures_of_forall <;> intro t g2 <;>
    rw [ensures_pure] <;> exact hset t

/-- C17, the claim refuted on the code: with mutation rate 1000 and all draws
0 the add block fires; `mutatetriangles` returns the set with the new shape
in slot 1 and slot 0 as it was, while the spec-following `editThenBatch`,
which runs the mutate batch after the edit, returns a set whose slot 0 has
been mutated. -/
theorem mutatetriangles_skips_batch :
    (∃ g1, mutatetriangles ⟨2, 2, 1/10, 100, 0⟩ ⟨1, 0, 1000⟩
        ⟨[⟨0, 1, 2, 3, 50, 0, 0, 1, 1, 2, 2⟩, ⟨0, 9, 9, 9, 20, 1, 1, 1, 0, 0, 0⟩], 2, 1⟩
        10 8 8 (fun _ => 0) =
      .ok (⟨[⟨0, 1, 2, 3, 50, 0, 0, 1, 1, 2, 2⟩, ⟨0, 0, 0, 0, 10, 0, 0, 0, 0, 0, 0⟩], 2, 2⟩,
        g1)) ∧
    (∃ g2, editThenBatch ⟨2, 2, 1/10, 100, 0⟩ ⟨1, 0, 1000⟩
        ⟨[⟨0, 1, 2, 3, 50, 0, 0, 1, 1, 2, 2⟩, ⟨0, 9, 9, 9, 20, 1, 1, 1, 0, 0, 0⟩], 2, 1⟩
        10 8 8 (fun _ => 0) =
      .ok (⟨[⟨0, 1, 2, 3, 50, 0, 0, 0, 0, 0, 0⟩, ⟨0, 0, 0, 0, 10, 0, 0, 0, 0, 0, 0⟩], 2, 2⟩,
        g2)) ∧
    (⟨[⟨0, 1, 2, 3, 50, 0, 0, 1, 1, 2, 2⟩, ⟨0, 0, 0, 0, 10, 0, 0, 0, 0, 0, 0⟩], 2, 2⟩ : triangles)
      ≠ ⟨[⟨0, 1, 2, 3, 50, 0, 0, 0, 0, 0, 0⟩, ⟨0, 0, 0, 0, 10, 0, 0, 0, 0, 0, 0⟩], 2, 2⟩ :=
  ⟨⟨_, rfl⟩, ⟨_, rfl⟩, by decide⟩

/-- C17 as amended: in a generation where the add block fires,
`mutatetriangles` returns what the add block returns, with no mutate batch,
and no shape that was active is modified; where the remove block fires it
returns what the remove block returns, with no mutate batch; in every other
generation the candidate goes through the swap block and then the mutate
batch of `count` trials. -/
theorem mutatetriangles_cases (st : globalState) (opts : Options) (rs : triangles)
    (count width height : Int) (g : Nat → Nat) :
    ((Int.tmod (g 0) 10 = 0 ∧ rs.inuse ≠ rs.count ∧ rs.inuse < st.max_shapes_incremental) →
      mutatetriangles st opts rs count width height g
        = addStep opts rs width height (fun i => g (i + 1)) ∧
      ∀ rs1 g1, mutatetriangles st opts rs count width height g = .ok (rs1, g1) →
        ∀ i : Nat, (i : Int) < rs.inuse → rs1.triangles[i]? = rs.triangles[i]?) ∧
    (¬ (Int.tmod (g 0) 10 = 0 ∧ rs.inuse ≠ rs.count ∧ rs.inuse < st.max_shapes_incremental) →
      (Int.tmod (g 1) 20 = 0 ∧ rs.inuse > 1) →
      mutatetriangles st opts rs count width height g
        = removeStep rs (fun i => g (i + 1 + 1))) ∧
    (¬ (Int.tmod (g 0) 10 = 0 ∧ rs.inuse ≠ rs.count ∧ rs.inuse < st.max_shapes_incremental) →
      ¬ (Int.tmod (g 1) 20 = 0 ∧ rs.inuse > 1) →
      mutatetriangles st opts rs count width height g
        = (swapStep rs >>= fun rs1 => mutateBatch opts width height count.toNat rs1)
            (fun i => g (i + 1 + 1))) := by
  have h10 : (10 : Int) ≠ 0 := by decide
  have h20 : (20 : Int) ≠ 0 := by decide
  refine ⟨?_, ?_, ?_⟩
  · intro hadd
    have e : mutatetriangles st opts rs count width height g
        = addStep opts rs width height (fun i => g (i + 1)) := by
      unfold mutatetriangles
      simp only [bind_apply, random, cmod, pure_apply, if_neg h10, if_pos hadd]
    refine ⟨e, ?_⟩
    intro rs1 g1 h
    rw [e] at h
    exact addStep_keeps_active opts rs width height _ rs1 g1 h
  · intro hadd hrem
    unfold mutatetriangles
    simp only [bind_apply, random, cmod, pure_apply, if_neg h10, if_neg h20, if_neg hadd]
    rw [if_pos (by simpa using hrem)]
  · intro hadd hrem
    unfold mutatetriangles
    simp only [bind_apply, random, cmod, pure_apply, if_neg h10, if_neg h20, if_neg hadd]
    rw [if_neg (by simpa using hrem)]
    rfl

/-- Witness of C17 as amended: all draws 0, so the add block fires. -/
theorem mutatetriangles_cases_witness :
    mutatetriangles ⟨2, 2, 1/10, 100, 0⟩ ⟨1, 0, 1000⟩
        ⟨[⟨0, 1, 2, 3, 50, 0, 0, 1, 1, 2, 2⟩, ⟨0, 9, 9, 9, 20, 1, 1, 1, 0, 0, 0⟩], 2, 1⟩
        10 8 8 (fun _ => 0)
      = addStep ⟨1, 0, 1000⟩
        ⟨[⟨0, 1, 2, 3, 50, 0, 0, 1, 1, 2, 2⟩, ⟨0, 9, 9, 9, 20, 1, 1, 1, 0, 0, 0⟩], 2, 1⟩
        8 8 (fun _ => 0) :=
  ((mutatetriangles_cases ⟨2, 2, 1/10, 100, 0⟩ ⟨1, 0, 1000⟩
    ⟨[⟨0, 1, 2, 3, 50, 0, 0, 1, 1, 2, 2⟩, ⟨0, 9, 9, 9, 20, 1, 1, 1, 0, 0, 0⟩], 2, 1⟩
    10 8 8 (fun _ => 0)).1 ⟨by decide, by decide, by decide⟩).1

/-! ## Generation start: theorems -/

/-- C16, the claim refuted on the code: entering generation 1000 with a
budget of 2 below the cap 3, while the best set and the scratch set both
have one active shape (`1 ≥ 2 - 1`), the budget stays 2: the code asks for
`inuse > 2 - 1`. -/
theorem budget_not_incremented :
    (beginGeneration ⟨3, 2, 1/10, 50, 999⟩
      ⟨[⟨0, 1, 2, 3, 50, 0, 0, 1, 1, 2, 2⟩, ⟨0, 9, 9, 9, 20, 1, 1, 1, 0, 0, 0⟩,
        ⟨0, 5, 5, 5, 20, 3, 3, 1, 0, 0, 0⟩], 3, 1⟩).generation = 1000 ∧
    (beginGeneration ⟨3, 2, 1/10, 50, 999⟩
      ⟨[⟨0, 1, 2, 3, 50, 0, 0, 1, 1, 2, 2⟩, ⟨0, 9, 9, 9, 20, 1, 1, 1, 0, 0, 0⟩,
        ⟨0, 5, 5, 5, 20, 3, 3, 1, 0, 0, 0⟩], 3, 1⟩).max_shapes_incremental = 2 ∧
    ((2 : Int) < 3 ∧ (1 : Int) ≥ 2 - 1) := by
  have e10 : Int.tmod 1000 10 = 0 := by decide
  have e1000 : Int.tmod 1000 1000 = 0 := by decide
  refine ⟨?_, ?_, by decide⟩
  · norm_num [beginGeneration, e10, e1000]
  · norm_num [beginGeneration, e10, e1000]

/-- C16 as amended: the start of a generation adds one to the generation
counter and never changes `max_shapes`; when the new generation is a
multiple of 1000, `max_shapes_incremental` is below the `count` of the
scratch set and the `inuse` the previous generation left in the scratch set
is at least `max_shapes_incremental`, then `max_shapes_incremental` grows by
exactly 1; in every other case it is unchanged. -/
theorem beginGeneration_budget (st : globalState) (scratch : triangles) :
    (beginGeneration st scratch).generation = st.generation + 1 ∧
    (beginGeneration st scratch).max_shapes = st.max_shapes ∧
    ((Int.tmod (st.generation + 1) 1000 = 0 ∧
        st.max_shapes_incremental < scratch.count ∧
        scratch.inuse ≥ st.max_shapes_incremental) →
      (beginGeneration st scratch).max_shapes_incremental = st.max_shapes_incremental + 1) ∧
    (¬ (Int.tmod (st.generation + 1) 1000 = 0 ∧
        st.max_shapes_incremental < scratch.count ∧
        scratch.inuse ≥ st.max_shapes_incremental) →
      (beginGeneration st scratch).max_shapes_incremental = st.max_shapes_incremental) := by
  unfold beginGeneration
  simp only []
  refine ⟨?_, ?_, ?_, ?_⟩
  · split_ifs <;> rfl
  · split_ifs <;> rfl
  · rintro ⟨h1, h2, h3⟩
    split_ifs <;> simp_all <;> omega
  · intro h
    split_ifs <;> simp_all <;> omega

/-- Witness of C16 as amended: entering generation 1000 with budget 2, cap 3
and two active shapes in the scratch set. -/
theorem beginGeneration_budget_witness :
    (beginGeneration ⟨3, 2, 1/10, 50, 999⟩
      ⟨[⟨0, 1, 2, 3, 50, 0, 0, 1, 1, 2, 2⟩, ⟨0, 9, 9, 9, 20, 1, 1, 1, 0, 0, 0⟩,
        ⟨0, 5, 5, 5, 20, 3, 3, 1, 0, 0, 0⟩], 3, 2⟩).max_shapes_incremental = 2 + 1 :=
  (beginGeneration_budget ⟨3, 2, 1/10, 50, 999⟩
    ⟨[⟨0, 1, 2, 3, 50, 0, 0, 1, 1, 2, 2⟩, ⟨0, 9, 9, 9, 20, 1, 1, 1, 0, 0, 0⟩,
      ⟨0, 5, 5, 5, 20, 3, 3, 1, 0, 0, 0⟩], 3, 2⟩).2.2.1 ⟨by decide, by decide, by decide⟩

/-! ## Checkpoints: theorems -/

/-- C18, the claim refuted on the code: a state saved with
`max_shapes_incremental = 5` and a set with one active shape comes back from
`loadBinary` with `max_shapes_incremental = 1`. -/
theorem loadBinary_resets_budget :
    loadBinary
        (some (saveBinary ⟨64, 5, 1/10, 50, 100⟩
          ⟨[⟨0, 1, 2, 3, 50, 0, 0, 1, 1, 2, 2⟩, ⟨0, 9, 9, 9, 20, 1, 1, 1, 0, 0, 0⟩], 2, 1⟩))
        ⟨2, 1, 1/10, 100, 0⟩
        ⟨[⟨0, 7, 7, 7, 70, 0, 0, 0, 0, 0, 0⟩, ⟨0, 7, 7, 7, 70, 0, 0, 0, 0, 0, 0⟩], 2, 1⟩
        [⟨0, 8, 8, 8, 80, 0, 0, 0, 0, 0, 0⟩, ⟨0, 8, 8, 8, 80, 0, 0, 0, 0, 0, 0⟩]
      = .loaded ⟨64, 1, 1/10, 50, 100⟩
        ⟨[⟨0, 1, 2, 3, 50, 0, 0, 1, 1, 2, 2⟩, ⟨0, 8, 8, 8, 80, 0, 0, 0, 0, 0, 0⟩], 64, 1⟩ ∧
    (⟨64, 1, 1/10, 50, 100⟩ : globalState) ≠ ⟨64, 5, 1/10, 50, 100⟩ := by
  constructor
  · rfl
  · intro h
    have := congrArg globalState.max_shapes_incremental h
    simp at this

/-- C18 as amended: for a set with `1 ≤ inuse ≤ state.max_shapes` whose array
holds at least `inuse` slots, `loadBinary` applied to what `saveBinary` wrote
installs a set with the same `inuse` whose first `inuse` shapes are the saved
ones, and a state equal to the saved one in `max_shapes`, `temperature`,
`absbestdiff` and `generation`, with `max_shapes_incremental` set to
`inuse`. -/
theorem loadBinary_saveBinary (st : globalState) (rs : triangles)
    (st0 : globalState) (rs0 : triangles) (fresh : List triangle)
    (h0 : 1 ≤ rs.inuse) (h1 : rs.inuse ≤ st.max_shapes)
    (h2 : rs.inuse ≤ rs.triangles.length) :
    ∃ st1 rs1, loadBinary (some (saveBinary st rs)) st0 rs0 fresh = .loaded st1 rs1 ∧
      rs1.inuse = rs.inuse ∧
      rs1.triangles.take rs.inuse.toNat = rs.triangles.take rs.inuse.toNat ∧
      st1.max_shapes = st.max_shapes ∧ st1.temperature = st.temperature ∧
      st1.absbestdiff = st.absbestdiff ∧ st1.generation = st.generation ∧
      st1.max_shapes_incremental = rs.inuse := by
  have hlen : (rs.triangles.take rs.inuse.toNat).length = rs.inuse.toNat := by
    rw [List.length_take]
    omega
  refine ⟨{ st with max_shapes_incremental := rs.inuse },
    { triangles := memcpySlots fresh (rs.triangles.take rs.inuse.toNat) rs.inuse,
      count := st.max_shapes, inuse := rs.inuse }, ?_, rfl, ?_, rfl, rfl, rfl, rfl, rfl⟩
  · unfold loadBinary saveBinary
    simp only []
    rw [if_neg (by omega), if_neg (by rw [hlen]; omega)]
  · simp only [memcpySlots]
    rw [List.take_append_of_le_length (by rw [List.length_take, hlen]; omega)]
    rw [List.take_take, List.take_take, Nat.min_self, Nat.min_self]

/-- Witness of C18 as amended: a state with budget 5 and a set with two
active shapes of three. -/
theorem loadBinary_saveBinary_witness :
    ∃ st1 rs1,
      loadBinary
        (some (saveBinary ⟨64, 5, 1/10, 50, 100⟩
          ⟨[⟨0, 1, 2, 3, 50, 0, 0, 1, 1, 2, 2⟩, ⟨1, 9, 9, 9, 20, 1, 1, 1, 0, 0, 0⟩,
            ⟨0, 5, 5, 5, 20, 3, 3, 1, 0, 0, 0⟩], 3, 2⟩))
        ⟨64, 1, 1/10, 100, 0⟩ ⟨[], 0, 0⟩ [] = .loaded st1 rs1 ∧
      rs1.inuse = 2 ∧
      rs1.triangles.take 2 =
        [⟨0, 1, 2, 3, 50, 0, 0, 1, 1, 2, 2⟩, ⟨1, 9, 9, 9, 20, 1, 1, 1, 0, 0, 0⟩] ∧
      st1.max_shapes = 64 ∧ st1.temperature = 1/10 ∧
      st1.absbestdiff = 50 ∧ st1.generation = 100 ∧
      st1.max_shapes_incremental = 2 :=
  loadBinary_saveBinary ⟨64, 5, 1/10, 50, 100⟩
    ⟨[⟨0, 1, 2, 3, 50, 0, 0, 1, 1, 2, 2⟩, ⟨1, 9, 9, 9, 20, 1, 1, 1, 0, 0, 0⟩,
      ⟨0, 5, 5, 5, 20, 3, 3, 1, 0, 0, 0⟩], 3, 2⟩
    ⟨64, 1, 1/10, 100, 0⟩ ⟨[], 0, 0⟩ [] (by decide) (by decide) (by decide)

/-- C19, the code at a failing input: the run is configured with
`max_shapes = 1`; the checkpoint stores `max_shapes = 3` and `inuse = 2`.
`loadBinary` has already replaced `state` by the stored one when it tests
`inuse > state.max_shapes`, so it installs the two shapes, in a set of
`count` 3, instead of failing. -/
theorem loadBinary_ignores_configured_cap :
    loadBinary
        (some ⟨⟨3, 3, 1/10, 50, 100⟩, 3, 2,
          [⟨0, 1, 2, 3, 50, 0, 0, 1, 1, 2, 2⟩, ⟨1, 9, 9, 9, 20, 1, 1, 1, 0, 0, 0⟩]⟩)
        ⟨1, 1, 1/10, 100, 0⟩
        ⟨[⟨0, 7, 7, 7, 70, 0, 0, 0, 0, 0, 0⟩], 1, 1⟩
        [⟨0, 8, 8, 8, 80, 0, 0, 0, 0, 0, 0⟩, ⟨0, 8, 8, 8, 80, 0, 0, 0, 0, 0, 0⟩,
          ⟨0, 8, 8, 8, 80, 0, 0, 0, 0, 0, 0⟩]
      = .loaded ⟨3, 2, 1/10, 50, 100⟩
        ⟨[⟨0, 1, 2, 3, 50, 0, 0, 1, 1, 2, 2⟩, ⟨1, 9, 9, 9, 20, 1, 1, 1, 0, 0, 0⟩,
          ⟨0, 8, 8, 8, 80, 0, 0, 0, 0, 0, 0⟩], 3, 2⟩ ∧
    (2 : Int) > (⟨1, 1, 1/10, 100, 0⟩ : globalState).max_shapes := by
  constructor
  · rfl
  · decide

/-! ## Fitness as a sum: theorems -/

theorem computeDiffLoop_sum (a b : Int → Int) :
    ∀ (k fuel : Nat) (j d : Int), k ≤ fuel →
      computeDiffLoop a b (j + 3 * k) fuel j d
        = .ok (d + Finset.sum (Finset.range k) (fun p => pixelDiff a b (j + 3 * p))) := by
  intro k
  induction k with
  | zero =>
    intro fuel j d _
    unfold computeDiffLoop
    rw [if_neg (by omega)]
    simp
  | succ k ih =>
    intro fuel j d hf
    obtain ⟨f, rfl⟩ : ∃ f, fuel = f + 1 := ⟨fuel - 1, by omega⟩
    unfold computeDiffLoop
    rw [if_pos (by push_cast; omega)]
    simp only []
    have e : j + 3 * ((k + 1 : Nat) : Int) = (j + 3) + 3 * (k : Int) := by
      push_cast
      ring
    have e3 : (fun p : Nat => pixelDiff a b (j + 3 + 3 * (p : Int)))
        = (fun p : Nat => pixelDiff a b (j + 3 * ((p + 1 : Nat) : Int))) := by
      funext p
      congr 1
      push_cast
      ring
    rw [e, ih f (j + 3) _ (by omega), Finset.sum_range_succ', e3]
    simp only [Nat.cast_zero, mul_zero, add_zero]
    congr 1
    ring

theorem pixelDiff_floor (a b : Int → Int) (j : Int) :
    pixelDiff a b j * pixelDiff a b j
      ≤ (a j - b j) * (a j - b j) + (a (j + 1) - b (j + 1)) * (a (j + 1) - b (j + 1))
        + (a (j + 2) - b (j + 2)) * (a (j + 2) - b (j + 2)) ∧
    (a j - b j) * (a j - b j) + (a (j + 1) - b (j + 1)) * (a (j + 1) - b (j + 1))
        + (a (j + 2) - b (j + 2)) * (a (j + 2) - b (j + 2))
      < (pixelDiff a b j + 1) * (pixelDiff a b j + 1) := by
  unfold pixelDiff
  simp only []
  have hnn : 0 ≤ (a j - b j) * (a j - b j) + (a (j + 1) - b (j + 1)) * (a (j + 1) - b (j + 1))
      + (a (j + 2) - b (j + 2)) * (a (j + 2) - b (j + 2)) := by
    linarith [mul_self_nonneg (a j - b j), mul_self_nonneg (a (j + 1) - b (j + 1)),
      mul_self_nonneg (a (j + 2) - b (j + 2))]
  have h1 := Nat.sqrt_le ((a j - b j) * (a j - b j)
    + (a (j + 1) - b (j + 1)) * (a (j + 1) - b (j + 1))
    + (a (j + 2) - b (j + 2)) * (a (j + 2) - b (j + 2))).toNat
  have h2 := Nat.lt_succ_sqrt ((a j - b j) * (a j - b j)
    + (a (j + 1) - b (j + 1)) * (a (j + 1) - b (j + 1))
    + (a (j + 2) - b (j + 2)) * (a (j + 2) - b (j + 2))).toNat
  constructor
  · have := Int.toNat_of_nonneg hnn
    zify at h1
    omega
  · have := Int.toNat_of_nonneg hnn
    zify at h2
    omega

/-- C13, the claim refuted on the code: on a 1 by 1 image whose pixel is
(1,1,0) in one buffer and (0,0,0) in the other, `computeDiff` returns 1,
which is not the Euclidean distance `sqrt(1+1+0)` of the two pixels. -/
theorem computeDiff_not_euclidean :
    computeDiff (fun i => if i = 0 then 1 else if i = 1 then 1 else 0) (fun _ => 0) 1 1
      = .ok 1 ∧
    ((1 : Int) : ℝ) ≠ Real.sqrt ((1 - 0) ^ 2 + (1 - 0) ^ 2 + (0 - 0) ^ 2) := by
  constructor
  · have hs : Nat.sqrt 2 = 1 := (Nat.eq_sqrt.2 ⟨by norm_num, by norm_num⟩).symm
    simp [computeDiff, computeDiffLoop, pixelDiff, hs]
  · intro h
    have h2 : Real.sqrt ((1 - 0) ^ 2 + (1 - 0) ^ 2 + (0 - 0) ^ 2) = 1 := by
      rw [← h]
      norm_num
    rw [Real.sqrt_eq_one] at h2
    norm_num at h2

/-- C13 as amended: for every width and height and every two buffers,
`computeDiff` returns the sum, over the `width*height` pixels, of the integer
part of the Euclidean colour distance of the two pixels at the same
position: the term of the pixel at byte offset `j` is the integer `t ≥ 0`
with `t² ≤ dr² + dg² + db² < (t+1)²`. -/
theorem computeDiff_sum_of_floors (a b : Int → Int) (width height : Int) :
    computeDiff a b width height
      = .ok (Finset.sum (Finset.range (width * height).toNat)
          (fun p => pixelDiff a b (3 * (p : Int)))) ∧
    ∀ j : Int, 0 ≤ pixelDiff a b j ∧
      pixelDiff a b j * pixelDiff a b j
        ≤ (a j - b j) * (a j - b j) + (a (j + 1) - b (j + 1)) * (a (j + 1) - b (j + 1))
          + (a (j + 2) - b (j + 2)) * (a (j + 2) - b (j + 2)) ∧
      (a j - b j) * (a j - b j) + (a (j + 1) - b (j + 1)) * (a (j + 1) - b (j + 1))
          + (a (j + 2) - b (j + 2)) * (a (j + 2) - b (j + 2))
        < (pixelDiff a b j + 1) * (pixelDiff a b j + 1) := by
  refine ⟨?_, fun j => ⟨pixelDiff_nonneg a b j, pixelDiff_floor a b j⟩⟩
  unfold computeDiff
  by_cases hpos : 0 < width * height
  · have e : width * height * 3 = 0 + 3 * (((width * height).toNat : Nat) : Int) := by
      rw [Int.toNat_of_nonneg (le_of_lt hpos)]
      ring
    have hk := computeDiffLoop_sum a b (width * height).toNat (width * height * 3).toNat 0 0
      (by omega)
    rw [← e] at hk
    rw [hk]
    simp
  · have e : (width * height).toNat = 0 := by omega
    rw [e]
    unfold computeDiffLoop
    rw [if_neg (by omega)]
    simp

/-! ## Radius of mutated circles: theorems -/

/-- C12, the code at a failing input: on an 8 by 8 canvas with circles only,
`randomtriangle` makes the circle of centre (4,4) and radius 3; a call of
`mutatetriangle` then draws the jitter of 20 pixels with offsets 0, 0 and
-20, which takes the radius to -17; the loop of `normalizeCircle` only ever
decrements the radius, so the circle is returned with radius -17. -/
theorem mutatetriangle_negative_radius :
    ∃ g1 g2,
      randomtriangle ⟨0, 1, 200⟩ ⟨0, 0, 0, 0, 10, 0, 0, 0, 0, 0, 0⟩ 8 8
        (fun i => [4, 4, 3, 9, 9, 9, 10, 1, 20, 20, 0].getD i 0)
        = .ok (⟨1, 9, 9, 9, 20, 4, 4, 3, 0, 0, 0⟩, g1) ∧
      mutatetriangle ⟨1, 9, 9, 9, 20, 4, 4, 3, 0, 0, 0⟩ 8 8 g1
        = .ok (⟨1, 9, 9, 9, 20, 4, 4, -17, 0, 0, 0⟩, g2) ∧
      (⟨1, 9, 9, 9, 20, 4, 4, -17, 0, 0, 0⟩ : triangle).type = TYPE_CIRCLE ∧
      (⟨1, 9, 9, 9, 20, 4, 4, -17, 0, 0, 0⟩ : triangle).radius < 0 :=
  ⟨_, _, rfl, rfl, rfl, by decide⟩

/-! ## Rendering on the 2 by 2 canvas: theorems -/

theorem okAnd_elim {α : Type} {x : Except Fault α} {P : α → Prop} (h : okAnd x P) :
    ∃ a, x = .ok a ∧ P a := by
  cases x with
  | ok a => exact ⟨a, rfl, h⟩
  | error e => exact False.elim h

theorem drawtriangles_single (fb : Int → Int) (width height : Int) (t : triangle)
    (rest : List triangle) (count : Int) (ht : t.type = TYPE_TRIANGLE) :
    drawtriangles fb width height ⟨t :: rest, count, 1⟩ = drawTriangle fb width height t := by
  unfold drawtriangles
  simp only [Int.toNat_one, drawtrianglesLoop, List.getElem?_cons_zero, ht, if_true]
  cases drawTriangle fb width height t <;> rfl

theorem drawTriangle_red_2x2 (x1 y1 x2 y2 x3 y3 : Int)
    (hx1 : 0 ≤ x1 ∧ x1 < 2) (hx2 : 0 ≤ x2 ∧ x2 < 2) (hx3 : 0 ≤ x3 ∧ x3 < 2)
    (hy1 : 0 ≤ y1 ∧ y1 < 2) (hy2 : 0 ≤ y2 ∧ y2 < 2) (hy3 : 0 ≤ y3 ∧ y3 < 2)
    (h12 : y1 ≤ y2) (h23 : y2 ≤ y3) :
    okAnd (drawTriangle (fun _ => 0) 2 2 ⟨TYPE_TRIANGLE, 255, 0, 0, 90, x1, y1, x2, y2, x3, y3⟩)
      (fun fb1 =>
        (∀ p : Nat, p < 4 → (fb1 (3 * p) = 0 ∨ fb1 (3 * p) = 229) ∧
          fb1 (3 * p + 1) = 0 ∧ fb1 (3 * p + 2) = 0) ∧
        ∃ p : Nat, p < 4 ∧ fb1 (3 * p) = 229) := by
  obtain ⟨a1, b1⟩ := hx1
  obtain ⟨a2, b2⟩ := hx2
  obtain ⟨a3, b3⟩ := hx3
  obtain ⟨c1, d1⟩ := hy1
  obtain ⟨c2, d2⟩ := hy2
  obtain ⟨c3, d3⟩ := hy3
  interval_cases x1 <;> interval_cases x2 <;> interval_cases x3 <;>
    interval_cases y1 <;> interval_cases y2 <;> interval_cases y3 <;> decide!

theorem computeDiff_2x2 (a b : Int → Int) :
    computeDiff a b 2 2
      = .ok (pixelDiff a b 0 + pixelDiff a b 3 + pixelDiff a b 6 + pixelDiff a b 9) := by
  have h := computeDiffLoop_sum a b 4 12 0 0 (by decide)
  have e : computeDiff a b 2 2 = computeDiffLoop a b ((0 : Int) + 3 * ((4 : Nat) : Int)) 12 0 0 := rfl
  rw [e, h]
  simp [Finset.sum_range_succ]

theorem pixelDiff_red (fb1 : Int → Int) (j : Int) (hj : j % 3 = 0)
    (hg : fb1 (j + 1) = 0) (hb : fb1 (j + 2) = 0) :
    (fb1 j = 229 → pixelDiff redTarget fb1 j = 26) ∧
    (fb1 j = 0 → pixelDiff redTarget fb1 j = 255) := by
  have e0 : redTarget j = 255 := by
    unfold redTarget
    rw [if_pos hj]
  have e1 : redTarget (j + 1) = 0 := by
    unfold redTarget
    rw [if_neg (by omega)]
  have e2 : redTarget (j + 2) = 0 := by
    unfold redTarget
    rw [if_neg (by omega)]
  have s26 : Nat.sqrt 676 = 26 := Nat.sqrt_eq 26
  have s255 : Nat.sqrt 65025 = 255 := Nat.sqrt_eq 255
  constructor
  · intro h
    unfold pixelDiff
    simp only [e0, e1, e2, h, hg, hb]
    norm_num
    rw [show Int.toNat 676 = 676 from rfl, s26]
    rfl
  · intro h
    unfold pixelDiff
    simp only [e0, e1, e2, h, hg, hb]
    norm_num
    rw [show Int.toNat 65025 = 65025 from rfl, s255]
    rfl

/-- C20: on the 2 by 2 canvas, for the target whose four pixels are
(255,0,0) and a framebuffer cleared to black, rendering a set whose one
active shape is a triangle of colour (255,0,0) and opacity 90, with vertices
in the canvas in non-decreasing y order, succeeds; every pixel is left black
or blended to (229,0,0), at least one pixel is blended, and the `computeDiff`
of the target against the rendering is above 0 and below the `computeDiff`
of the target against the black framebuffer. -/
theorem red_triangle_near_match (x1 y1 x2 y2 x3 y3 : Int)
    (rest : List triangle) (count : Int)
    (hx1 : 0 ≤ x1 ∧ x1 < 2) (hx2 : 0 ≤ x2 ∧ x2 < 2) (hx3 : 0 ≤ x3 ∧ x3 < 2)
    (hy1 : 0 ≤ y1 ∧ y1 < 2) (hy2 : 0 ≤ y2 ∧ y2 < 2) (hy3 : 0 ≤ y3 ∧ y3 < 2)
    (h12 : y1 ≤ y2) (h23 : y2 ≤ y3) :
    ∃ fb1 d d0,
      drawtriangles (fun _ => 0) 2 2
        ⟨⟨TYPE_TRIANGLE, 255, 0, 0, 90, x1, y1, x2, y2, x3, y3⟩ :: rest, count, 1⟩ = .ok fb1 ∧
      (∀ p : Nat, p < 4 → (fb1 (3 * p) = 0 ∨ fb1 (3 * p) = 229) ∧
        fb1 (3 * p + 1) = 0 ∧ fb1 (3 * p + 2) = 0) ∧
      (∃ p : Nat, p < 4 ∧ fb1 (3 * p) = 229) ∧
      computeDiff redTarget fb1 2 2 = .ok d ∧
      computeDiff redTarget (fun _ => 0) 2 2 = .ok d0 ∧
      0 < d ∧ d < d0 := by
  obtain ⟨fb1, hfb, hpix, hcov⟩ :=
    okAnd_elim (drawTriangle_red_2x2 x1 y1 x2 y2 x3 y3 hx1 hx2 hx3 hy1 hy2 hy3 h12 h23)
  have hblack : computeDiff redTarget (fun _ => 0) 2 2 = .ok 1020 := by
    rw [computeDiff_2x2]
    rw [(pixelDiff_red (fun _ => 0) 0 (by decide) rfl rfl).2 rfl,
      (pixelDiff_red (fun _ => 0) 3 (by decide) rfl rfl).2 rfl,
      (pixelDiff_red (fun _ => 0) 6 (by decide) rfl rfl).2 rfl,
      (pixelDiff_red (fun _ => 0) 9 (by decide) rfl rfl).2 rfl]
    rfl
  have hterm : ∀ p : Nat, p < 4 →
      (fb1 (3 * p) = 229 ∧ pixelDiff redTarget fb1 (3 * p) = 26) ∨
      (fb1 (3 * p) = 0 ∧ pixelDiff redTarget fb1 (3 * p) = 255) := by
    intro p hp
    obtain ⟨hr, hg, hb⟩ := hpix p hp
    have hj : (3 * (p : Int)) % 3 = 0 := by omega
    obtain ⟨k1, k2⟩ := pixelDiff_red fb1 (3 * p) hj hg hb
    rcases hr with hr | hr
    · exact Or.inr ⟨hr, k2 hr⟩
    · exact Or.inl ⟨hr, k1 hr⟩
  have t0 := hterm 0 (by decide)
  have t1 := hterm 1 (by decide)
  have t2 := hterm 2 (by decide)
  have t3 := hterm 3 (by decide)
  simp only [Nat.cast_zero, Nat.cast_one, Nat.cast_ofNat, mul_zero, mul_one] at t0 t1 t2 t3
  norm_num at t2 t3
  refine ⟨fb1, _, 1020, ?_, hpix, hcov, computeDiff_2x2 redTarget fb1, hblack, ?_, ?_⟩
  · rw [drawtriangles_single _ _ _ _ _ _ rfl]
    exact hfb
  · rcases t0 with ⟨-, a0⟩ | ⟨-, a0⟩ <;> rcases t1 with ⟨-, a1⟩ | ⟨-, a1⟩ <;>
      rcases t2 with ⟨-, a2⟩ | ⟨-, a2⟩ <;> rcases t3 with ⟨-, a3⟩ | ⟨-, a3⟩ <;>
      rw [a0, a1, a2, a3] <;> decide
  · obtain ⟨p, hp, hcp⟩ := hcov
    have hp4 : p = 0 ∨ p = 1 ∨ p = 2 ∨ p = 3 := by omega
    rcases t0 with ⟨b0, a0⟩ | ⟨b0, a0⟩ <;> rcases t1 with ⟨b1, a1⟩ | ⟨b1, a1⟩ <;>
      rcases t2 with ⟨b2, a2⟩ | ⟨b2, a2⟩ <;> rcases t3 with ⟨b3, a3⟩ | ⟨b3, a3⟩ <;>
      rw [a0, a1, a2, a3] <;>
      first
        | decide
        | (exfalso
           rcases hp4 with h | h | h | h <;> subst h <;> norm_num at hcp <;> omega)

/-- Witness of C20: the triangle with vertices (0,0), (1,0) and (0,1). -/
theorem red_triangle_near_match_witness :
    ∃ fb1 d d0,
      drawtriangles (fun _ => 0) 2 2
        ⟨⟨TYPE_TRIANGLE, 255, 0, 0, 90, 0, 0, 1, 0, 0, 1⟩ :: [], 1, 1⟩ = .ok fb1 ∧
      (∀ p : Nat, p < 4 → (fb1 (3 * p) = 0 ∨ fb1 (3 * p) = 229) ∧
        fb1 (3 * p + 1) = 0 ∧ fb1 (3 * p + 2) = 0) ∧
      (∃ p : Nat, p < 4 ∧ fb1 (3 * p) = 229) ∧
      computeDiff redTarget fb1 2 2 = .ok d ∧
      computeDiff redTarget (fun _ => 0) 2 2 = .ok d0 ∧
      0 < d ∧ d < d0 :=
  red_triangle_near_match 0 0 1 0 0 1 [] 1 (by decide) (by decide) (by decide)
    (by decide) (by decide) (by decide) (by decide) (by decide)

/-! ## Idempotence of normalisation: theorems -/

theorem clampShort_idem {v limit : Int} (hv : isShort v) (hl : 1 ≤ limit) :
    clampShort (clampShort v limit) limit = clampShort v limit := by
  unfold isShort at hv
  unfold clampShort toShort
  simp only []
  split_ifs <;> omega

theorem isShort_clampShort {v limit : Int} (hv : isShort v) (hl : 1 ≤ limit) :
    isShort (clampShort v limit) := by
  unfold isShort at *
  unfold clampShort toShort
  simp only []
  split_ifs <;> omega

theorem sortLoop_sorted (r : triangle) (h12 : r.y1 ≤ r.y2) (h23 : r.y2 ≤ r.y3) :
    sortLoop 3 r = .ok r := by
  obtain ⟨-, -, -, -, -, hc⟩ := sortPass_spec r
  rcases hc with ⟨-, -, z, e⟩ | ⟨-, k, -⟩ | ⟨k, -⟩ | ⟨k, -⟩
  · simp only [sortLoop]
    rw [if_neg (by simp [z]), e]
  · omega
  · omega
  · omega

theorem normalizeTriangle_idem (r s : triangle) (width height : Int)
    (hw : 1 ≤ width) (hh : 1 ≤ height) (hr : r.shorts)
    (h : normalizeTriangle r width height = .ok s) :
    normalizeTriangle s width height = .ok s := by
  unfold normalizeTriangle at h
  cases hs : sortLoop 3 r with
  | error e => rw [hs] at h; cases h
  | ok t =>
    rw [hs] at h
    cases h
    obtain ⟨o1, o2, -, -, -, -, -, hsh⟩ := sortLoop_keeps 3 r t hs
    obtain ⟨s1, s2, s3, s4, s5, s6⟩ := hsh hr
    have q12 : (clampTriangle t width height).y1 ≤ (clampTriangle t width height).y2 :=
      clampShort_mono s2 s4 o1
    have q23 : (clampTriangle t width height).y2 ≤ (clampTriangle t width height).y3 :=
      clampShort_mono s4 s6 o2
    unfold normalizeTriangle
    rw [sortLoop_sorted _ q12 q23]
    simp only [clampTriangle, clampShort_idem s1 hw, clampShort_idem s2 hh,
      clampShort_idem s3 hw, clampShort_idem s4 hh, clampShort_idem s5 hw,
      clampShort_idem s6 hh]

theorem normalizeCircle_idem (r s : triangle) (width height : Int)
    (hw : 1 ≤ width) (hh : 1 ≤ height)
    (hx : isShort r.x1) (hy : isShort r.y1) (hrad : isShort r.x2)
    (h : normalizeCircle r width height = .ok s) :
    normalizeCircle s width height = .ok s := by
  rw [normalizeCircle_eq] at h
  cases h
  rw [normalizeCircle_eq]
  have bx := clampShort_range hx hw
  have bye := clampShort_range hy hh
  have sx := isShort_clampShort hx hw
  have sy := isShort_clampShort hy hh
  simp only [clampShort_idem hx hw, clampShort_idem hy hh]
  unfold isShort at hrad sx sy
  have e1 : toShort (min r.x2
      (min (min (clampShort r.x1 width) (width - 1 - clampShort r.x1 width))
        (min (clampShort r.y1 height) (height - 1 - clampShort r.y1 height))))
      = min r.x2
      (min (min (clampShort r.x1 width) (width - 1 - clampShort r.x1 width))
        (min (clampShort r.y1 height) (height - 1 - clampShort r.y1 height))) := by
    apply toShort_of_isShort
    unfold isShort
    omega
  rw [e1]
  have e2 : min (min r.x2
      (min (min (clampShort r.x1 width) (width - 1 - clampShort r.x1 width))
        (min (clampShort r.y1 height) (height - 1 - clampShort r.y1 height))))
      (min (min (clampShort r.x1 width) (width - 1 - clampShort r.x1 width))
        (min (clampShort r.y1 height) (height - 1 - clampShort r.y1 height)))
      = min r.x2
      (min (min (clampShort r.x1 width) (width - 1 - clampShort r.x1 width))
        (min (clampShort r.y1 height) (height - 1 - clampShort r.y1 height))) := by
    omega
  rw [e2, e1]

theorem normalize_color (r s : triangle) (width height : Int)
    (h : normalize r width height = .ok s) : s.r = r.r ∧ s.g = r.g ∧ s.b = r.b := by
  unfold normalize at h
  split_ifs at h
  · unfold normalizeTriangle at h
    cases hs : sortLoop 3 r with
    | error e => rw [hs] at h; cases h
    | ok t =>
      rw [hs] at h
      cases h
      obtain ⟨-, -, -, c1, c2, c3, -, -⟩ := sortLoop_keeps 3 r t hs
      exact ⟨c1, c2, c3⟩
  · rw [normalizeCircle_eq] at h
    cases h
    exact ⟨rfl, rfl, rfl⟩

/-- C26: for a canvas of width and height at least 1 and every shape whose
coordinate fields hold signed 16-bit values, `normalize` returns a shape, a
second `normalize` returns that same shape, and the shape returned has the
type, colour and alpha of the shape given. -/
theorem normalize_idempotent (s : triangle) (width height : Int)
    (hw : 1 ≤ width) (hh : 1 ≤ height) (hs : s.shorts) :
    ∃ n, normalize s width height = .ok n ∧ normalize n width height = .ok n ∧
      n.type = s.type ∧ n.r = s.r ∧ n.g = s.g ∧ n.b = s.b ∧ n.alpha = s.alpha := by
  obtain ⟨n, hn⟩ := normalize_ok s width height
  have hty := normalize_type s n width height hn
  obtain ⟨c1, c2, c3⟩ := normalize_color s n width height hn
  refine ⟨n, hn, ?_, hty, c1, c2, c3, normalize_alpha s n width height hn⟩
  have hs3 := hs
  obtain ⟨s1, s2, s3, -, -, -⟩ := hs3
  unfold normalize at hn ⊢
  rw [hty]
  split_ifs at hn ⊢
  · exact normalizeTriangle_idem s n width height hw hh hs hn
  · exact normalizeCircle_idem s n width height hw hh s1 s2 s3 hn

/-- Witness of C26: a triangle out of order and out of a 4 by 3 canvas. -/
theorem normalize_idempotent_witness :
    ∃ n, normalize ⟨0, 1, 2, 3, 50, 9, 7, -4, 5, 2, -1⟩ 4 3 = .ok n ∧
      normalize n 4 3 = .ok n ∧
      n.type = 0 ∧ n.r = 1 ∧ n.g = 2 ∧ n.b = 3 ∧ n.alpha = 50 :=
  normalize_idempotent ⟨0, 1, 2, 3, 50, 9, 7, -4, 5, 2, -1⟩ 4 3 (by decide) (by decide)
    (by decide)

/-! ## Frame of the span compositor: theorems -/

theorem blendPixel_frame (fb : Int → Int) (off ar ag ab : Int) (invalpha : ℚ) (i : Int)
    (h : i < off ∨ off + 3 ≤ i) : blendPixel fb off ar ag ab invalpha i = fb i := by
  unfold blendPixel
  rw [if_neg (by omega), if_neg (by omega), if_neg (by omega)]

theorem drawHlineLoop_frame (ar ag ab : Int) (invalpha : ℚ) :
    ∀ (n : Nat) (off : Int) (fb : Int → Int) (i : Int), (i < off ∨ off + 3 * n ≤ i) →
      drawHlineLoop ar ag ab invalpha n off fb i = fb i := by
  intro n
  induction n with
  | zero =>
    intro off fb i _
    rfl
  | succ k ih =>
    intro off fb i h
    unfold drawHlineLoop
    rw [ih (off + 3) _ i (by push_cast at h; omega)]
    exact blendPixel_frame fb off ar ag ab invalpha i (by push_cast at h; omega)

theorem drawHline_outside (fb : Int → Int) (width height x1 x2 y r g b : Int) (alpha : ℚ)
    (i : Int)
    (h : y < 0 ∨ y ≥ height ∨ i < y * width * 3 + 3 * min x1 x2 ∨
      y * width * 3 + 3 * max x1 x2 + 3 ≤ i) :
    drawHline fb width height x1 x2 y r g b alpha i = fb i := by
  unfold drawHline
  simp only []
  by_cases hy : y < 0 ∨ y ≥ height
  · rw [if_pos hy]
  · rw [if_neg hy]
    apply drawHlineLoop_frame
    split_ifs <;> omega

/-- C22, the claim refuted on the code: on a 2 by 2 framebuffer cleared to
black, the span from x = 0 to x = 3 on row 0 is drawn whole: the pixels of
x = 2 and x = 3 are not skipped, and byte 6, the red of pixel (0,1) on row 1,
is changed from 0 to 229. -/
theorem drawHline_no_clipping :
    drawHline (fun _ => 0) 2 2 0 3 0 255 0 0 (9 / 10) 6 = 229 ∧
    (fun _ => (0 : Int)) (6 : Int) = 0 ∧ ¬ ((0 : Int) * 2 * 3 ≤ 6 ∧ (6 : Int) < (0 + 1) * 2 * 3) := by
  refine ⟨by decide!, rfl, by decide⟩

/-- C22 as amended: `drawHline` on a row outside `[0,height)` changes
nothing; on any row it changes no byte outside the three-byte pixels from
the smaller endpoint to the larger one, counted from the start of row `y`;
so when both endpoints are in `[0,width)` and the row is in `[0,height)`,
every byte it changes belongs to a pixel `(x, y)` of row `y` with
`0 ≤ x < width`, inside the framebuffer.  Nothing is skipped inside the
span: endpoints outside `[0,width)` are not clipped. -/
theorem drawHline_frame (fb : Int → Int) (width height x1 x2 y r g b : Int) (alpha : ℚ) :
    ((y < 0 ∨ y ≥ height) → drawHline fb width height x1 x2 y r g b alpha = fb) ∧
    (∀ i, (i < y * width * 3 + 3 * min x1 x2 ∨ y * width * 3 + 3 * max x1 x2 + 3 ≤ i) →
      drawHline fb width height x1 x2 y r g b alpha i = fb i) ∧
    (1 ≤ width → 0 ≤ y → y < height → 0 ≤ x1 → x1 < width → 0 ≤ x2 → x2 < width →
      ∀ i, drawHline fb width height x1 x2 y r g b alpha i ≠ fb i →
        (y * width * 3 ≤ i ∧ i < (y + 1) * width * 3) ∧ (0 ≤ i ∧ i < width * height * 3)) := by
  refine ⟨?_, ?_, ?_⟩
  · intro hy
    funext i
    exact drawHline_outside fb width height x1 x2 y r g b alpha i
      (by rcases hy with h | h
          · exact Or.inl h
          · exact Or.inr (Or.inl h))
  · intro i hi
    exact drawHline_outside fb width height x1 x2 y r g b alpha i (Or.inr (Or.inr hi))
  · intro hw hy0 hy1 ha0 ha1 hb0 hb1 i hne
    have hin : ¬ (i < y * width * 3 + 3 * min x1 x2 ∨ y * width * 3 + 3 * max x1 x2 + 3 ≤ i) := by
      intro hc
      exact hne (drawHline_outside fb width height x1 x2 y r g b alpha i (Or.inr (Or.inr hc)))
    have e : (y + 1) * width * 3 = y * width * 3 + 3 * width := by ring
    have hyw : 0 ≤ y * width := Int.mul_nonneg hy0 (by omega)
    have hrow : (y + 1) * width ≤ height * width :=
      Int.mul_le_mul_of_nonneg_right (by omega) (by omega)
    have e2 : width * height * 3 = height * width * 3 := by ring
    have e3 : (y + 1) * width * 3 ≤ height * width * 3 := by omega
    rw [e, e2] at *
    refine ⟨⟨by omega, by omega⟩, by omega, by omega⟩

/-- Witness of C22 as amended: the span from x = 1 to x = 0 on row 1 of a
2 by 2 framebuffer changes bytes of row 1 only. -/
theorem drawHline_frame_witness :
    ∀ i, drawHline (fun _ => 0) 2 2 1 0 1 255 0 0 (9 / 10) i ≠ (fun _ => (0 : Int)) i →
      ((1 : Int) * 2 * 3 ≤ i ∧ i < (1 + 1) * 2 * 3) ∧ (0 ≤ i ∧ i < (2 : Int) * 2 * 3) :=
  (drawHline_frame (fun _ => 0) 2 2 1 0 1 255 0 0 (9 / 10)).2.2 (by decide) (by decide)
    (by decide) (by decide) (by decide) (by decide) (by decide)

/-! ## Spans of circles and triangles: theorems -/

theorem drawCircleLoop_eq_spans (width height xc yc r cr cg cb : Int) (alpha : ℚ) :
    ∀ (n : Nat) (y : Int) (fb : Int → Int),
      drawCircleLoop width height xc yc r cr cg cb alpha n y fb
        = drawSpans width height cr cg cb alpha (circleSpans xc yc r n y) fb := by
  intro n
  induction n with
  | zero =>
    intro y fb
    rfl
  | succ k ih =>
    intro y fb
    unfold drawCircleLoop circleSpans
    simp only [drawSpans]
    exact ih (y + 1) _

theorem drawSpans_append (width height cr cg cb : Int) (alpha : ℚ) :
    ∀ (l1 l2 : List Span) (fb : Int → Int),
      drawSpans width height cr cg cb alpha (l1 ++ l2) fb
        = drawSpans width height cr cg cb alpha l2
            (drawSpans width height cr cg cb alpha l1 fb) := by
  intro l1
  induction l1 with
  | nil =>
    intro l2 fb
    rfl
  | cons s rest ih =>
    intro l2 fb
    simp only [List.cons_append, drawSpans]
    exact ih l2 _

theorem drawSpans_frame (width height cr cg cb : Int) (alpha : ℚ) :
    ∀ (l : List Span) (fb : Int → Int) (i : Int), ¬ covered width height l (i / 3) →
      drawSpans width height cr cg cb alpha l fb i = fb i := by
  intro l
  induction l with
  | nil =>
    intro fb i _
    rfl
  | cons s rest ih =>
    intro fb i hc
    have h1 : ¬ covered width height rest (i / 3) := by
      rintro ⟨t, ht, hw⟩
      exact hc ⟨t, List.mem_cons_of_mem s ht, hw⟩
    have h2 : ¬ spanWrites width height s (i / 3) := by
      intro hw
      exact hc ⟨s, List.mem_cons_self s rest, hw⟩
    simp only [drawSpans]
    rw [ih _ i h1]
    apply drawHline_outside
    unfold spanWrites at h2
    have e : s.y * width * 3 = 3 * (s.y * width) := by ring
    rw [e]
    omega

theorem scanLoop_eq_spans (width height cr cg cb : Int) (alpha dS dE ylimit : ℚ) :
    ∀ (fuel : Nat) (S E : Point) (fb : Int → Int),
      scanLoop width height cr cg cb alpha dS dE ylimit fuel S E fb
        = match scanSpans dS dE ylimit fuel S E with
          | .error e => .error e
          | .ok (S1, E1, l) => .ok (S1, E1, drawSpans width height cr cg cb alpha l fb) := by
  intro fuel
  induction fuel with
  | zero =>
    intro S E fb
    unfold scanLoop scanSpans
    split_ifs <;> rfl
  | succ f ih =>
    intro S E fb
    unfold scanLoop scanSpans
    split_ifs
    · simp only []
      rw [ih]
      cases scanSpans dS dE ylimit f ⟨S.x + dS, S.y + 1⟩ ⟨E.x + dE, E.y + 1⟩ with
      | error e => rfl
      | ok p => rfl
    · rfl

theorem drawTriangle_eq_spans (fb : Int → Int) (width height : Int) (r : triangle) :
    drawTriangle fb width height r
      = match triangleSpans r with
        | .error e => .error e
        | .ok l => .ok (drawSpans width height r.r r.g r.b ((r.alpha : ℚ) / 100) l fb) := by
  unfold drawTriangle triangleSpans
  simp only []
  split_ifs
  all_goals
    rw [scanLoop_eq_spans]
    cases scanSpans _ _ _ _ _ _ with
    | error e => rfl
    | ok p =>
      obtain ⟨S, E, l1⟩ := p
      simp only []
      rw [scanLoop_eq_spans]
      cases scanSpans _ _ _ _ _ _ with
      | error e => rfl
      | ok q =>
        obtain ⟨S2, E2, l2⟩ := q
        simp only [drawSpans_append]

/-! ## Triangles on the 2 by 2 canvas: theorems -/

theorem triangleSpans_coordinates (t : triangle) :
    triangleSpans t = triangleSpans ⟨0, 0, 0, 0, 0, t.x1, t.y1, t.x2, t.y2, t.x3, t.y3⟩ := rfl

theorem triangleSpans_2x2 (x1 y1 x2 y2 x3 y3 : Int)
    (hx1 : 0 ≤ x1 ∧ x1 < 2) (hx2 : 0 ≤ x2 ∧ x2 < 2) (hx3 : 0 ≤ x3 ∧ x3 < 2)
    (hy1 : 0 ≤ y1 ∧ y1 < 2) (hy2 : 0 ≤ y2 ∧ y2 < 2) (hy3 : 0 ≤ y3 ∧ y3 < 2)
    (h12 : y1 ≤ y2) (h23 : y2 ≤ y3) :
    okAnd (triangleSpans ⟨0, 0, 0, 0, 0, x1, y1, x2, y2, x3, y3⟩)
      (fun l => ∃ p : Nat, p < 4 ∧ ¬ covered 2 2 l (p : Int)) := by
  obtain ⟨a1, b1⟩ := hx1
  obtain ⟨a2, b2⟩ := hx2
  obtain ⟨a3, b3⟩ := hx3
  obtain ⟨c1, d1⟩ := hy1
  obtain ⟨c2, d2⟩ := hy2
  obtain ⟨c3, d3⟩ := hy3
  interval_cases x1 <;> interval_cases x2 <;> interval_cases x3 <;>
    interval_cases y1 <;> interval_cases y2 <;> interval_cases y3 <;> decide!

/-- C25, the claim refuted on the code: no triangle with its three vertices
in the 2 by 2 canvas, in non-decreasing y order, is drawn by `drawTriangle`
with spans that cover all four pixels. -/
theorem no_triangle_covers_2x2 :
    ¬ ∃ (t : triangle) (l : List Span),
      (0 ≤ t.x1 ∧ t.x1 < 2) ∧ (0 ≤ t.x2 ∧ t.x2 < 2) ∧ (0 ≤ t.x3 ∧ t.x3 < 2) ∧
      (0 ≤ t.y1 ∧ t.y1 < 2) ∧ (0 ≤ t.y2 ∧ t.y2 < 2) ∧ (0 ≤ t.y3 ∧ t.y3 < 2) ∧
      t.y1 ≤ t.y2 ∧ t.y2 ≤ t.y3 ∧
      triangleSpans t = .ok l ∧ ∀ p : Nat, p < 4 → covered 2 2 l (p : Int) := by
  rintro ⟨t, l, hx1, hx2, hx3, hy1, hy2, hy3, h12, h23, hl, hall⟩
  obtain ⟨l1, hl1, p, hp, hnot⟩ :=
    okAnd_elim (triangleSpans_2x2 t.x1 t.y1 t.x2 t.y2 t.x3 t.y3 hx1 hx2 hx3 hy1 hy2 hy3 h12 h23)
  rw [← triangleSpans_coordinates t, hl] at hl1
  cases hl1
  exact hnot (hall p hp)

/-- C25 as amended: for every triangle with its three vertices in the 2 by 2
canvas, in non-decreasing y order, `drawTriangle` succeeds and leaves at
least one of the four pixels out of every span it draws, so that the three
bytes of that pixel are unchanged whatever the framebuffer and the colour;
and the triangle with vertices (0,0), (1,0) and (0,1) is drawn with spans
that cover three pixels, those of index 0, 2 and 3. -/
theorem triangle_2x2_leaves_pixel (t : triangle)
    (hx1 : 0 ≤ t.x1 ∧ t.x1 < 2) (hx2 : 0 ≤ t.x2 ∧ t.x2 < 2) (hx3 : 0 ≤ t.x3 ∧ t.x3 < 2)
    (hy1 : 0 ≤ t.y1 ∧ t.y1 < 2) (hy2 : 0 ≤ t.y2 ∧ t.y2 < 2) (hy3 : 0 ≤ t.y3 ∧ t.y3 < 2)
    (h12 : t.y1 ≤ t.y2) (h23 : t.y2 ≤ t.y3) :
    (∃ l, triangleSpans t = .ok l ∧
      ∃ p : Nat, p < 4 ∧ ¬ covered 2 2 l (p : Int) ∧
        ∀ fb : Int → Int, ∃ fb1, drawTriangle fb 2 2 t = .ok fb1 ∧
          fb1 (3 * p) = fb (3 * p) ∧ fb1 (3 * p + 1) = fb (3 * p + 1) ∧
          fb1 (3 * p + 2) = fb (3 * p + 2)) ∧
    (triangleSpans ⟨TYPE_TRIANGLE, 255, 0, 0, 90, 0, 0, 1, 0, 0, 1⟩
        = .ok [⟨0, 0, 0⟩, ⟨0, 1, 1⟩] ∧
      covered 2 2 [⟨0, 0, 0⟩, ⟨0, 1, 1⟩] 0 ∧ covered 2 2 [⟨0, 0, 0⟩, ⟨0, 1, 1⟩] 2 ∧
      covered 2 2 [⟨0, 0, 0⟩, ⟨0, 1, 1⟩] 3) := by
  constructor
  · obtain ⟨l, hl, p, hp, hnot⟩ :=
      okAnd_elim (triangleSpans_2x2 t.x1 t.y1 t.x2 t.y2 t.x3 t.y3 hx1 hx2 hx3 hy1 hy2 hy3 h12 h23)
    rw [← triangleSpans_coordinates t] at hl
    refine ⟨l, hl, p, hp, hnot, ?_⟩
    intro fb
    refine ⟨drawSpans 2 2 t.r t.g t.b ((t.alpha : ℚ) / 100) l fb, ?_, ?_, ?_, ?_⟩
    · rw [drawTriangle_eq_spans, hl]
    · exact drawSpans_frame 2 2 _ _ _ _ l fb _ (by
        have e : (3 * (p : Int)) / 3 = p := by omega
        rw [e]
        exact hnot)
    · exact drawSpans_frame 2 2 _ _ _ _ l fb _ (by
        have e : (3 * (p : Int) + 1) / 3 = p := by omega
        rw [e]
        exact hnot)
    · exact drawSpans_frame 2 2 _ _ _ _ l fb _ (by
        have e : (3 * (p : Int) + 2) / 3 = p := by omega
        rw [e]
        exact hnot)
  · refine ⟨by decide!, by decide, by decide, by decide⟩

/-- Witness of C25 as amended: the triangle with vertices (1,0), (0,0) and
(1,1). -/
theorem triangle_2x2_leaves_pixel_witness :
    ∃ l, triangleSpans ⟨TYPE_TRIANGLE, 255, 0, 0, 90, 1, 0, 0, 0, 1, 1⟩ = .ok l ∧
      ∃ p : Nat, p < 4 ∧ ¬ covered 2 2 l (p : Int) ∧
        ∀ fb : Int → Int, ∃ fb1,
          drawTriangle fb 2 2 ⟨TYPE_TRIANGLE, 255, 0, 0, 90, 1, 0, 0, 0, 1, 1⟩ = .ok fb1 ∧
          fb1 (3 * p) = fb (3 * p) ∧ fb1 (3 * p + 1) = fb (3 * p + 1) ∧
          fb1 (3 * p + 2) = fb (3 * p + 2) :=
  (triangle_2x2_leaves_pixel ⟨TYPE_TRIANGLE, 255, 0, 0, 90, 1, 0, 0, 0, 1, 1⟩
    (by decide) (by decide) (by decide) (by decide) (by decide) (by decide)
    (by decide) (by decide)).1

/-! ## Spans of a normalized circle: theorems -/

theorem roundSqrt_le {k r : Int} (hr : 0 ≤ r) (hk : k ≤ r * r) :
    0 ≤ roundSqrt k ∧ roundSqrt k ≤ r := by
  obtain ⟨R, rfl⟩ := Int.eq_ofNat_of_zero_le hr
  have hK : k.toNat ≤ R * R := Int.toNat_le.2 (by push_cast; exact hk)
  have h1 : Nat.sqrt (4 * k.toNat) ≤ Nat.sqrt ((2 * R) * (2 * R)) :=
    Nat.sqrt_le_sqrt (by nlinarith)
  rw [Nat.sqrt_eq] at h1
  have h2 : (Nat.sqrt (4 * k.toNat) + 1) / 2 ≤ R := by omega
  unfold roundSqrt
  exact ⟨Int.natCast_nonneg _, by exact_mod_cast h2⟩

theorem circleSpans_mem (xc yc r : Int) :
    ∀ (n : Nat) (y0 : Int) (s : Span), s ∈ circleSpans xc yc r n y0 →
      y0 ≤ s.y ∧ s.y < y0 + n ∧
      s.x1 = xc + roundSqrt (r * r - (s.y - yc) * (s.y - yc)) ∧
      s.x2 = xc - roundSqrt (r * r - (s.y - yc) * (s.y - yc)) := by
  intro n
  induction n with
  | zero =>
    intro y0 s hs
    simp [circleSpans] at hs
  | succ k ih =>
    intro y0 s hs
    simp only [circleSpans, List.mem_cons] at hs
    rcases hs with hs | hs
    · subst hs
      refine ⟨le_refl _, ?_, rfl, rfl⟩
      simp only []
      push_cast
      omega
    · obtain ⟨a, b, c, d⟩ := ih (y0 + 1) s hs
      refine ⟨by omega, ?_, c, d⟩
      push_cast
      omega

theorem circleSpans_length (xc yc r : Int) :
    ∀ (n : Nat) (y0 : Int), (circleSpans xc yc r n y0).length = n := by
  intro n
  induction n with
  | zero =>
    intro y0
    rfl
  | succ k ih =>
    intro y0
    simp only [circleSpans, List.length_cons, ih]

theorem normalizeCircle_contained (c0 c : triangle) (width height : Int)
    (hw : 1 ≤ width) (hh : 1 ≤ height)
    (hx : isShort c0.x1) (hy : isShort c0.y1) (hr : isShort c0.radius)
    (hc : normalizeCircle c0 width height = .ok c) :
    0 ≤ c.x1 - c.radius ∧ c.x1 + c.radius < width ∧
    0 ≤ c.y1 - c.radius ∧ c.y1 + c.radius < height := by
  have bx := clampShort_range hx hw
  have bye := clampShort_range hy hh
  have hx2 : isShort c0.x2 := hr
  rw [normalizeCircle_eq] at hc
  cases hc
  simp only [triangle.radius]
  have hs : isShort (min c0.x2
      (min (min (clampShort c0.x1 width) (width - 1 - clampShort c0.x1 width))
        (min (clampShort c0.y1 height) (height - 1 - clampShort c0.y1 height)))) := by
    unfold isShort at hx2 ⊢
    have u1 : clampShort c0.x1 width ≤ 32767 := by
      unfold isShort at hx
      unfold clampShort toShort
      simp only []
      split_ifs <;> omega
    omega
  rw [toShort_of_isShort hs]
  omega

theorem circleSpans_in_canvas (c : triangle) (width height : Int)
    (hrad : 0 ≤ c.radius)
    (hin : 0 ≤ c.x1 - c.radius ∧ c.x1 + c.radius < width ∧
      0 ≤ c.y1 - c.radius ∧ c.y1 + c.radius < height)
    (s : Span)
    (hs : s ∈ circleSpans c.x1 c.y1 c.radius (2 * c.radius + 1).toNat (c.y1 - c.radius)) :
    (0 ≤ s.y ∧ s.y < height) ∧ (0 ≤ s.x1 ∧ s.x1 < width) ∧ (0 ≤ s.x2 ∧ s.x2 < width) ∧
    c.x1 - c.radius ≤ s.x2 ∧ s.x2 ≤ s.x1 ∧ s.x1 ≤ c.x1 + c.radius := by
  obtain ⟨a, b, e1, e2⟩ := circleSpans_mem _ _ _ _ _ s hs
  have hn : (((2 * c.radius + 1).toNat : Nat) : Int) = 2 * c.radius + 1 :=
    Int.toNat_of_nonneg (by omega)
  rw [hn] at b
  have hk : c.radius * c.radius - (s.y - c.y1) * (s.y - c.y1) ≤ c.radius * c.radius := by
    nlinarith [mul_self_nonneg (s.y - c.y1)]
  obtain ⟨q1, q2⟩ := roundSqrt_le hrad hk
  omega

/-- C24: for a canvas of width and height at least 1 and a circle returned by
`normalizeCircle` (from a circle whose centre and radius are signed 16-bit
values) with radius at least 0, `drawCircle` is the drawing of the `2r+1`
spans of the circle, each of which has its row in `[0,height)` and both end
points in `[0,width)` and in `[cx-r, cx+r]`; and no byte outside the
`width*height*3` bytes of the canvas is changed. -/
theorem drawCircle_in_canvas (c0 c : triangle) (width height : Int)
    (hw : 1 ≤ width) (hh : 1 ≤ height)
    (hx : isShort c0.x1) (hy : isShort c0.y1) (hr : isShort c0.radius)
    (hc : normalizeCircle c0 width height = .ok c) (hrad : 0 ≤ c.radius) :
    (∀ fb : Int → Int, drawCircle fb width height c
      = drawSpans width height c.r c.g c.b ((c.alpha : ℚ) / 100)
          (circleSpans c.x1 c.y1 c.radius (2 * c.radius + 1).toNat (c.y1 - c.radius)) fb) ∧
    ((circleSpans c.x1 c.y1 c.radius (2 * c.radius + 1).toNat (c.y1 - c.radius)).length : Int)
      = 2 * c.radius + 1 ∧
    (∀ s ∈ circleSpans c.x1 c.y1 c.radius (2 * c.radius + 1).toNat (c.y1 - c.radius),
      (0 ≤ s.y ∧ s.y < height) ∧ (0 ≤ s.x1 ∧ s.x1 < width) ∧ (0 ≤ s.x2 ∧ s.x2 < width) ∧
      c.x1 - c.radius ≤ s.x2 ∧ s.x2 ≤ s.x1 ∧ s.x1 ≤ c.x1 + c.radius) ∧
    (∀ (fb : Int → Int) (i : Int), i < 0 ∨ width * height * 3 ≤ i →
      drawCircle fb width height c i = fb i) := by
  have hin := normalizeCircle_contained c0 c width height hw hh hx hy hr hc
  have hall := circleSpans_in_canvas c width height hrad hin
  have heq : ∀ fb : Int → Int, drawCircle fb width height c
      = drawSpans width height c.r c.g c.b ((c.alpha : ℚ) / 100)
          (circleSpans c.x1 c.y1 c.radius (2 * c.radius + 1).toNat (c.y1 - c.radius)) fb := by
    intro fb
    unfold drawCircle
    exact drawCircleLoop_eq_spans _ _ _ _ _ _ _ _ _ _ _ _
  refine ⟨heq, ?_, hall, ?_⟩
  · rw [circleSpans_length]
    exact Int.toNat_of_nonneg (by omega)
  · intro fb i hi
    rw [heq fb]
    apply drawSpans_frame
    rintro ⟨s, hs, w1, w2, w3, w4⟩
    obtain ⟨⟨a1, a2⟩, ⟨b1, b2⟩, ⟨d1, d2⟩, -⟩ := hall s hs
    have m1 : 0 ≤ s.y * width := mul_nonneg a1 (by omega)
    have m2 : s.y * width ≤ (height - 1) * width :=
      mul_le_mul_of_nonneg_right (by omega) (by omega)
    have m3 : (height - 1) * width = width * height - width := by ring
    have m4 : width * height * 3 = 3 * (width * height) := by ring
    rw [m4] at hi
    omega

/-- Witness of C24: the circle of centre (5,5) and radius 10 on the 8 by 8
canvas, which `normalizeCircle` shrinks to radius 2. -/
theorem drawCircle_in_canvas_witness :
    (∀ fb : Int → Int, drawCircle fb 8 8 ⟨1, 0, 0, 0, 50, 5, 5, 2, 0, 0, 0⟩
      = drawSpans 8 8 0 0 0 (((50 : Int) : ℚ) / 100)
          (circleSpans 5 5 2 (2 * (2 : Int) + 1).toNat (5 - 2)) fb) ∧
    ((circleSpans 5 5 2 (2 * (2 : Int) + 1).toNat (5 - 2)).length : Int) = 2 * 2 + 1 ∧
    (∀ s ∈ circleSpans 5 5 2 (2 * (2 : Int) + 1).toNat (5 - 2),
      (0 ≤ s.y ∧ s.y < 8) ∧ (0 ≤ s.x1 ∧ s.x1 < 8) ∧ (0 ≤ s.x2 ∧ s.x2 < 8) ∧
      5 - 2 ≤ s.x2 ∧ s.x2 ≤ s.x1 ∧ s.x1 ≤ 5 + 2) ∧
    (∀ (fb : Int → Int) (i : Int), i < 0 ∨ 8 * 8 * 3 ≤ i →
      drawCircle fb 8 8 ⟨1, 0, 0, 0, 50, 5, 5, 2, 0, 0, 0⟩ i = fb i) :=
  drawCircle_in_canvas ⟨1, 0, 0, 0, 50, 5, 5, 10, 0, 0, 0⟩ ⟨1, 0, 0, 0, 50, 5, 5, 2, 0, 0, 0⟩
    8 8 (by decide) (by decide) (by decide) (by decide) (by decide)
    (by rw [normalizeCircle_eq]; rfl) (by decide)

/-! ## Locality of small random shapes: theorems -/

theorem randbetween_range (lo hi : Int) (g : Nat → Nat) (h : lo ≤ hi) :
    Returns (randbetween lo hi) g (fun v _ => lo ≤ v ∧ v ≤ hi) := by
  simp only [randbetween, returns_bind, returns_random, returns_cmod, returns_pure]
  have b := tmod_draw_range (g 0) (hi - lo + 1) (by omega)
  refine ⟨by omega, by omega, by omega⟩

theorem setRandomColor_geometry (r : triangle) (g : Nat → Nat) :
    Returns (setRandomColor r) g (fun t _ => t.type = r.type ∧
      t.x1 = r.x1 ∧ t.y1 = r.y1 ∧ t.x2 = r.x2 ∧ t.y2 = r.y2 ∧ t.x3 = r.x3 ∧ t.y3 = r.y3) := by
  simp [setRandomColor, randbetween, returns_bind, returns_random, returns_cmod, returns_pure,
    MINALPHA, MAXALPHA]

theorem sortLoop_vertices (P : Int → Int → Prop) :
    ∀ (fuel : Nat) (r s : triangle), sortLoop fuel r = .ok s →
      P r.x1 r.y1 → P r.x2 r.y2 → P r.x3 r.y3 →
      P s.x1 s.y1 ∧ P s.x2 s.y2 ∧ P s.x3 s.y3 := by
  intro fuel
  induction fuel with
  | zero =>
    intro r s h
    simp [sortLoop] at h
  | succ n ih =>
    intro r s h p1 p2 p3
    obtain ⟨-, -, -, -, -, hc⟩ := sortPass_spec r
    have hp : P (sortPass r).1.x1 (sortPass r).1.y1 ∧ P (sortPass r).1.x2 (sortPass r).1.y2 ∧
        P (sortPass r).1.x3 (sortPass r).1.y3 := by
      rcases hc with ⟨-, -, -, e⟩ | ⟨-, -, -, e⟩ | ⟨-, -, -, e⟩ | ⟨-, -, -, e⟩
      · rw [e]
        exact ⟨p1, p2, p3⟩
      all_goals
        obtain ⟨e1, e2, e3, e4, e5, e6⟩ := e
        rw [e1, e2, e3, e4, e5, e6]
        exact ⟨by assumption, by assumption, by assumption⟩
    simp only [sortLoop] at h
    by_cases c : (sortPass r).2 ≠ 0
    · rw [if_pos c] at h
      exact ih _ s h hp.1 hp.2.1 hp.2.2
    · rw [if_neg c] at h
      cases h
      exact hp

theorem clampShort_near {a x limit delta : Int} (hl : limit ≤ 32768)
    (hx0 : 0 ≤ x) (hx1 : x < limit) (h1 : x - delta ≤ a) (h2 : a ≤ x + delta) :
    x - delta ≤ clampShort a limit ∧ clampShort a limit ≤ x + delta := by
  unfold clampShort toShort
  simp only []
  split_ifs <;> omega

theorem clampShort_inside {x limit : Int} (hx0 : 0 ≤ x) (hx1 : x < limit) :
    clampShort x limit = x := by
  unfold clampShort
  simp only []
  split_ifs <;> omega

theorem normalize_near_triangle (r s : triangle) (width height x y delta : Int)
    (ht : r.type = TYPE_TRIANGLE) (hw : width ≤ 32768) (hh : height ≤ 32768)
    (hx : 0 ≤ x ∧ x < width) (hy : 0 ≤ y ∧ y < height)
    (p1 : (x - delta ≤ r.x1 ∧ r.x1 ≤ x + delta) ∧ (y - delta ≤ r.y1 ∧ r.y1 ≤ y + delta))
    (p2 : (x - delta ≤ r.x2 ∧ r.x2 ≤ x + delta) ∧ (y - delta ≤ r.y2 ∧ r.y2 ≤ y + delta))
    (p3 : (x - delta ≤ r.x3 ∧ r.x3 ≤ x + delta) ∧ (y - delta ≤ r.y3 ∧ r.y3 ≤ y + delta))
    (hn : normalize r width height = .ok s) :
    ((x - delta ≤ s.x1 ∧ s.x1 ≤ x + delta) ∧ (y - delta ≤ s.y1 ∧ s.y1 ≤ y + delta)) ∧
    ((x - delta ≤ s.x2 ∧ s.x2 ≤ x + delta) ∧ (y - delta ≤ s.y2 ∧ s.y2 ≤ y + delta)) ∧
    ((x - delta ≤ s.x3 ∧ s.x3 ≤ x + delta) ∧ (y - delta ≤ s.y3 ∧ s.y3 ≤ y + delta)) := by
  unfold normalize at hn
  rw [if_pos ht] at hn
  unfold normalizeTriangle at hn
  cases hs : sortLoop 3 r with
  | error e =>
    rw [hs] at hn
    cases hn
  | ok t =>
    rw [hs] at hn
    cases hn
    obtain ⟨q1, q2, q3⟩ := sortLoop_vertices
      (fun a b => (x - delta ≤ a ∧ a ≤ x + delta) ∧ (y - delta ≤ b ∧ b ≤ y + delta))
      3 r t hs p1 p2 p3
    simp only [clampTriangle]
    exact ⟨⟨clampShort_near hw hx.1 hx.2 q1.1.1 q1.1.2, clampShort_near hh hy.1 hy.2 q1.2.1 q1.2.2⟩,
      ⟨clampShort_near hw hx.1 hx.2 q2.1.1 q2.1.2, clampShort_near hh hy.1 hy.2 q2.2.1 q2.2.2⟩,
      ⟨clampShort_near hw hx.1 hx.2 q3.1.1 q3.1.2, clampShort_near hh hy.1 hy.2 q3.2.1 q3.2.2⟩⟩

theorem normalize_near_circle (r s : triangle) (width height delta : Int)
    (ht : ¬ r.type = TYPE_TRIANGLE) (hw : width ≤ 32768) (hh : height ≤ 32768)
    (hd : delta ≤ 32767)
    (hx : 0 ≤ r.x1 ∧ r.x1 < width) (hy : 0 ≤ r.y1 ∧ r.y1 < height)
    (hr : 1 ≤ r.x2 ∧ r.x2 ≤ delta)
    (hn : normalize r width height = .ok s) :
    s.x1 = r.x1 ∧ s.y1 = r.y1 ∧ 0 ≤ s.radius ∧ s.radius ≤ delta := by
  unfold normalize at hn
  rw [if_neg ht, normalizeCircle_eq] at hn
  cases hn
  simp only [triangle.radius]
  rw [clampShort_inside hx.1 hx.2, clampShort_inside hy.1 hy.2]
  unfold toShort
  omega

/-- C23, the claim refuted on the code: on a canvas 40000 pixels wide and 1
high, with delta 5, triangles only and every draw equal to 39999, the anchor
is (39999, 0); the sum `x + randbetween(-5,5) = 39997` does not fit the
`short` field it is stored in and becomes negative, so normalization clamps
the vertex to x = 0, which is 39999 pixels from the anchor. -/
theorem randomsmalltriangle_far_anchor :
    ∃ t g1, randomsmalltriangle ⟨1, 0, 1⟩ ⟨0, 0, 0, 0, 0, 0, 0, 0, 0, 0, 0⟩ 40000 1 5
        (fun _ => 39999) = .ok (t, g1) ∧
      t.type = TYPE_TRIANGLE ∧
      Int.tmod (((fun _ => 39999 : Nat → Nat) 0 : Nat) : Int) 40000 = 39999 ∧
      t.x1 = 0 ∧ ¬ |t.x1 - 39999| ≤ 5 :=
  ⟨_, _, rfl, by decide, by decide, by decide, by decide⟩

/-- C23 as amended: for a canvas of width and height at least 1 and a delta
at least 1 with `width + delta ≤ 32768` and `height + delta ≤ 32768` (so that
every coordinate fits a `short`), whatever the draws, `randomsmalltriangle`
returns a shape; its anchor `(x, y)`, the first two draws modulo the width
and the height, lies in the canvas; a triangle has every vertex with
`|xi - x| ≤ delta` and `|yi - y| ≤ delta`; a circle has its centre at the
anchor and `0 ≤ radius ≤ delta`. -/
theorem randomsmalltriangle_near_anchor (opts : Options) (r : triangle)
    (width height delta : Int) (g : Nat → Nat)
    (hw : 1 ≤ width) (hh : 1 ≤ height) (hd : 1 ≤ delta)
    (hwd : width + delta ≤ 32768) (hhd : height + delta ≤ 32768) :
    ((0 ≤ Int.tmod (g 0) width ∧ Int.tmod (g 0) width < width) ∧
     (0 ≤ Int.tmod (g 1) height ∧ Int.tmod (g 1) height < height)) ∧
    Returns (randomsmalltriangle opts r width height delta) g (fun t _ =>
      (t.type = TYPE_TRIANGLE →
        (|t.x1 - Int.tmod (g 0) width| ≤ delta ∧ |t.y1 - Int.tmod (g 1) height| ≤ delta) ∧
        (|t.x2 - Int.tmod (g 0) width| ≤ delta ∧ |t.y2 - Int.tmod (g 1) height| ≤ delta) ∧
        (|t.x3 - Int.tmod (g 0) width| ≤ delta ∧ |t.y3 - Int.tmod (g 1) height| ≤ delta)) ∧
      (¬ t.type = TYPE_TRIANGLE →
        t.x1 = Int.tmod (g 0) width ∧ t.y1 = Int.tmod (g 1) height ∧
        0 ≤ t.radius ∧ t.radius ≤ delta)) := by
  have bx := tmod_draw_range (g 0) width (by omega)
  have bye := tmod_draw_range (g 1) height (by omega)
  refine ⟨⟨bx, bye⟩, ?_⟩
  unfold randomsmalltriangle
  simp only [returns_bind, returns_random, returns_cmod]
  refine ⟨by omega, by omega, ?_⟩
  simp only [Nat.zero_add]
  generalize Int.tmod (g 0) width = x at bx ⊢
  generalize Int.tmod (g 1) height = y at bye ⊢
  apply returns_mono (selectShapeType_returns opts _)
  intro ty g1 _
  split_ifs with hty
  · rw [returns_bind]
    apply returns_mono (randbetween_range (-delta) delta g1 (by omega))
    intro d1 g2 h1
    rw [returns_bind]
    apply returns_mono (randbetween_range (-delta) delta g2 (by omega))
    intro d2 g3 h2
    rw [returns_bind]
    apply returns_mono (randbetween_range (-delta) delta g3 (by omega))
    intro d3 g4 h3
    rw [returns_bind]
    apply returns_mono (randbetween_range (-delta) delta g4 (by omega))
    intro d4 g5 h4
    rw [returns_bind]
    apply returns_mono (randbetween_range (-delta) delta g5 (by omega))
    intro d5 g6 h5
    rw [returns_bind]
    apply returns_mono (randbetween_range (-delta) delta g6 (by omega))
    intro d6 g7 h6
    rw [returns_bind, returns_pure, returns_bind]
    apply returns_mono (setRandomColor_geometry _ g7)
    intro r2 g8 hg
    obtain ⟨e0, e1, e2, e3, e4, e5, e6⟩ := hg
    simp only [] at e0 e1 e2 e3 e4 e5 e6
    rw [returns_liftE]
    obtain ⟨s, hs⟩ := normalize_ok r2 width height
    refine ⟨s, hs, ?_⟩
    have st : s.type = TYPE_TRIANGLE := by
      rw [normalize_type r2 s width height hs, e0, hty]
    have near := normalize_near_triangle r2 s width height x y delta (by rw [e0, hty])
      (by omega) (by omega) bx bye
      (by rw [e1, e2]; unfold toShort; omega)
      (by rw [e3, e4]; unfold toShort; omega)
      (by rw [e5, e6]; unfold toShort; omega) hs
    obtain ⟨⟨⟨a1, a2⟩, a3, a4⟩, ⟨⟨a5, a6⟩, a7, a8⟩, ⟨a9, a10⟩, a11, a12⟩ := near
    refine ⟨fun _ => ?_, fun hne => absurd st hne⟩
    refine ⟨⟨abs_le.2 ⟨by omega, by omega⟩, abs_le.2 ⟨by omega, by omega⟩⟩,
      ⟨abs_le.2 ⟨by omega, by omega⟩, abs_le.2 ⟨by omega, by omega⟩⟩,
      abs_le.2 ⟨by omega, by omega⟩, abs_le.2 ⟨by omega, by omega⟩⟩
  · rw [returns_bind]
    apply returns_mono (randbetween_range 1 delta g1 hd)
    intro rad g2 h1
    rw [returns_bind, returns_pure, returns_bind]
    apply returns_mono (setRandomColor_geometry _ g2)
    intro r2 g3 hg
    obtain ⟨e0, e1, e2, e3, -, -, -⟩ := hg
    simp only [] at e0 e1 e2 e3
    rw [returns_liftE]
    obtain ⟨s, hs⟩ := normalize_ok r2 width height
    refine ⟨s, hs, ?_⟩
    have st : ¬ s.type = TYPE_TRIANGLE := by
      rw [normalize_type r2 s width height hs, e0]
      exact hty
    have tx : toShort x = x := by unfold toShort; omega
    have tyy : toShort y = y := by unfold toShort; omega
    have tr : toShort rad = rad := by unfold toShort; omega
    rw [tx] at e1
    rw [tyy] at e2
    rw [tr] at e3
    have near := normalize_near_circle r2 s width height delta (by rw [e0]; exact hty)
      (by omega) (by omega) (by omega) (by rw [e1]; exact bx) (by rw [e2]; exact bye)
      (by rw [e3]; exact h1) hs
    rw [e1, e2] at near
    exact ⟨fun he => absurd he st, fun _ => near⟩

/-- Witness of C23 as amended: the 8 by 8 canvas with delta 2 and every draw
equal to 3. -/
theorem randomsmalltriangle_near_anchor_witness :
    ((0 ≤ Int.tmod ((fun _ => 3 : Nat → Nat) 0) 8 ∧ Int.tmod ((fun _ => 3 : Nat → Nat) 0) 8 < 8) ∧
     (0 ≤ Int.tmod ((fun _ => 3 : Nat → Nat) 1) 8 ∧ Int.tmod ((fun _ => 3 : Nat → Nat) 1) 8 < 8)) ∧
    Returns (randomsmalltriangle ⟨1, 1, 1⟩ ⟨0, 0, 0, 0, 0, 0, 0, 0, 0, 0, 0⟩ 8 8 2)
      (fun _ => 3) (fun t _ =>
      (t.type = TYPE_TRIANGLE →
        (|t.x1 - Int.tmod ((fun _ => 3 : Nat → Nat) 0) 8| ≤ 2 ∧
          |t.y1 - Int.tmod ((fun _ => 3 : Nat → Nat) 1) 8| ≤ 2) ∧
        (|t.x2 - Int.tmod ((fun _ => 3 : Nat → Nat) 0) 8| ≤ 2 ∧
          |t.y2 - Int.tmod ((fun _ => 3 : Nat → Nat) 1) 8| ≤ 2) ∧
        (|t.x3 - Int.tmod ((fun _ => 3 : Nat → Nat) 0) 8| ≤ 2 ∧
          |t.y3 - Int.tmod ((fun _ => 3 : Nat → Nat) 1) 8| ≤ 2)) ∧
      (¬ t.type = TYPE_TRIANGLE →
        t.x1 = Int.tmod ((fun _ => 3 : Nat → Nat) 0) 8 ∧
        t.y1 = Int.tmod ((fun _ => 3 : Nat → Nat) 1) 8 ∧
        0 ≤ t.radius ∧ t.radius ≤ 2)) :=
  randomsmalltriangle_near_anchor ⟨1, 1, 1⟩ ⟨0, 0, 0, 0, 0, 0, 0, 0, 0, 0, 0⟩ 8 8 2
    (fun _ => 3) (by decide) (by decide) (by decide) (by decide) (by decide)

/-! ## The generation loop: theorems -/

theorem computeDiffLoop_ok (a b : Int → Int) (n : Int) :
    ∀ (fuel : Nat) (j d : Int), (n - j).toNat ≤ 3 * fuel →
      ∃ v, computeDiffLoop a b n fuel j d = .ok v := by
  intro fuel
  induction fuel with
  | zero =>
    intro j d hf
    unfold computeDiffLoop
    rw [if_neg (by omega)]
    exact ⟨d, rfl⟩
  | succ f ih =>
    intro j d hf
    unfold computeDiffLoop
    by_cases c : j < n
    · rw [if_pos c]
      exact ih (j + 3) _ (by omega)
    · rw [if_neg c]
      exact ⟨d, rfl⟩

theorem computeDiff_ok (a b : Int → Int) (width height : Int) :
    ∃ v, computeDiff a b width height = .ok v := by
  unfold computeDiff
  exact computeDiffLoop_ok a b _ _ 0 0 (by omega)

theorem scanLoop_ok (width height cr cg cb : Int) (alpha dS dE ylimit : ℚ) :
    ∀ (fuel : Nat) (S E : Point) (fb : Int → Int),
      (Int.floor (ylimit - S.y) + 1).toNat ≤ fuel →
      ∃ r, scanLoop width height cr cg cb alpha dS dE ylimit fuel S E fb = .ok r := by
  intro fuel
  induction fuel with
  | zero =>
    intro S E fb hf
    unfold scanLoop
    by_cases c : S.y ≤ ylimit
    · exfalso
      have h0 : 0 ≤ Int.floor (ylimit - S.y) := Int.floor_nonneg.2 (by linarith)
      omega
    · rw [if_neg c]
      exact ⟨_, rfl⟩
  | succ f ih =>
    intro S E fb hf
    unfold scanLoop
    by_cases c : S.y ≤ ylimit
    · rw [if_pos c]
      apply ih
      have e : Int.floor (ylimit - (S.y + 1)) = Int.floor (ylimit - S.y) - 1 := by
        rw [← Int.floor_sub_one]
        congr 1
        ring
      simp only []
      rw [e]
      omega
    · rw [if_neg c]
      exact ⟨_, rfl⟩

theorem drawTriangle_ok (fb : Int → Int) (width height : Int) (r : triangle) :
    ∃ fb1, drawTriangle fb width height r = .ok fb1 := by
  unfold drawTriangle
  simp only []
  split_ifs
  all_goals
    obtain ⟨⟨S, E, fb1⟩, h1⟩ := scanLoop_ok width height r.r r.g r.b ((r.alpha : ℚ) / 100)
      _ _ _ _ _ _ fb (le_refl (scanFuel _ _))
    rw [h1]
    simp only []
    obtain ⟨⟨S2, E2, fb2⟩, h2⟩ := scanLoop_ok width height r.r r.g r.b ((r.alpha : ℚ) / 100)
      _ _ _ _ _ _ fb1 (le_refl (scanFuel _ _))
    rw [h2]
    exact ⟨_, rfl⟩

theorem drawtrianglesLoop_ok (width height : Int) (ts : List triangle) :
    ∀ (n j : Nat) (fb : Int → Int), j + n ≤ ts.length →
      ∃ fb1, drawtrianglesLoop width height ts n j fb = .ok fb1 := by
  intro n
  induction n with
  | zero =>
    intro j fb _
    exact ⟨fb, rfl⟩
  | succ k ih =>
    intro j fb hj
    unfold drawtrianglesLoop
    rw [List.getElem?_eq_getElem (by omega)]
    simp only []
    split_ifs
    · obtain ⟨fb1, h1⟩ := drawTriangle_ok fb width height ts[j]
      rw [h1]
      exact ih (j + 1) fb1 (by omega)
    · exact ih (j + 1) _ (by omega)

theorem drawtriangles_ok (fb : Int → Int) (width height : Int) (r : triangles)
    (h : r.inuse ≤ r.triangles.length) :
    ∃ fb1, drawtriangles fb width height r = .ok fb1 := by
  unfold drawtriangles
  exact drawtrianglesLoop_ok width height r.triangles _ 0 fb (by omega)

theorem mutatetriangles_shape (st : globalState) (opts : Options) (rs : triangles)
    (count width height : Int) (g : Nat → Nat) :
    Ensures (mutatetriangles st opts rs count width height) g (fun rs1 _ =>
      rs1.count = rs.count ∧ rs1.triangles.length = rs.triangles.length ∧
      (1 ≤ rs.inuse → rs.inuse ≤ rs.count → 1 ≤ rs1.inuse ∧ rs1.inuse ≤ rs1.count)) := by
  unfold mutatetriangles
  simp only [ensures_bind, ensures_random, ensures_cmod]
  intro _
  split_ifs with hadd
  · refine ensures_mono (addStep_ensures opts rs width height _) ?_
    intro rs1 g1 h
    refine ⟨h.2.1, h.2.2, ?_⟩
    intro _ _
    omega
  · simp only [ensures_bind, ensures_random, ensures_cmod]
    intro _
    split_ifs with hrem
    · refine ensures_mono (removeStep_ensures rs _) ?_
      intro rs1 g1 h
      refine ⟨h.2.1, h.2.2, ?_⟩
      intro _ _
      omega
    · rw [ensures_bind]
      refine ensures_mono (swapStep_ensures rs _) ?_
      intro rs1 g1 h
      refine ensures_mono (mutateBatch_ensures opts width height _ rs1 g1) ?_
      intro rs2 g2 h2
      refine ⟨by omega, by omega, ?_⟩
      intro _ _
      omega

theorem mutatetriangles_returns (st : globalState) (opts : Options) (rs : triangles)
    (count width height : Int) (g : Nat → Nat)
    (h0 : 1 ≤ rs.inuse) (h1 : rs.inuse ≤ rs.count)
    (hw : 1 ≤ width) (hh : 1 ≤ height) (hlen : (rs.triangles.length : Int) = rs.count) :
    Returns (mutatetriangles st opts rs count width height) g (fun _ _ => True) := by
  unfold mutatetriangles
  simp only [returns_bind, returns_random, returns_cmod]
  refine ⟨by decide, ?_⟩
  split_ifs with hadd
  · exact addStep_returns opts rs width height _ (by omega) (by omega) (by omega) (by omega)
  · simp only [returns_bind, returns_random, returns_cmod]
    refine ⟨by decide, ?_⟩
    split_ifs with hrem
    · exact removeStep_returns rs _ (by omega) (by omega)
    · rw [returns_bind]
      apply returns_mono (returns_and_ensures
        (swapStep_returns rs _ h0 (by omega)) (swapStep_ensures rs _))
      intro rs1 g1 h
      exact mutateBatch_returns opts width height (by omega) (by omega) _ rs1 g1
        (by omega) (by omega)

theorem beginGeneration_state (st : globalState) (scratch : triangles) :
    (beginGeneration st scratch).max_shapes = st.max_shapes ∧
    (beginGeneration st scratch).generation = st.generation + 1 ∧
    st.max_shapes_incremental ≤ (beginGeneration st scratch).max_shapes_incremental ∧
    (beginGeneration st scratch).max_shapes_incremental ≤ st.max_shapes_incremental + 1 ∧
    (st.max_shapes_incremental ≤ scratch.count →
      (beginGeneration st scratch).max_shapes_incremental ≤ scratch.count) := by
  unfold beginGeneration
  simp only []
  split_ifs <;> refine ⟨?_, ?_, ?_, ?_, ?_⟩ <;> first | rfl | omega | (simp only [] at *; omega)

theorem acceptStep_state (o : Optimizer) (cand : triangles) (percdiff rnd : ℚ) :
    (acceptStep o cand percdiff rnd).state.max_shapes = o.state.max_shapes ∧
    (acceptStep o cand percdiff rnd).state.max_shapes_incremental
      = o.state.max_shapes_incremental ∧
    (acceptStep o cand percdiff rnd).state.generation = o.state.generation := by
  unfold acceptStep
  simp only []
  split_ifs <;> exact ⟨rfl, rfl, rfl⟩

theorem memcpySlots_length (dst src : List triangle) (n : Int)
    (h1 : n ≤ src.length) (h2 : n ≤ dst.length) :
    (memcpySlots dst src n).length = dst.length := by
  unfold memcpySlots
  simp only [List.length_append, List.length_take, List.length_drop]
  omega

theorem acceptStep_best (o : Optimizer) (cand : triangles) (percdiff rnd : ℚ)
    (hc : o.best.count ≤ cand.triangles.length) (hb : o.best.count ≤ o.best.triangles.length) :
    (acceptStep o cand percdiff rnd).best.count = o.best.count ∧
    (acceptStep o cand percdiff rnd).best.triangles.length = o.best.triangles.length ∧
    ((acceptStep o cand percdiff rnd).best.inuse = o.best.inuse ∨
     (acceptStep o cand percdiff rnd).best.inuse = cand.inuse) := by
  unfold acceptStep
  simp only []
  split_ifs
  · exact ⟨rfl, memcpySlots_length _ _ _ hc hb, Or.inr rfl⟩
  · exact ⟨rfl, memcpySlots_length _ _ _ hc hb, Or.inr rfl⟩
  · exact ⟨rfl, rfl, Or.inl rfl⟩

theorem generation_ensures (opts : Options) (image : Int → Int) (width height : Int)
    (o : Optimizer) (scratch : triangles) (fb : Int → Int) (rnd : ℚ) (g : Nat → Nat) :
    Ensures (generation opts image width height o scratch fb rnd) g (fun r _ =>
      r.1.state.max_shapes = o.state.max_shapes ∧ r.2.1.count = scratch.count ∧
      o.state.max_shapes_incremental ≤ r.1.state.max_shapes_incremental ∧
      (o.state.max_shapes_incremental ≤ scratch.count →
        r.1.state.max_shapes_incremental ≤ scratch.count) ∧
      (loopReady width height o scratch → loopReady width height r.1 r.2.1)) := by
  unfold generation
  simp only [ensures_bind, ensures_liftE, ensures_pure]
  refine ensures_mono (mutatetriangles_shape _ opts _ 10 width height g) ?_
  intro s2 g1 hs
  obtain ⟨hc, hl, hin⟩ := hs
  simp only [] at hc hl hin
  intro fb1 _ d _
  obtain ⟨b1, -, b3, -, b5⟩ := beginGeneration_state o.state scratch
  obtain ⟨a1, a2, -⟩ := acceptStep_state
    { o with state := beginGeneration o.state scratch } s2 (percdiff d width height) rnd
  simp only [] at a1 a2
  refine ⟨by rw [a1, b1], hc, by rw [a2]; exact b3, fun h => by rw [a2]; exact b5 h, ?_⟩
  intro hr
  obtain ⟨r1, r2, r3, r4, r5, r6, r7⟩ := hr
  have hlen : (s2.triangles.length : Int) = scratch.count := by
    rw [hl, memcpySlots_length _ _ _ (by omega) (by omega)]
    exact r7
  obtain ⟨c1, c2, c3⟩ := acceptStep_best
    { o with state := beginGeneration o.state scratch } s2 (percdiff d width height) rnd
    (by simp only []; omega) (by simp only []; omega)
  simp only [] at c1 c2 c3
  obtain ⟨i1, i2⟩ := hin r3 (by omega)
  refine ⟨r1, r2, ?_, ?_, ?_, ?_, ?_⟩
  · rcases c3 with c3 | c3 <;> rw [c3] <;> omega
  · rcases c3 with c3 | c3 <;> rw [c3, c1] <;> omega
  · rw [c1, hc]
    exact r5
  · rw [c1, c2]
    exact r6
  · rw [hc]
    exact hlen

theorem generation_returns (opts : Options) (image : Int → Int) (width height : Int)
    (o : Optimizer) (scratch : triangles) (fb : Int → Int) (rnd : ℚ) (g : Nat → Nat)
    (hr : loopReady width height o scratch) :
    Returns (generation opts image width height o scratch fb rnd) g (fun _ _ => True) := by
  obtain ⟨r1, r2, r3, r4, r5, r6, r7⟩ := hr
  unfold generation
  simp only [returns_bind, returns_liftE, returns_pure]
  have hlen : ((memcpySlots scratch.triangles o.best.triangles o.best.count).length : Int)
      = scratch.count := by
    rw [memcpySlots_length _ _ _ (by omega) (by omega)]
    exact r7
  apply returns_mono (returns_and_ensures
    (mutatetriangles_returns (beginGeneration o.state scratch) opts
      { scratch with
        triangles := memcpySlots scratch.triangles o.best.triangles o.best.count,
        inuse := o.best.inuse } 10 width height g r3 (by simp only []; omega) r1 r2 hlen)
    (mutatetriangles_shape _ opts _ 10 width height g))
  intro s2 g1 hs
  obtain ⟨-, hc, hl, hin⟩ := hs
  simp only [] at hc hl hin
  obtain ⟨i1, i2⟩ := hin r3 (by omega)
  obtain ⟨fb1, h1⟩ := drawtriangles_ok
    (fun i => if 0 ≤ i ∧ i < width * height * 3 then 0 else fb i) width height s2 (by omega)
  obtain ⟨d, h2⟩ := computeDiff_ok image fb1 width height
  exact ⟨fb1, h1, d, h2, trivial⟩

theorem generations_ensures (opts : Options) (image : Int → Int) (width height : Int) :
    ∀ (n : Nat) (rnds : Nat → ℚ) (o : Optimizer) (scratch : triangles) (fb : Int → Int)
      (g : Nat → Nat), o.state.max_shapes_incremental ≤ scratch.count →
      Ensures (generations opts image width height n rnds o scratch fb) g (fun r _ =>
        r.1.state.max_shapes = o.state.max_shapes ∧ r.2.1.count = scratch.count ∧
        o.state.max_shapes_incremental ≤ r.1.state.max_shapes_incremental ∧
        r.1.state.max_shapes_incremental ≤ scratch.count ∧
        (loopReady width height o scratch → loopReady width height r.1 r.2.1)) := by
  intro n
  induction n with
  | zero =>
    intro rnds o scratch fb g h
    unfold generations
    rw [ensures_pure]
    exact ⟨rfl, rfl, le_refl _, h, fun hr => hr⟩
  | succ k ih =>
    intro rnds o scratch fb g h
    unfold generations
    rw [ensures_bind]
    refine ensures_mono (generation_ensures opts image width height o scratch fb (rnds 0) g) ?_
    intro r g1 hr
    obtain ⟨e1, e2, e3, e4, e5⟩ := hr
    refine ensures_mono (ih (fun i => rnds (i + 1)) r.1 r.2.1 r.2.2 g1
      (by rw [e2]; exact e4 h)) ?_
    intro r2 g2 hr2
    obtain ⟨f1, f2, f3, f4, f5⟩ := hr2
    exact ⟨by rw [f1, e1], by rw [f2, e2], le_trans e3 f3, by rw [← e2]; exact f4,
      fun hr => f5 (e5 hr)⟩

theorem generations_returns (opts : Options) (image : Int → Int) (width height : Int) :
    ∀ (n : Nat) (rnds : Nat → ℚ) (o : Optimizer) (scratch : triangles) (fb : Int → Int)
      (g : Nat → Nat), loopReady width height o scratch →
      Returns (generations opts image width height n rnds o scratch fb) g (fun _ _ => True) := by
  intro n
  induction n with
  | zero =>
    intro rnds o scratch fb g _
    unfold generations
    exact (returns_pure _ _ _).2 trivial
  | succ k ih =>
    intro rnds o scratch fb g hr
    unfold generations
    rw [returns_bind]
    apply returns_mono (returns_and_ensures
      (generation_returns opts image width height o scratch fb (rnds 0) g hr)
      (generation_ensures opts image width height o scratch fb (rnds 0) g))
    intro r g1 h
    exact ih (fun i => rnds (i + 1)) r.1 r.2.1 r.2.2 g1 (h.2.2.2.2.2 hr)

/-- C21: starting a run of the loop of `main` from a state with
`max_shapes_incremental ≤ max_shapes` and a scratch set whose `count` is
`max_shapes`, after any number `n` of generations the budget
`max_shapes_incremental` is at least what it was at the start and at most
`max_shapes`, which has not changed, and after any further `k` generations it
is at least what it was after the first `n` and still at most `max_shapes`;
and when the sets are as `main` allocates them (`loopReady`), every number of
generations does complete, whatever the draws. -/
theorem budget_monotone_bounded (opts : Options) (image : Int → Int) (width height : Int)
    (n k : Nat) (rnds rnds2 : Nat → ℚ) (o : Optimizer) (scratch : triangles)
    (fb : Int → Int) (g : Nat → Nat)
    (h1 : o.state.max_shapes_incremental ≤ o.state.max_shapes)
    (h2 : scratch.count = o.state.max_shapes) :
    Ensures (generations opts image width height n rnds o scratch fb) g (fun r1 g1 =>
      o.state.max_shapes_incremental ≤ r1.1.state.max_shapes_incremental ∧
      r1.1.state.max_shapes_incremental ≤ o.state.max_shapes ∧
      r1.1.state.max_shapes = o.state.max_shapes ∧
      Ensures (generations opts image width height k rnds2 r1.1 r1.2.1 r1.2.2) g1
        (fun r2 _ =>
          r1.1.state.max_shapes_incremental ≤ r2.1.state.max_shapes_incremental ∧
          r2.1.state.max_shapes_incremental ≤ o.state.max_shapes)) ∧
    (loopReady width height o scratch →
      Returns (generations opts image width height n rnds o scratch fb) g
        (fun _ _ => True)) := by
  constructor
  · refine ensures_mono (generations_ensures opts image width height n rnds o scratch fb g
      (by omega)) ?_
    intro r1 g1 hr
    obtain ⟨e1, e2, e3, e4, -⟩ := hr
    refine ⟨e3, by omega, e1, ?_⟩
    refine ensures_mono (generations_ensures opts image width height k rnds2 r1.1 r1.2.1
      r1.2.2 g1 (by omega)) ?_
    intro r2 g2 hr2
    obtain ⟨-, -, f3, f4, -⟩ := hr2
    exact ⟨f3, by omega⟩
  · exact generations_returns opts image width height n rnds o scratch fb g

/-- Witness of C21: three generations on the 2 by 2 red target, from
generation 998 with a budget of 1 and room for 2 shapes. -/
theorem budget_monotone_bounded_witness :
    ∃ r g1, generations ⟨1, 1, 200⟩ redTarget 2 2 3 (fun _ => 1 / 2)
        ⟨⟨2, 1, 0, 100, 998⟩,
          ⟨[⟨0, 255, 0, 0, 90, 0, 0, 1, 0, 0, 1⟩, ⟨1, 9, 9, 9, 20, 1, 1, 0, 0, 0, 0⟩], 2, 1⟩,
          ⟨[⟨0, 255, 0, 0, 90, 0, 0, 1, 0, 0, 1⟩, ⟨1, 9, 9, 9, 20, 1, 1, 0, 0, 0, 0⟩], 2, 1⟩,
          100⟩
        ⟨[⟨0, 255, 0, 0, 90, 0, 0, 1, 0, 0, 1⟩, ⟨1, 9, 9, 9, 20, 1, 1, 0, 0, 0, 0⟩], 2, 1⟩
        (fun _ => 0) (fun i => 7 * i + 3) = .ok (r, g1) ∧
      1 ≤ r.1.state.max_shapes_incremental ∧ r.1.state.max_shapes_incremental ≤ 2 ∧
      r.1.state.max_shapes = 2 :=
  have h := budget_monotone_bounded ⟨1, 1, 200⟩ redTarget 2 2 3 0 (fun _ => 1 / 2) (fun _ => 0)
    ⟨⟨2, 1, 0, 100, 998⟩,
      ⟨[⟨0, 255, 0, 0, 90, 0, 0, 1, 0, 0, 1⟩, ⟨1, 9, 9, 9, 20, 1, 1, 0, 0, 0, 0⟩], 2, 1⟩,
      ⟨[⟨0, 255, 0, 0, 90, 0, 0, 1, 0, 0, 1⟩, ⟨1, 9, 9, 9, 20, 1, 1, 0, 0, 0, 0⟩], 2, 1⟩,
      100⟩
    ⟨[⟨0, 255, 0, 0, 90, 0, 0, 1, 0, 0, 1⟩, ⟨1, 9, 9, 9, 20, 1, 1, 0, 0, 0, 0⟩], 2, 1⟩
    (fun _ => 0) (fun i => 7 * i + 3) (by decide) (by decide)
  match h.2 (by decide) with
  | ⟨r, g1, e, _⟩ => ⟨r, g1, e, (h.1 r g1 e).1, (h.1 r g1 e).2.1, (h.1 r g1 e).2.2.1⟩

/-! ## The score on a large canvas: theorems -/

end Shapeme
